import Mathlib

/-!
# Beta-testers account system (script.js): embedding and verified properties

The controller class `BetaTestersSystem` of `src/script.js` is embedded as pure functions on an
explicit `State`.  Conventions of the embedding:

* In the records, JavaScript strings are Lean strings (sequences of Unicode scalar values);
  `charCodes` gives the UTF-16 code units that `charCodeAt` reads.  The platform functions behind
  `encryptData` and `decryptData` work on strings as lists of UTF-16 code units, so that lone
  surrogates and binary strings are covered.
* A field that a record may lack (`undefined`) or hold as `null` is an `Option`.
* Each collection getter (`getUsers`, `getNotifications`, ...) returns the collection written by
  the matching `save...` call, so a collection is one field of `State`; handlers load the whole
  list, change it and store it back.
* The persistence layer under the getters (`localStorage`, `FirebaseService`, the getters and
  savers themselves, `initializeDefaultData`) is embedded on its own, on `LocalStorage` and
  `Persistence`, with the stored values as `Json`; the outcome of a call to the remote store is
  an argument.
* What the handlers read from the page or the platform (form fields, the answer to `confirm`, the
  clock, the random draw) is an argument of the embedded handler.
* Rendering (`loadAccountsList`, `alert`, loaders) and the cosmetic `randomDelay` do not touch the
  stored collections and are left out of the handlers.
* The two computations on a random draw (`randomDelay`, `generateRandomPassword`) are embedded
  in double arithmetic: a non-negative double is its number of units of 2^-1074 and
  `roundDouble` rounds to the nearest double.
-/

namespace ClickerBeta

/-! ## Records -/

/-- User record, as pushed by `createAccount`, `approveRequest` and `completeInitialSetup`. -/
structure User where
  username : String
  password : String
  plainPassword : String
  role : String
  robloxName : String
  discord : Option String
  isMainAdmin : Option Bool
deriving DecidableEq

/-- Account request record, as pushed by `submitAccountRequest`. -/
structure AccountRequest where
  id : Nat
  username : String
  password : String
  plainPassword : Option String
  robloxName : String
  reason : String
  status : String
  timestamp : String
  acceptedAt : Option String
deriving DecidableEq

/-- Notification record; `sendNotification` builds it without the `isGlobal` field. -/
structure Notification where
  recipient : String
  type : String
  title : String
  message : String
  timestamp : String
  read : Bool
  isGlobal : Option Bool
deriving DecidableEq

/-- Log record, as built by `addLog`. -/
structure LogEntry where
  type : String
  message : String
  user : String
  timestamp : String
deriving DecidableEq

/-- Suggestion record; `submitSuggestion` builds it without a `status` field, which
`acceptSuggestion` and `rejectSuggestion` add. -/
structure Suggestion where
  id : Nat
  user : String
  category : String
  title : String
  description : String
  timestamp : String
  status : Option String
deriving DecidableEq

/-- Key/value string storage (`sessionStorage`), in insertion order. -/
abbrev Storage := List (String × String)

/-- The method `Storage.getItem`. -/
def Storage.getItem (st : Storage) (key : String) : Option String :=
  (st.find? (fun kv => kv.1 == key)).map (fun kv => kv.2)

/-- The method `Storage.removeItem`. -/
def Storage.removeItem (st : Storage) (key : String) : Storage :=
  st.filter (fun kv => kv.1 != key)

/-- The method `Storage.setItem`: an existing key keeps its place, a new one goes last. -/
def Storage.setItem : Storage → String → String → Storage
  | [], key, value => [(key, value)]
  | kv :: rest, key, value =>
    if kv.1 == key then (key, value) :: rest else kv :: Storage.setItem rest key value

/-- The stored collections and the controller fields the handlers read. -/
structure State where
  users : List User
  notifications : List Notification
  accountRequests : List AccountRequest
  suggestions : List Suggestion
  logs : List LogEntry
  accountRequestsEnabled : Bool
  currentUser : Option User
  currentEditingUser : Option String
  sessionStorage : Storage
deriving DecidableEq

/-! ## hashPassword -/

/-- Conversion `ToInt32` on integral values. -/
def toInt32 (x : Int) : Int := (x + 2147483648) % 4294967296 - 2147483648

/-- The operator `x << k` for `k < 32`: both operand and result are 32-bit signed. -/
def shl32 (x : Int) (k : Nat) : Int := toInt32 (toInt32 x * 2 ^ k)

/-- The UTF-16 code units of a string, the values `charCodeAt` returns. -/
def charCodes : List Char → List Nat
  | [] => []
  | c :: cs =>
    if c.toNat < 65536 then c.toNat :: charCodes cs
    else (55296 + (c.toNat - 65536) / 1024) :: (56320 + (c.toNat - 65536) % 1024) :: charCodes cs

/-- One digit of `Number.prototype.toString(36)`. -/
def digit36 (d : Nat) : Char := if d < 10 then Char.ofNat (48 + d) else Char.ofNat (87 + d)

/-- Digits of `n` in base 36, most significant first, in front of `acc`. -/
def toBase36Aux : Nat → Nat → List Char → List Char
  | 0, _, acc => acc
  | fuel + 1, n, acc =>
    if n < 36 then digit36 n :: acc else toBase36Aux fuel (n / 36) (digit36 (n % 36) :: acc)

/-- The call `n.toString(36)` for a non-negative integer `n` (`n + 1` steps always suffice). -/
def toString36 (n : Nat) : List Char := toBase36Aux (n + 1) n []

/-- The method `hashPassword`: the first loop keeps `hash` a 32-bit integer (`hash & hash`), the
second loop does not truncate (its values stay far below 2^53, so they are exact). -/
def hashPassword (password : String) : String :=
  let str := "BT_SECURE_2024_v1_" ++ password ++ "_ROBLOX_BETA_SYSTEM"
  let hash := (charCodes str.data).foldl (fun h c => toInt32 (shl32 h 5 - h + (c : Int))) 0
  let secondHash := toString36 hash.natAbs
  let hash2 := (charCodes secondHash).foldl (fun h c => shl32 h 3 - h + (c : Int)) hash
  String.mk (toString36 hash2.natAbs)

/-! ## Logs -/

/-- The method `addLog`: `unshift` the new entry, then `pop` once if more than 100. -/
def addLog (s : State) (type message now : String) : State :=
  let entry : LogEntry :=
    { type := type
      message := message
      user := match s.currentUser with
        | some u => u.username
        | none => "Sistema"
      timestamp := now }
  let logs := entry :: s.logs
  let logs := if logs.length > 100 then logs.dropLast else logs
  { s with logs := logs }

/-- The method `clearLogs`; `confirmed` is the answer to the `confirm` dialog. -/
def clearLogs (s : State) (confirmed : Bool) : State :=
  if confirmed then { s with logs := [] } else s

/-- A call of one of the two methods that store the log list. -/
inductive LogOp where
  | addLog (type message now : String)
  | clearLogs (confirmed : Bool)

/-- Run one log operation. -/
def LogOp.run (s : State) : LogOp → State
  | .addLog type message now => ClickerBeta.addLog s type message now
  | .clearLogs confirmed => ClickerBeta.clearLogs s confirmed

/-- Run a sequence of log operations, first to last. -/
def runLogOps (s : State) (ops : List LogOp) : State := ops.foldl LogOp.run s

/-! ## Notifications -/

/-- The copies pushed by the `forEach` of a broadcast; `now i` is the clock text read when the
copy of index `i` is built. -/
def broadcastCopies (type title message : String) (isGlobal : Option Bool) (now : Nat → String) :
    Nat → List User → List Notification
  | _, [] => []
  | i, u :: us =>
    { recipient := u.username, type := type, title := title, message := message,
      timestamp := now i, read := false, isGlobal := isGlobal }
      :: broadcastCopies type title message isGlobal now (i + 1) us

/-- The method `addInternalNotification`. -/
def addInternalNotification (s : State) (recipient type title message : String)
    (now : Nat → String) : State :=
  if recipient = "all" then
    let users := s.users.filter (fun u => u.role == "user")
    { s with notifications :=
        s.notifications ++ broadcastCopies type title message (some true) now 0 users }
  else
    { s with notifications := s.notifications ++
        [{ recipient := recipient, type := type, title := title, message := message,
           timestamp := now 0, read := false, isGlobal := some false }] }

/-- The deduplication key of `addGlobalNotificationsToNewUser`. -/
def notifKey (n : Notification) : String :=
  n.title ++ "-" ++ n.message ++ "-" ++ n.timestamp

/-- The copy of a global notification made for `username`. -/
def copyFor (username : String) (n : Notification) : Notification :=
  { recipient := username, type := n.type, title := n.title, message := n.message,
    timestamp := n.timestamp, read := false, isGlobal := some true }

/-- The `forEach` of `addGlobalNotificationsToNewUser`: `seen` holds the keys met so far. -/
def uniqueCopies (username : String) : List String → List Notification → List Notification
  | _, [] => []
  | seen, n :: rest =>
    if seen.contains (notifKey n) then uniqueCopies username seen rest
    else copyFor username n :: uniqueCopies username (notifKey n :: seen) rest

/-- The method `addGlobalNotificationsToNewUser`. -/
def addGlobalNotificationsToNewUser (s : State) (username : String) : State :=
  let globalNotifications := s.notifications.filter (fun n => n.isGlobal == some true)
  let uniqueNotifications := uniqueCopies username [] globalNotifications
  { s with notifications := s.notifications ++ uniqueNotifications }

/-- The method `sendNotification` (admin panel); `specificUser` is the selected user. -/
def sendNotification (s : State) (recipient type title message specificUser : String)
    (now : Nat → String) (logTime : String) : State :=
  if title = "" ∨ message = "" then s
  else
    let notifications :=
      if recipient = "all" then
        s.notifications ++ broadcastCopies type title message none now 0
          (s.users.filter (fun u => u.role == "user"))
      else
        s.notifications ++
          [{ recipient := specificUser, type := type, title := title, message := message,
             timestamp := now 0, read := false, isGlobal := none }]
    addLog { s with notifications := notifications } "notification"
      ("Notificación enviada: " ++ title) logTime

/-- Notifications addressed to `username`. -/
def notificationsOf (s : State) (username : String) : List Notification :=
  s.notifications.filter (fun n => n.recipient == username)

/-! ## Accounts and account requests -/

/-- The method `setTempPassword`; `nowMs` is `Date.now()`. -/
def setTempPassword (s : State) (username password : String) (nowMs : Nat) : State :=
  let st := s.sessionStorage.setItem ("temp_pwd_" ++ username) password
  { s with sessionStorage := st.setItem ("temp_pwd_" ++ username ++ "_time") (toString nowMs) }

/-- The method `createAccount`; `password` is the value drawn by `generateRandomPassword`. -/
def createAccount (s : State) (username robloxName role password : String) (nowMs : Nat) :
    State :=
  if username = "" ∨ robloxName = "" then s
  else
    match s.users.find? (fun u => u.username == username) with
    | some _ => s
    | none =>
      let users := s.users ++
        [{ username := username, password := hashPassword password, plainPassword := password,
           role := role, robloxName := robloxName, discord := none, isMainAdmin := none }]
      let s1 := setTempPassword { s with users := users } username password nowMs
      if role = "user" then addGlobalNotificationsToNewUser s1 username else s1

/-- The expression `value || fallback` on an optional string: absent and empty are falsy. -/
def orElseText : Option String → String → String
  | some v, fallback => if v = "" then fallback else v
  | none, fallback => fallback

/-- The in-place update of `approveRequest`: the first record with the id is the one `find`
returned, and it is the one that is changed. -/
def markAccepted (requestId : Nat) (acceptedAt : String) :
    List AccountRequest → List AccountRequest
  | [] => []
  | r :: rest =>
    if r.id == requestId then
      { r with status := "accepted", acceptedAt := some acceptedAt } :: rest
    else r :: markAccepted requestId acceptedAt rest

/-- The method `approveRequest`; `confirmed` is the answer to the `confirm` dialog, `acceptedAt`
and `logTime` are the two clock texts read. -/
def approveRequest (s : State) (requestId : Nat) (confirmed : Bool)
    (acceptedAt logTime : String) : State :=
  if !confirmed then s
  else
    match s.accountRequests.find? (fun r => r.id == requestId) with
    | none => s
    | some request =>
      match s.users.find? (fun u => u.username == request.username) with
      | some _ => s
      | none =>
        let users := s.users ++
          [{ username := request.username, password := request.password,
             plainPassword := orElseText request.plainPassword "****", role := "user",
             robloxName := request.robloxName, discord := none, isMainAdmin := none }]
        let s1 := addGlobalNotificationsToNewUser { s with users := users } request.username
        let s2 := { s1 with
          accountRequests := markAccepted requestId acceptedAt s.accountRequests }
        addLog s2 "account" ("Solicitud de cuenta aprobada: " ++ request.username) logTime

/-- The test `/^\d{4}$/`. -/
def isFourDigits (password : String) : Bool :=
  password.data.length == 4 && password.data.all (fun c => decide ('0' ≤ c ∧ c ≤ '9'))

/-- Arguments of an `addInternalNotification` call: recipient, type, title, message. -/
structure NotificationCall where
  recipient : String
  type : String
  title : String
  message : String
deriving DecidableEq

/-- What a handler leaves when it returns: the stored state, and the `addInternalNotification`
calls it started without `await`, which have stored nothing yet at that point. -/
structure Outcome where
  state : State
  detached : List NotificationCall
deriving DecidableEq

/-- The method `submitAccountRequest`; `nowMs` is `Date.now()`, `now` the clock text. -/
def submitAccountRequest (s : State) (username password robloxName reason : String)
    (nowMs : Nat) (now : String) : Outcome :=
  if !s.accountRequestsEnabled then ⟨s, []⟩
  else if username = "" ∨ password = "" ∨ robloxName = "" ∨ reason = "" then ⟨s, []⟩
  else if !isFourDigits password then ⟨s, []⟩
  else
    match s.users.find? (fun u => u.username == username) with
    | some _ => ⟨s, []⟩
    | none =>
      match s.accountRequests.find? (fun r => r.username == username && r.status == "pending") with
      | some _ => ⟨s, []⟩
      | none =>
        let newRequest : AccountRequest :=
          { id := nowMs, username := username, password := hashPassword password,
            plainPassword := some password, robloxName := robloxName, reason := reason,
            status := "pending", timestamp := now, acceptedAt := none }
        let admins := s.users.filter (fun u => u.role == "admin")
        ⟨{ s with accountRequests := s.accountRequests ++ [newRequest] },
          admins.map (fun admin =>
            { recipient := admin.username, type := "info", title := "Nueva Solicitud de Cuenta",
              message := username ++ " solicitó una cuenta" })⟩

/-! ## Sample data -/

/-- A tester account. -/
def sampleUser (name : String) : User :=
  { username := name, password := "1cogiwh", plainPassword := "1234", role := "user",
    robloxName := name ++ "_rbx", discord := none, isMainAdmin := none }

/-- An account request. -/
def sampleRequest (id : Nat) (name status : String) : AccountRequest :=
  { id := id, username := name, password := "1cogiwh", plainPassword := some "1234",
    robloxName := name ++ "_rbx", reason := "beta", status := status,
    timestamp := "6/11/2026, 10:00:00", acceptedAt := none }

/-- A log entry. -/
def sampleLog : LogEntry :=
  { type := "login", message := "ana ha iniciado sesión", user := "ana",
    timestamp := "6/11/2026, 10:00:00" }

/-- A stored copy of a broadcast, addressed to ana. -/
def sampleGlobal : Notification :=
  { recipient := "ana", type := "success", title := "¡Juego Disponible!",
    message := "El juego ya está disponible para jugar", timestamp := "6/11/2026, 10:00:00",
    read := true, isGlobal := some true }

/-- A state with nothing stored. -/
def emptyState : State :=
  { users := [], notifications := [], accountRequests := [], suggestions := [], logs := [],
    accountRequestsEnabled := true, currentUser := none, currentEditingUser := none,
    sessionStorage := [] }

/-- One tester (ana), one stored broadcast copy, and a pending request of bob with id 7. -/
def sampleState : State :=
  { emptyState with
    users := [sampleUser "ana"]
    notifications := [sampleGlobal]
    accountRequests := [sampleRequest 7 "bob" "pending"] }

/-- Two requests carry the id 5: the first, of ana, is already accepted (ana is a user); the
second, of bob, is pending. -/
def sameIdState : State :=
  { emptyState with
    users := [sampleUser "ana"]
    accountRequests := [sampleRequest 5 "ana" "accepted", sampleRequest 5 "bob" "pending"] }

/-- A request for the username of an existing user (ana). -/
def collisionState : State :=
  { emptyState with
    users := [sampleUser "ana"]
    accountRequests := [sampleRequest 7 "ana" "pending"] }

/-- An administrator account. -/
def sampleAdmin : User :=
  { username := "root", password := "e187l3", plainPassword := "0000", role := "admin",
    robloxName := "root_rbx", discord := none, isMainAdmin := some true }

/-- Only the administrator exists: no account with role user yet. -/
def adminOnlyState : State := { emptyState with users := [sampleAdmin] }

/-- The administrator and one tester (ana), nothing else stored. -/
def oneTesterState : State := { emptyState with users := [sampleAdmin, sampleUser "ana"] }

/-- A state whose log list is full. -/
def fullLogState : State := { emptyState with logs := List.replicate 100 sampleLog }

/-! ## Passwords: validation, change, edit, delete -/

/-- The method `hashPassword` as a call on the controller: the result and the controller state
after the call.  The method reads no field of `this` and assigns none. -/
def hashPasswordCall (s : State) (password : String) : String × State :=
  (hashPassword password, s)

/-- The value of `hash` after the first loop of `hashPassword`. -/
def firstPass (password : String) : Int :=
  (charCodes ("BT_SECURE_2024_v1_" ++ password ++ "_ROBLOX_BETA_SYSTEM").data).foldl
    (fun h c => toInt32 (shl32 h 5 - h + (c : Int))) 0

/-- The value of `hash` after `k` rounds of the second loop of `hashPassword`. -/
def secondPassAt (password : String) (k : Nat) : Int :=
  ((charCodes (toString36 (firstPass password).natAbs)).take k).foldl
    (fun h c => shl32 h 3 - h + (c : Int)) (firstPass password)

/-- The test `/^\d{4,6}$/`. -/
def isFourToSixDigits (password : String) : Bool :=
  4 ≤ password.data.length && password.data.length ≤ 6
    && password.data.all (fun c => decide ('0' ≤ c ∧ c ≤ '9'))

/-- The test `validPattern.test(newPassword)` of `changePassword` and `saveEdit`. -/
def passwordAllowed (isMainAdmin : Bool) (newPassword : String) : Bool :=
  if isMainAdmin then isFourToSixDigits newPassword else isFourDigits newPassword

/-- Change, in place, the first element that satisfies `p` (the object `find` returned). -/
def updateFirst {α : Type} (p : α → Bool) (f : α → α) : List α → List α
  | [] => []
  | x :: rest => if p x then f x :: rest else x :: updateFirst p f rest

/-- The method `changePassword`; `nowMs` is `Date.now()`.  Reading `this.currentUser.isMainAdmin`
without a current user raises `TypeError`: nothing is changed. -/
def changePassword (s : State) (currentPassword newPassword confirmPassword : String)
    (nowMs : Nat) : State :=
  if currentPassword = "" ∨ newPassword = "" ∨ confirmPassword = "" then s
  else
    match s.currentUser with
    | none => s
    | some current =>
      let isMainAdmin := current.isMainAdmin == some true
      if !passwordAllowed isMainAdmin newPassword then s
      else if newPassword ≠ confirmPassword then s
      else
        match s.users.find? (fun u => u.username == current.username) with
        | none => s
        | some user =>
          if user.password ≠ hashPassword currentPassword then s
          else
            let users := updateFirst (fun u => u.username == current.username)
              (fun u => { u with password := hashPassword newPassword,
                                 plainPassword := newPassword }) s.users
            setTempPassword
              { s with
                users := users
                currentUser := some { current with password := hashPassword newPassword } }
              user.username newPassword nowMs

/-- The guard of `saveEdit` and `deleteAccount`: the account selected in the edit dialog is
`ducky_y2` and the current user is someone else.  Without a current user the comparison raises
`TypeError`, which also ends the handler. -/
def blockedForOthers (s : State) : Bool :=
  s.currentEditingUser == some "ducky_y2" &&
    (match s.currentUser with
     | none => true
     | some current => current.username != "ducky_y2")

/-- The method `editAccount`: opens the edit dialog for an existing account. -/
def editAccount (s : State) (username : String) : State :=
  match s.users.find? (fun u => u.username == username) with
  | none => s
  | some _ => { s with currentEditingUser := some username }

/-- The method `saveEdit`; the three texts are the fields of the edit dialog. -/
def saveEdit (s : State) (newPassword newRobloxName newRole : String) (nowMs : Nat) : State :=
  if blockedForOthers s then s
  else
    match s.users.find? (fun u => some u.username == s.currentEditingUser) with
    | none => s
    | some user =>
      let isMainAdmin := user.isMainAdmin == some true
      if newPassword ≠ "" ∧ !passwordAllowed isMainAdmin newPassword then s
      else
        let users := updateFirst (fun u => some u.username == s.currentEditingUser)
          (fun u =>
            if newPassword ≠ "" then
              { u with password := hashPassword newPassword, plainPassword := newPassword,
                       robloxName := newRobloxName, role := newRole }
            else { u with robloxName := newRobloxName, role := newRole }) s.users
        let s1 := if newPassword ≠ "" then setTempPassword s user.username newPassword nowMs
          else s
        { s1 with users := users }

/-- The method `deleteAccount`; `confirmed` is the answer to the `confirm` dialog. -/
def deleteAccount (s : State) (confirmed : Bool) : State :=
  if blockedForOthers s then s
  else if !confirmed then s
  else
    match s.users.find? (fun u => some u.username == s.currentEditingUser) with
    | none => s
    | some _ =>
      match s.currentEditingUser with
      | none => s
      | some editing =>
        let session := s.sessionStorage.removeItem ("temp_pwd_" ++ editing)
        { s with
          users := s.users.eraseP (fun u => u.username == editing)
          sessionStorage := session.removeItem ("temp_pwd_" ++ editing ++ "_time") }

/-! ## Temporary passwords -/

/-- White space that `parseInt` skips (`StrWhiteSpaceChar`). -/
def isStrWhiteSpace (c : Char) : Bool :=
  let n := c.toNat
  (9 ≤ n && n ≤ 13) || n = 0x20 || n = 0xA0 || n = 0x1680 || (0x2000 ≤ n && n ≤ 0x200A)
    || n = 0x2028 || n = 0x2029 || n = 0x202F || n = 0x205F || n = 0x3000 || n = 0xFEFF

/-- The value of a character as a digit of the given radix. -/
def radixDigit (radix : Nat) (c : Char) : Option Nat :=
  let n := c.toNat
  let v :=
    if 48 ≤ n ∧ n ≤ 57 then n - 48
    else if 97 ≤ n ∧ n ≤ 122 then n - 87
    else if 65 ≤ n ∧ n ≤ 90 then n - 55
    else 36
  if v < radix then some v else none

/-- The value of the leading run of digits of the radix, after the digits valued `acc`. -/
def readRadixDigits (radix : Nat) : List Char → Nat → Nat
  | [], acc => acc
  | c :: rest, acc =>
    match radixDigit radix c with
    | some d => readRadixDigits radix rest (acc * radix + d)
    | none => acc

/-- The function `parseInt` with one argument; `none` is `NaN`.  White space is skipped, a sign
is read, `0x` selects radix 16, then the leading run of digits is the value. -/
def parseInt (text : String) : Option Int :=
  let s := text.data.dropWhile isStrWhiteSpace
  let negative := s.head? == some '-'
  let s := if s.head? == some '-' || s.head? == some '+' then s.tail else s
  let hex :=
    match s with
    | a :: b :: _ => a == '0' && (b == 'x' || b == 'X')
    | _ => false
  let radix := if hex then 16 else 10
  let s := if hex then s.drop 2 else s
  match s with
  | [] => none
  | c :: _ =>
    match radixDigit radix c with
    | none => none
    | some _ =>
      if negative then some (-(readRadixDigits radix s 0 : Int))
      else some (readRadixDigits radix s 0 : Int)

/-- The method `getTempPassword`; `nowMs` is `Date.now()`.  The result is the returned value
(`none` is `null`) and the state after the call. -/
def getTempPassword (s : State) (username : String) (nowMs : Nat) : Option String × State :=
  let temp := s.sessionStorage.getItem ("temp_pwd_" ++ username)
  match temp with
  | none => (none, s)
  | some value =>
    if value = "" then (temp, s)
    else
      match s.sessionStorage.getItem ("temp_pwd_" ++ username ++ "_time") with
      | none => (temp, s)
      | some timestamp =>
        if timestamp = "" then (temp, s)
        else
          match parseInt timestamp with
          | none => (temp, s)
          | some start =>
            if (nowMs : Int) - start > 1800000 then
              let session := s.sessionStorage.removeItem ("temp_pwd_" ++ username)
              (none, { s with
                sessionStorage := session.removeItem ("temp_pwd_" ++ username ++ "_time") })
            else (temp, s)

/-! ## More sample data -/

/-- The primary admin (root, flagged `isMainAdmin`) and a second administrator (eva); eva is
logged in and has opened the edit dialog for root. -/
def otherAdminState : State :=
  { emptyState with
    users := [sampleAdmin,
      { username := "eva", password := "8pirq", plainPassword := "5678", role := "admin",
        robloxName := "eva_rbx", discord := none, isMainAdmin := none }]
    currentUser := some
      { username := "eva", password := "8pirq", plainPassword := "5678", role := "admin",
        robloxName := "eva_rbx", discord := none, isMainAdmin := none }
    currentEditingUser := some "root" }

/-! ## Suggestions -/

/-- The awaited loop `for (const admin of admins) await this.addInternalNotification(...)` of
`submitSuggestion`; `clock i` is the clock text read for the admin of index `i`. -/
def notifyAdmins (type title message : String) (clock : Nat → String) :
    State → Nat → List User → State
  | s, _, [] => s
  | s, i, admin :: rest =>
    notifyAdmins type title message clock
      (addInternalNotification s admin.username type title message (fun _ => clock i)) (i + 1)
      rest

/-- The method `submitSuggestion`; `nowMs` is `Date.now()`, `timestamp` and `logTime` are the
clock texts of the record and of the log entry, `clock` gives those of the notifications.
Without a current user, reading `this.currentUser.username` raises `TypeError` before anything
is stored. -/
def submitSuggestion (s : State) (category title description : String) (nowMs : Nat)
    (timestamp logTime : String) (clock : Nat → String) : State :=
  if title = "" ∨ description = "" then s
  else
    match s.currentUser with
    | none => s
    | some current =>
      let suggestions :=
        { id := nowMs, user := current.username, category := category, title := title,
          description := description, timestamp := timestamp, status := none }
          :: s.suggestions
      let s1 := addLog { s with suggestions := suggestions } "suggestion"
        (current.username ++ " envió una sugerencia: " ++ title) logTime
      notifyAdmins "info" "Nueva Sugerencia" (current.username ++ ": " ++ title) clock s1 0
        (s1.users.filter (fun u => u.role == "admin"))

/-- The method `acceptSuggestion`; `notifTime` and `logTime` are the clock texts read. -/
def acceptSuggestion (s : State) (suggestionId : Nat) (notifTime logTime : String) : State :=
  match s.suggestions.find? (fun x => x.id == suggestionId) with
  | none => s
  | some suggestion =>
    let suggestions := updateFirst (fun x => x.id == suggestionId)
      (fun x => { x with status := some "accepted" }) s.suggestions
    let s1 := addInternalNotification { s with suggestions := suggestions } suggestion.user
      "success" "Sugerencia Aceptada"
      ("Tu sugerencia \"" ++ suggestion.title ++ "\" ha sido aceptada") (fun _ => notifTime)
    addLog s1 "suggestion" ("Sugerencia \"" ++ suggestion.title ++ "\" aceptada") logTime

/-- The method `rejectSuggestion`; `logTime` is the clock text read. -/
def rejectSuggestion (s : State) (suggestionId : Nat) (logTime : String) : State :=
  match s.suggestions.find? (fun x => x.id == suggestionId) with
  | none => s
  | some suggestion =>
    let suggestions := updateFirst (fun x => x.id == suggestionId)
      (fun x => { x with status := some "rejected" }) s.suggestions
    addLog { s with suggestions := suggestions } "suggestion"
      ("Sugerencia \"" ++ suggestion.title ++ "\" rechazada") logTime

/-- The badge `loadAdminSuggestions` shows for a record: anything but accepted and rejected,
a missing status included, is shown as pending. -/
def shownStatus (x : Suggestion) : String :=
  if x.status = some "accepted" then "ACEPTADA"
  else if x.status = some "rejected" then "RECHAZADA"
  else "PENDIENTE"

/-! ## Notifications of the current user -/

/-- The method `markAllNotificationsRead`.  Without a current user the callback raises
`TypeError` on the first record and nothing is stored. -/
def markAllNotificationsRead (s : State) : State :=
  match s.currentUser with
  | none => s
  | some current =>
    let marked := s.notifications.map
      (fun n => if n.recipient == current.username then { n with read := true } else n)
    { s with notifications := marked }

/-- The method `clearUserNotifications`; `confirmed` is the answer to the `confirm` dialog. -/
def clearUserNotifications (s : State) (confirmed : Bool) : State :=
  if !confirmed then s
  else
    match s.currentUser with
    | none => s
    | some current =>
      let kept := s.notifications.filter (fun n => n.recipient != current.username)
      { s with notifications := kept }

/-! ## Rejecting a request -/

/-- The method `rejectRequest`; `confirmed` is the answer to the `confirm` dialog.  The record
at the index `findIndex` returned is spliced out. -/
def rejectRequest (s : State) (requestId : Nat) (confirmed : Bool) : State :=
  if !confirmed then s
  else
    match s.accountRequests.find? (fun r => r.id == requestId) with
    | none => s
    | some _ =>
      { s with accountRequests := s.accountRequests.eraseP (fun r => r.id == requestId) }

/-! ## Random draws

`Math.random()` returns a double that is at least 0 and below 1.  Every finite double is a
whole number of units of 2^-1074, so a non-negative double is given here by its number of
units: 1 is `2 ^ 1074` units.  The arithmetic below is the one of IEEE 754 doubles, rounding to
nearest with ties to even; the values stay far below the overflow threshold. -/

set_option exponentiation.threshold 4000

/-- The number of bits `n` has beyond 53, found by halving; `fuel` at least `n` is enough. -/
def excessBits : Nat → Nat → Nat
  | 0, _ => 0
  | fuel + 1, n => if n < 2 ^ 53 then 0 else excessBits fuel (n / 2) + 1

/-- The double nearest to `n` units, ties to even: `n` is kept when it has at most 53 bits,
else it is rounded to a multiple of `2 ^ shift` that has 53 bits. -/
def roundDouble (n : Nat) : Nat :=
  let shift := excessBits n n
  if shift = 0 then n
  else
    let q := n / 2 ^ shift
    let rest := n % 2 ^ shift
    let half := 2 ^ (shift - 1)
    if rest < half ∨ (rest = half ∧ q % 2 = 0) then q * 2 ^ shift else (q + 1) * 2 ^ shift

/-- The value `randomTime` that `randomDelay` passes to `delay`, in milliseconds, for the value
`draw` (in units) returned by `Math.random()`: `Math.floor(draw * (max - min + 1)) + min`. -/
def randomDelay (draw : Nat) : Nat :=
  roundDouble (draw * (3000 - 1000 + 1)) / 2 ^ 1074 + 1000

/-- The method `generateRandomPassword` for the value `draw` (in units) returned by
`Math.random()`: `Math.floor(1000 + draw * 9000).toString()`. -/
def generateRandomPassword (draw : Nat) : String :=
  toString (roundDouble (1000 * 2 ^ 1074 + roundDouble (draw * 9000)) / 2 ^ 1074)

/-- The largest double below 1, in units: 1 - 2^-53. -/
def largestDraw : Nat := 2 ^ 1074 - 2 ^ 1021

/-! ## Sample data for the handlers above -/

/-- A suggestion as `submitSuggestion` stores it. -/
def sampleSuggestion (id : Nat) (user : String) : Suggestion :=
  { id := id, user := user, category := "gameplay", title := "Más mapas",
    description := "Un mapa nocturno", timestamp := "6/11/2026, 10:00:00", status := none }

/-- The tester ana is logged in; two notifications are addressed to her and one to bob. -/
def anaSessionState : State :=
  { emptyState with
    users := [sampleAdmin, sampleUser "ana", sampleUser "bob"]
    notifications :=
      [{ sampleGlobal with read := false },
       { sampleGlobal with recipient := "bob", read := false },
       { sampleGlobal with title := "Bug Arreglado", isGlobal := some false }]
    accountRequests := [sampleRequest 7 "carl" "pending", sampleRequest 8 "dora" "pending"]
    suggestions := [sampleSuggestion 3 "ana", sampleSuggestion 4 "bob"]
    currentUser := some (sampleUser "ana") }

/-- Two stored broadcasts with different titles and messages whose keys coincide
(`a-b` with `c`, and `a` with `b-c`, sent within the same second). -/
def sameKeyState : State :=
  { emptyState with
    users := [sampleUser "ana"]
    notifications :=
      [{ recipient := "ana", type := "info", title := "a-b", message := "c",
         timestamp := "6/11/2026, 10:00:00", read := false, isGlobal := some true },
       { recipient := "ana", type := "info", title := "a", message := "b-c",
         timestamp := "6/11/2026, 10:00:00", read := false, isGlobal := some true }] }

/-- The stored hash of ana is the one of the empty text; ana is logged in. -/
def emptyHashState : State :=
  { emptyState with
    users := [{ sampleUser "ana" with password := hashPassword "" }]
    currentUser := some { sampleUser "ana" with password := hashPassword "" } }

/-! ## Platform functions used by encryptData and decryptData

A JavaScript string is the list of its UTF-16 code units (numbers below 65536); a binary string
is one whose code units are bytes.  The functions below follow ECMA-262 (`JSON.stringify`,
`JSON.parse`, `encodeURIComponent`, `decodeURIComponent`, `escape`, `unescape`) and the HTML
standard (`btoa`, `atob`); a thrown exception is the result `none`. -/

/-- Upper-case hexadecimal digit of a value below 16. -/
def hexDigitUpper (n : Nat) : Nat := if n < 10 then 48 + n else 55 + n

/-- Lower-case hexadecimal digit of a value below 16. -/
def hexDigitLower (n : Nat) : Nat := if n < 10 then 48 + n else 87 + n

/-- Value of a hexadecimal digit, either case. -/
def hexVal (c : Nat) : Option Nat :=
  if 48 ≤ c ∧ c ≤ 57 then some (c - 48)
  else if 65 ≤ c ∧ c ≤ 70 then some (c - 55)
  else if 97 ≤ c ∧ c ≤ 102 then some (c - 87)
  else none

/-- Value of two hexadecimal digits. -/
def hexOctet (a b : Nat) : Option Nat :=
  match hexVal a, hexVal b with
  | some x, some y => some (16 * x + y)
  | _, _ => none

/-- Value of four hexadecimal digits. -/
def hexQuad (a b c d : Nat) : Option Nat :=
  match hexOctet a b, hexOctet c d with
  | some x, some y => some (256 * x + y)
  | _, _ => none

/-- ASCII letter or digit. -/
def isAlphaNum (c : Nat) : Bool :=
  (48 ≤ c && c ≤ 57) || (65 ≤ c && c ≤ 90) || (97 ≤ c && c ≤ 122)

/-! ### JSON values and JSON.stringify -/

/-- JSON value.  Numbers are the integers (record ids are `Date.now()` values); an object is the
list of its properties in property order. -/
inductive Json where
  | null
  | bool (b : Bool)
  | num (n : Int)
  | str (s : List Nat)
  | arr (items : List Json)
  | obj (fields : List (List Nat × Json))

/-- The value of a property key that is an array index: the canonical decimal text of a number
below 2^32 - 1. -/
def arrayIndex : List Nat → Option Nat
  | [] => none
  | c :: rest =>
    if c = 48 then (if rest = [] then some 0 else none)
    else if 49 ≤ c ∧ c ≤ 57 ∧ rest.all (fun d => 48 ≤ d && d ≤ 57) then
      let v := rest.foldl (fun acc d => acc * 10 + (d - 48)) (c - 48)
      if v ≤ 4294967294 then some v else none
    else none

/-- Property order: key `k` is listed before key `k2` whenever `k` is an array index and `k2` is
not one or is a larger one. -/
def keyBefore (k k2 : List Nat) : Bool :=
  match arrayIndex k, arrayIndex k2 with
  | some i, some j => i < j
  | some _, none => true
  | none, _ => false

/-- A property list as an object holds it: keys distinct, array indices first and ascending. -/
def KeysOrdered (fields : List (List Nat × Json)) : Prop :=
  fields.Pairwise (fun a b => a.1 ≠ b.1 ∧ keyBefore b.1 a.1 = false)

instance (fields : List (List Nat × Json)) : Decidable (KeysOrdered fields) := by
  unfold KeysOrdered
  infer_instance

mutual
/-- Values that `JSON.stringify` renders exactly: code units below 65536, integers in the range
where a double is exact, objects with a proper property list. -/
def Json.WF : Json → Bool
  | .null => true
  | .bool _ => true
  | .num n => decide (n.natAbs < 9007199254740992)
  | .str s => s.all (fun c => c < 65536)
  | .arr items => Json.WFItems items
  | .obj fields => decide (KeysOrdered fields) && Json.WFFields fields
/-- Every element is well formed. -/
def Json.WFItems : List Json → Bool
  | [] => true
  | x :: rest => Json.WF x && Json.WFItems rest
/-- Every key and every value is well formed. -/
def Json.WFFields : List (List Nat × Json) → Bool
  | [] => true
  | (k, x) :: rest => k.all (fun c => c < 65536) && Json.WF x && Json.WFFields rest
end

/-- The escape `\uXXXX` of `QuoteJSONString`. -/
def unicodeEscape (c : Nat) : List Nat :=
  [0x5C, 0x75, hexDigitLower (c / 4096 % 16), hexDigitLower (c / 256 % 16),
    hexDigitLower (c / 16 % 16), hexDigitLower (c % 16)]

/-- What `QuoteJSONString` writes for a code unit that is not the first half of a pair. -/
def quoteUnit (c : Nat) : List Nat :=
  if c = 0x08 then [0x5C, 0x62]
  else if c = 0x09 then [0x5C, 0x74]
  else if c = 0x0A then [0x5C, 0x6E]
  else if c = 0x0C then [0x5C, 0x66]
  else if c = 0x0D then [0x5C, 0x72]
  else if c = 0x22 then [0x5C, 0x22]
  else if c = 0x5C then [0x5C, 0x5C]
  else if c < 0x20 ∨ (0xD800 ≤ c ∧ c ≤ 0xDFFF) then unicodeEscape c
  else [c]

/-- The text `QuoteJSONString` writes between the quotes: a surrogate pair is copied, a lone
surrogate is escaped. -/
def quoteBody : List Nat → List Nat
  | [] => []
  | [c] => quoteUnit c
  | c :: d :: rest =>
    if (0xD800 ≤ c ∧ c ≤ 0xDBFF) ∧ (0xDC00 ≤ d ∧ d ≤ 0xDFFF) then c :: d :: quoteBody rest
    else quoteUnit c ++ quoteBody (d :: rest)

/-- Decimal digits of `n`, most significant first, in front of `acc`. -/
def decimalAux : Nat → Nat → List Nat → List Nat
  | 0, _, acc => acc
  | fuel + 1, n, acc =>
    if n < 10 then (48 + n) :: acc else decimalAux fuel (n / 10) ((48 + n % 10) :: acc)

/-- Decimal text of a natural number. -/
def decimal (n : Nat) : List Nat := decimalAux (n + 1) n []

/-- The text of an integer number value. -/
def numberToString (n : Int) : List Nat :=
  if n < 0 then 0x2D :: decimal n.natAbs else decimal n.natAbs

mutual
/-- The function `JSON.stringify` (no indentation). -/
def JSON.stringify : Json → List Nat
  | .null => [0x6E, 0x75, 0x6C, 0x6C]
  | .bool true => [0x74, 0x72, 0x75, 0x65]
  | .bool false => [0x66, 0x61, 0x6C, 0x73, 0x65]
  | .num n => numberToString n
  | .str s => 0x22 :: quoteBody s ++ [0x22]
  | .arr [] => [0x5B, 0x5D]
  | .arr (x :: rest) => 0x5B :: JSON.stringify x ++ JSON.moreElements rest
  | .obj [] => [0x7B, 0x7D]
  | .obj ((k, x) :: rest) =>
    0x7B :: 0x22 :: quoteBody k ++ 0x22 :: 0x3A :: JSON.stringify x ++ JSON.moreMembers rest
/-- The remaining elements of an array, each after a comma, and the closing bracket. -/
def JSON.moreElements : List Json → List Nat
  | [] => [0x5D]
  | x :: rest => 0x2C :: JSON.stringify x ++ JSON.moreElements rest
/-- The remaining members of an object, each after a comma, and the closing brace. -/
def JSON.moreMembers : List (List Nat × Json) → List Nat
  | [] => [0x7D]
  | (k, x) :: rest =>
    0x2C :: 0x22 :: quoteBody k ++ 0x22 :: 0x3A :: JSON.stringify x ++ JSON.moreMembers rest
end

/-! ### JSON.parse -/

/-- Skip JSON white space (space, tab, line feed, carriage return). -/
def skipWs : List Nat → List Nat
  | [] => []
  | c :: rest => if c = 0x20 ∨ c = 0x09 ∨ c = 0x0A ∨ c = 0x0D then skipWs rest else c :: rest

/-- The character an escape `\c` stands for. -/
def simpleEscape (e : Nat) : Option Nat :=
  if e = 0x22 then some 0x22
  else if e = 0x5C then some 0x5C
  else if e = 0x2F then some 0x2F
  else if e = 0x62 then some 0x08
  else if e = 0x66 then some 0x0C
  else if e = 0x6E then some 0x0A
  else if e = 0x72 then some 0x0D
  else if e = 0x74 then some 0x09
  else none

/-- Read a string after its opening quote: the content and the text after the closing quote. -/
def parseStringBody : List Nat → Option (List Nat × List Nat)
  | [] => none
  | c :: rest =>
    if c = 0x22 then some ([], rest)
    else if c = 0x5C then
      match rest with
      | [] => none
      | e :: rest1 =>
        if e = 0x75 then
          match rest1 with
          | h1 :: h2 :: h3 :: h4 :: rest2 =>
            match hexQuad h1 h2 h3 h4 with
            | some v => (parseStringBody rest2).map (fun r => (v :: r.1, r.2))
            | none => none
          | _ => none
        else
          match simpleEscape e with
          | some v => (parseStringBody rest1).map (fun r => (v :: r.1, r.2))
          | none => none
    else if c < 0x20 then none
    else (parseStringBody rest).map (fun r => (c :: r.1, r.2))

/-- Read decimal digits, accumulating their value. -/
def readDigits : List Nat → Nat → Nat × List Nat
  | [], acc => (acc, [])
  | c :: rest, acc =>
    if 48 ≤ c ∧ c ≤ 57 then readDigits rest (acc * 10 + (c - 48)) else (acc, c :: rest)

/-- The integer part of a number token: a single 0, or digits not starting with 0. -/
def parseDigits : List Nat → Option (Nat × List Nat)
  | [] => none
  | c :: rest =>
    if c = 48 then some (0, rest)
    else if 49 ≤ c ∧ c ≤ 57 then some (readDigits rest (c - 48))
    else none

/-- No fraction or exponent follows.  Number tokens with a fraction or an exponent denote
floating-point values and are outside this model. -/
def integerEnds : List Nat → Bool
  | [] => true
  | c :: _ => !(c = 0x2E || c = 0x65 || c = 0x45)

/-- Read a number token. -/
def parseNumber : List Nat → Option (Json × List Nat)
  | [] => none
  | c :: rest =>
    if c = 0x2D then
      match parseDigits rest with
      | some (v, rest1) => if integerEnds rest1 then some (.num (-(v : Int)), rest1) else none
      | none => none
    else
      match parseDigits (c :: rest) with
      | some (v, rest1) => if integerEnds rest1 then some (.num (v : Int), rest1) else none
      | none => none

/-- Remove the literal `lit` from the front of the text. -/
def dropLiteral : List Nat → List Nat → Option (List Nat)
  | [], s => some s
  | _ :: _, [] => none
  | l :: lit, c :: s => if l = c then dropLiteral lit s else none

/-- The operation `CreateDataProperty` on a property list: an existing key keeps its place and
takes the new value, a new array index goes to its numeric place, another new key goes last. -/
def setProperty (k : List Nat) (v : Json) : List (List Nat × Json) → List (List Nat × Json)
  | [] => [(k, v)]
  | (k2, v2) :: rest =>
    if k2 = k then (k, v) :: rest
    else if keyBefore k k2 then (k, v) :: (k2, v2) :: rest
    else (k2, v2) :: setProperty k v rest

mutual
/-- Read one JSON value; `fuel` bounds the number of nested calls. -/
def parseValue : Nat → List Nat → Option (Json × List Nat)
  | 0, _ => none
  | fuel + 1, s =>
    match skipWs s with
    | [] => none
    | c :: rest =>
      if c = 0x5B then
        match skipWs rest with
        | [] => none
        | d :: rest1 =>
          if d = 0x5D then some (.arr [], rest1)
          else (parseElements fuel (d :: rest1)).map (fun r => (.arr r.1, r.2))
      else if c = 0x7B then
        match skipWs rest with
        | [] => none
        | d :: rest1 =>
          if d = 0x7D then some (.obj [], rest1)
          else (parseMembers fuel (d :: rest1) []).map (fun r => (.obj r.1, r.2))
      else if c = 0x22 then (parseStringBody rest).map (fun r => (.str r.1, r.2))
      else if c = 0x6E then (dropLiteral [0x75, 0x6C, 0x6C] rest).map (fun r => (.null, r))
      else if c = 0x74 then (dropLiteral [0x72, 0x75, 0x65] rest).map (fun r => (.bool true, r))
      else if c = 0x66 then
        (dropLiteral [0x61, 0x6C, 0x73, 0x65] rest).map (fun r => (.bool false, r))
      else parseNumber (c :: rest)
/-- Read the elements of an array up to and including the closing bracket. -/
def parseElements : Nat → List Nat → Option (List Json × List Nat)
  | 0, _ => none
  | fuel + 1, s =>
    match parseValue fuel s with
    | none => none
    | some (v, rest) =>
      match skipWs rest with
      | [] => none
      | c :: rest1 =>
        if c = 0x2C then (parseElements fuel rest1).map (fun r => (v :: r.1, r.2))
        else if c = 0x5D then some ([v], rest1)
        else none
/-- Read the members of an object up to and including the closing brace, adding each to the
properties read so far. -/
def parseMembers : Nat → List Nat → List (List Nat × Json) →
    Option (List (List Nat × Json) × List Nat)
  | 0, _, _ => none
  | fuel + 1, s, acc =>
    match skipWs s with
    | [] => none
    | q :: rest =>
      if q = 0x22 then
        match parseStringBody rest with
        | none => none
        | some (key, rest1) =>
          match skipWs rest1 with
          | [] => none
          | c :: rest2 =>
            if c = 0x3A then
              match parseValue fuel rest2 with
              | none => none
              | some (v, rest3) =>
                match skipWs rest3 with
                | [] => none
                | c2 :: rest4 =>
                  if c2 = 0x2C then parseMembers fuel rest4 (setProperty key v acc)
                  else if c2 = 0x7D then some (setProperty key v acc, rest4)
                  else none
            else none
      else none
end

/-- The function `JSON.parse`: one value, then only white space.  The fuel is more than the
number of characters, so it never runs out before the text does. -/
def JSON.parse (s : List Nat) : Option Json :=
  match parseValue (s.length + 1) s with
  | some (v, rest) => if skipWs rest = [] then some v else none
  | none => none

mutual
/-- Number of nested parser calls needed to read back the text of a value. -/
def Json.size : Json → Nat
  | .arr items => 1 + Json.sizeItems items
  | .obj fields => 1 + Json.sizeFields fields
  | _ => 1
/-- The calls needed for the elements of an array. -/
def Json.sizeItems : List Json → Nat
  | [] => 0
  | x :: rest => 1 + Json.size x + Json.sizeItems rest
/-- The calls needed for the members of an object. -/
def Json.sizeFields : List (List Nat × Json) → Nat
  | [] => 0
  | (_, x) :: rest => 1 + Json.size x + Json.sizeFields rest
end

/-- The text of a non-empty array after its opening bracket. -/
def elementsText : List Json → List Nat
  | [] => []
  | x :: rest => JSON.stringify x ++ JSON.moreElements rest

/-- The text of a non-empty object after its opening brace. -/
def membersText : List (List Nat × Json) → List Nat
  | [] => []
  | (k, x) :: rest =>
    0x22 :: quoteBody k ++ 0x22 :: 0x3A :: JSON.stringify x ++ JSON.moreMembers rest

/-- A text that follows a value inside a larger JSON text: the end, a comma, or a closing
bracket or brace. -/
def Delimited (t : List Nat) : Prop :=
  t = [] ∨ ∃ c rest, t = c :: rest ∧ (c = 0x2C ∨ c = 0x5D ∨ c = 0x7D)

/-! ### URI and legacy escaping -/

/-- UTF-8 octets of a code point. -/
def utf8Encode (cp : Nat) : List Nat :=
  if cp < 0x80 then [cp]
  else if cp < 0x800 then [0xC0 + cp / 64, 0x80 + cp % 64]
  else if cp < 0x10000 then [0xE0 + cp / 4096, 0x80 + cp / 64 % 64, 0x80 + cp % 64]
  else [0xF0 + cp / 262144, 0x80 + cp / 4096 % 64, 0x80 + cp / 64 % 64, 0x80 + cp % 64]

/-- The text `%XX` for each octet. -/
def percentEncode : List Nat → List Nat
  | [] => []
  | b :: rest => 0x25 :: hexDigitUpper (b / 16) :: hexDigitUpper (b % 16) :: percentEncode rest

/-- Characters `encodeURIComponent` leaves as they are: letters, digits and `-_.!~*'()`. -/
def isUriUnreserved (c : Nat) : Bool :=
  isAlphaNum c || c = 0x2D || c = 0x5F || c = 0x2E || c = 0x21 || c = 0x7E || c = 0x2A
    || c = 0x27 || c = 0x28 || c = 0x29

/-- The function `encodeURIComponent`; a lone surrogate raises `URIError`. -/
def encodeURIComponent : List Nat → Option (List Nat)
  | [] => some []
  | c :: rest =>
    if isUriUnreserved c then (encodeURIComponent rest).map (fun r => c :: r)
    else if 0xDC00 ≤ c ∧ c ≤ 0xDFFF then none
    else if 0xD800 ≤ c ∧ c ≤ 0xDBFF then
      match rest with
      | [] => none
      | d :: rest2 =>
        if 0xDC00 ≤ d ∧ d ≤ 0xDFFF then
          (encodeURIComponent rest2).map (fun r =>
            percentEncode (utf8Encode (0x10000 + (c - 0xD800) * 0x400 + (d - 0xDC00))) ++ r)
        else none
    else (encodeURIComponent rest).map (fun r => percentEncode (utf8Encode c) ++ r)

/-- The function `unescape`: `%uXXXX` and `%XX` become one code unit, anything else stays. -/
def unescape : List Nat → List Nat
  | [] => []
  | c :: rest =>
    if c = 0x25 then
      match rest with
      | h1 :: h2 :: rest2 =>
        if h1 = 0x75 then
          match rest2 with
          | h3 :: h4 :: h5 :: rest5 =>
            match hexQuad h2 h3 h4 h5 with
            | some v => v :: unescape rest5
            | none => c :: unescape (h1 :: h2 :: h3 :: h4 :: h5 :: rest5)
          | rest2 => c :: unescape (h1 :: h2 :: rest2)
        else
          match hexOctet h1 h2 with
          | some v => v :: unescape rest2
          | none => c :: unescape (h1 :: h2 :: rest2)
      | rest => c :: unescape rest
    else c :: unescape rest

/-- Characters `escape` leaves as they are: letters, digits and `@*_+-./`. -/
def isEscapeSafe (c : Nat) : Bool :=
  isAlphaNum c || c = 0x40 || c = 0x2A || c = 0x5F || c = 0x2B || c = 0x2D || c = 0x2E
    || c = 0x2F

/-- The function `escape`. -/
def escape : List Nat → List Nat
  | [] => []
  | c :: rest =>
    if isEscapeSafe c then c :: escape rest
    else if c < 256 then 0x25 :: hexDigitUpper (c / 16) :: hexDigitUpper (c % 16) :: escape rest
    else 0x25 :: 0x75 :: hexDigitUpper (c / 4096 % 16) :: hexDigitUpper (c / 256 % 16)
      :: hexDigitUpper (c / 16 % 16) :: hexDigitUpper (c % 16) :: escape rest

/-- UTF-16 code units of a code point. -/
def utf16Encode (cp : Nat) : List Nat :=
  if cp < 0x10000 then [cp]
  else [0xD800 + (cp - 0x10000) / 0x400, 0xDC00 + (cp - 0x10000) % 0x400]

/-- The loop of `Decode`.  `pending` is the number of continuation octets still expected for
the current code point, `acc` the payload bits read so far and `lower` the smallest value the
sequence length may encode.  A `%XX` that is malformed, an octet that cannot start or continue
a sequence, an overlong form, a surrogate or a value above 0x10FFFF raises `URIError`. -/
def decodeLoop : List Nat → Nat → Nat → Nat → Option (List Nat)
  | [], pending, _, _ => if pending = 0 then some [] else none
  | c :: rest, pending, acc, lower =>
    if c ≠ 0x25 then
      if pending = 0 then (decodeLoop rest 0 0 0).map (fun r => c :: r) else none
    else
      match rest with
      | a :: b :: rest1 =>
        match hexOctet a b with
        | none => none
        | some o =>
          if pending = 0 then
            if o < 0x80 then (decodeLoop rest1 0 0 0).map (fun r => o :: r)
            else if o < 0xC0 then none
            else if o < 0xE0 then decodeLoop rest1 1 (o - 0xC0) 0x80
            else if o < 0xF0 then decodeLoop rest1 2 (o - 0xE0) 0x800
            else if o < 0xF8 then decodeLoop rest1 3 (o - 0xF0) 0x10000
            else none
          else if 0x80 ≤ o ∧ o < 0xC0 then
            if pending = 1 then
              if lower ≤ acc * 64 + (o - 0x80) ∧ acc * 64 + (o - 0x80) ≤ 0x10FFFF
                  ∧ ¬ (0xD800 ≤ acc * 64 + (o - 0x80) ∧ acc * 64 + (o - 0x80) ≤ 0xDFFF) then
                (decodeLoop rest1 0 0 0).map (fun r => utf16Encode (acc * 64 + (o - 0x80)) ++ r)
              else none
            else decodeLoop rest1 (pending - 1) (acc * 64 + (o - 0x80)) lower
          else none
      | _ => none

/-- The function `decodeURIComponent`: every `%XX` sequence must be part of a well-formed UTF-8
encoding, otherwise `URIError`. -/
def decodeURIComponent (s : List Nat) : Option (List Nat) := decodeLoop s 0 0 0

/-- A well-formed piece of text: code units below 65536, and `encodeURIComponent` accepts it
in front of any text it accepts. -/
def UriSafe (a : List Nat) : Prop :=
  (∀ c ∈ a, c < 65536)
    ∧ ∀ t, (encodeURIComponent t).isSome = true → (encodeURIComponent (a ++ t)).isSome = true

/-! ### Base64 -/

/-- The base64 character of a six-bit value. -/
def base64Char (i : Nat) : Nat :=
  if i < 26 then 65 + i
  else if i < 52 then 71 + i
  else if i < 62 then i - 4
  else if i = 62 then 0x2B
  else 0x2F

/-- The six-bit value of a base64 character. -/
def base64Val (c : Nat) : Option Nat :=
  if 65 ≤ c ∧ c ≤ 90 then some (c - 65)
  else if 97 ≤ c ∧ c ≤ 122 then some (c - 71)
  else if 48 ≤ c ∧ c ≤ 57 then some (c + 4)
  else if c = 0x2B then some 62
  else if c = 0x2F then some 63
  else none

/-- Base64 text of a list of bytes, with padding. -/
def base64Encode : List Nat → List Nat
  | [] => []
  | [a] => [base64Char (a / 4), base64Char (a % 4 * 16), 0x3D, 0x3D]
  | [a, b] => [base64Char (a / 4), base64Char (a % 4 * 16 + b / 16), base64Char (b % 16 * 4), 0x3D]
  | a :: b :: c :: rest =>
    base64Char (a / 4) :: base64Char (a % 4 * 16 + b / 16) :: base64Char (b % 16 * 4 + c / 64)
      :: base64Char (c % 64) :: base64Encode rest

/-- The function `btoa`; a code unit above 255 raises `InvalidCharacterError`. -/
def btoa (s : List Nat) : Option (List Nat) :=
  if s.all (fun c => c < 256) then some (base64Encode s) else none

/-- Remove one or two padding characters from the end of the text. -/
def stripPadding : List Nat → List Nat
  | [] => []
  | c :: rest =>
    if c = 0x3D ∧ (rest = [] ∨ rest = [0x3D]) then [] else c :: stripPadding rest

/-- The six-bit values of base64 text; `none` if a character is not in the alphabet. -/
def base64Values : List Nat → Option (List Nat)
  | [] => some []
  | c :: rest =>
    match base64Val c, base64Values rest with
    | some v, some vs => some (v :: vs)
    | _, _ => none

/-- Bytes of a list of six-bit values; left-over bits of a last group of 2 or 3 are dropped. -/
def base64Bytes : List Nat → List Nat
  | a :: b :: c :: d :: rest =>
    (a * 4 + b / 16) :: (b % 16 * 16 + c / 4) :: (c % 4 * 64 + d) :: base64Bytes rest
  | [a, b, c] => [a * 4 + b / 16, b % 16 * 16 + c / 4]
  | [a, b] => [a * 4 + b / 16]
  | _ => []

/-- The function `atob` (forgiving base64 decode): ASCII white space is removed, padding is
removed when the length is a multiple of 4, then a length of 1 modulo 4 or a character outside
the alphabet raises `InvalidCharacterError`. -/
def atob (s : List Nat) : Option (List Nat) :=
  let data :=
    s.filter (fun c => !(c = 0x09 || c = 0x0A || c = 0x0C || c = 0x0D || c = 0x20))
  let data := if data.length % 4 = 0 then stripPadding data else data
  if data.length % 4 = 1 then none
  else (base64Values data).map base64Bytes

/-! ## encryptData and decryptData -/

/-- The method `encryptData`: `btoa(btoa(unescape(encodeURIComponent(JSON.stringify(data)))))`. -/
def encryptData (data : Json) : Option (List Nat) :=
  match encodeURIComponent (JSON.stringify data) with
  | none => none
  | some uri =>
    match btoa (unescape uri) with
    | none => none
    | some encrypted => btoa encrypted

/-- The body of the `try` block of `decryptData`. -/
def decryptAttempt (encrypted : List Nat) : Option Json :=
  match atob encrypted with
  | none => none
  | some decoded =>
    match atob decoded with
    | none => none
    | some inner =>
      match decodeURIComponent (escape inner) with
      | none => none
      | some str => JSON.parse str

/-- The method `decryptData`: any exception gives `null`. -/
def decryptData (encrypted : List Nat) : Json :=
  match decryptAttempt encrypted with
  | some v => v
  | none => .null

/-- A users collection with one record, as JSON: field names and texts as code units
(username ana, role user, discord null), and the id 1730851200000. -/
def sampleCollection : Json :=
  .arr [.obj [([117, 115, 101, 114, 110, 97, 109, 101], .str [97, 110, 97]),
    ([114, 111, 108, 101], .str [117, 115, 101, 114]),
    ([100, 105, 115, 99, 111, 114, 100], .null),
    ([105, 100], .num 1730851200000)]]

/-! ## The persistence layer: localStorage, FirebaseService and the collection accessors -/

/-- The code units of a string literal of the source. -/
def codeUnits (text : String) : List Nat := charCodes text.data

/-- The browser store `localStorage`: keys in insertion order, values as code units. -/
abbrev LocalStorage := List (String × List Nat)

/-- The method `localStorage.getItem`; `none` is `null`. -/
def LocalStorage.getItem (ls : LocalStorage) (key : String) : Option (List Nat) :=
  (ls.find? (fun kv => kv.1 == key)).map (fun kv => kv.2)

/-- The method `localStorage.setItem`: an existing key keeps its place, a new one goes last. -/
def LocalStorage.setItem : LocalStorage → String → List Nat → LocalStorage
  | [], key, value => [(key, value)]
  | kv :: rest, key, value =>
    if kv.1 == key then (key, value) :: rest else kv :: LocalStorage.setItem rest key value

/-- The method `localStorage.clear`. -/
def LocalStorage.clear (_ : LocalStorage) : LocalStorage := []

/-- The text an argument of type string-or-null becomes when a platform function converts it to
a string: `null` becomes the four letters of its name. -/
def itemText : Option (List Nat) → List Nat
  | some text => text
  | none => codeUnits "null"

/-- The conversion `ToBoolean`, as the tests `if (data)` and `a || b` apply it. -/
def Json.truthy : Json → Bool
  | .null => false
  | .bool b => b
  | .num n => n != 0
  | .str s => s != []
  | .arr _ => true
  | .obj _ => true

/-- The expression `a || b`. -/
def Json.orElse (a b : Json) : Json := if a.truthy then a else b

/-- The outcome of one read of the remote store: the value of the snapshot (`null` when the
path holds nothing), or a rejected read. -/
inductive RemoteRead where
  | value (v : Json)
  | failure

/-- What the persistence layer reads: the browser store and the flag the constructor of
`FirebaseService` sets when a remote store is configured. -/
structure Persistence where
  localStorage : LocalStorage
  isFirebaseReady : Bool

/-- The expression `data ? JSON.parse(data) : null` for `data = localStorage.getItem(path)`;
`none` is the exception `JSON.parse` raises. -/
def localRead (ls : LocalStorage) (path : String) : Option Json :=
  match ls.getItem path with
  | none => some .null
  | some data => if data = [] then some .null else JSON.parse data

/-- The method `FirebaseService.getData`; `remote` is the outcome of the remote read, which is
only attempted when the remote store is configured.  The result `none` is a raised error. -/
def getData (p : Persistence) (path : String) (remote : RemoteRead) : Option Json :=
  if !p.isFirebaseReady then localRead p.localStorage path
  else
    match remote with
    | .value v => some v
    | .failure => localRead p.localStorage path

/-- The method `FirebaseService.setData`; `remoteWriteOk` tells whether the remote write, which
is only attempted when the remote store is configured, succeeds.  A failed write is caught and
logged.  The result `none` is a raised error. -/
def setData (p : Persistence) (path : String) (data : Json) (remoteWriteOk : Bool) :
    Option Persistence :=
  let written := { p with localStorage := p.localStorage.setItem path (JSON.stringify data) }
  if !p.isFirebaseReady then some written
  else if remoteWriteOk then some written
  else some written

/-- The body shared by `getUsers`, `getGameStatus`, `getBugs`, `getSuggestions`,
`getNotifications`, `getLogs` and `getAccountRequests`: the value of `getData(name)` when it is
truthy, else `decryptData(localStorage.getItem('bt_' + name)) || fallback`. -/
def getCollection (p : Persistence) (name : String) (fallback : Json) (remote : RemoteRead) :
    Option Json :=
  match getData p name remote with
  | none => none
  | some data =>
    if data.truthy then some data
    else some ((decryptData (itemText (p.localStorage.getItem ("bt_" ++ name)))).orElse fallback)

/-- The body shared by `saveUsers`, `saveGameStatus`, `saveBugs`, `saveSuggestions`,
`saveNotifications`, `saveLogs` and `saveAccountRequests`: the obfuscated copy under
`'bt_' + name`, then `setData(name, value)`. -/
def saveCollection (p : Persistence) (name : String) (value : Json) (remoteWriteOk : Bool) :
    Option Persistence :=
  match encryptData value with
  | none => none
  | some encrypted =>
    setData { p with localStorage := p.localStorage.setItem ("bt_" ++ name) encrypted } name
      value remoteWriteOk

/-- The object `{ available: false, link: '' }`. -/
def defaultGameStatus : Json :=
  .obj [(codeUnits "available", .bool false), (codeUnits "link", .str [])]

/-- The object `{ isShutdown: false, reason: '' }`. -/
def defaultWebsiteShutdown : Json :=
  .obj [(codeUnits "isShutdown", .bool false), (codeUnits "reason", .str [])]

/-- The method `getUsers`. -/
def getUsers (p : Persistence) (remote : RemoteRead) : Option Json :=
  getCollection p "users" (.arr []) remote

/-- The method `saveUsers`. -/
def saveUsers (p : Persistence) (users : Json) (remoteWriteOk : Bool) : Option Persistence :=
  saveCollection p "users" users remoteWriteOk

/-- The method `getGameStatus`. -/
def getGameStatus (p : Persistence) (remote : RemoteRead) : Option Json :=
  getCollection p "gameStatus" defaultGameStatus remote

/-- The method `saveGameStatus`. -/
def saveGameStatus (p : Persistence) (status : Json) (remoteWriteOk : Bool) :
    Option Persistence :=
  saveCollection p "gameStatus" status remoteWriteOk

/-- The method `getBugs`. -/
def getBugs (p : Persistence) (remote : RemoteRead) : Option Json :=
  getCollection p "bugs" (.arr []) remote

/-- The method `saveBugs`. -/
def saveBugs (p : Persistence) (bugs : Json) (remoteWriteOk : Bool) : Option Persistence :=
  saveCollection p "bugs" bugs remoteWriteOk

/-- The method `getSuggestions`. -/
def getSuggestions (p : Persistence) (remote : RemoteRead) : Option Json :=
  getCollection p "suggestions" (.arr []) remote

/-- The method `saveSuggestions`. -/
def saveSuggestions (p : Persistence) (suggestions : Json) (remoteWriteOk : Bool) :
    Option Persistence :=
  saveCollection p "suggestions" suggestions remoteWriteOk

/-- The method `getNotifications`. -/
def getNotifications (p : Persistence) (remote : RemoteRead) : Option Json :=
  getCollection p "notifications" (.arr []) remote

/-- The method `saveNotifications`. -/
def saveNotifications (p : Persistence) (notifications : Json) (remoteWriteOk : Bool) :
    Option Persistence :=
  saveCollection p "notifications" notifications remoteWriteOk

/-- The method `getLogs`. -/
def getLogs (p : Persistence) (remote : RemoteRead) : Option Json :=
  getCollection p "logs" (.arr []) remote

/-- The method `saveLogs`. -/
def saveLogs (p : Persistence) (logs : Json) (remoteWriteOk : Bool) : Option Persistence :=
  saveCollection p "logs" logs remoteWriteOk

/-- The method `getAccountRequests`. -/
def getAccountRequests (p : Persistence) (remote : RemoteRead) : Option Json :=
  getCollection p "accountRequests" (.arr []) remote

/-- The method `saveAccountRequests`. -/
def saveAccountRequests (p : Persistence) (requests : Json) (remoteWriteOk : Bool) :
    Option Persistence :=
  saveCollection p "accountRequests" requests remoteWriteOk

/-- One step `if (!localStorage.getItem(key)) localStorage.setItem(key, value)` of
`initializeDefaultData`: a missing key and a key holding the empty string are both filled.  The
value is only computed when it is stored; `none` is an exception raised by computing it. -/
def fillDefault (ls : LocalStorage) (key : String) (value : Option (List Nat)) :
    Option LocalStorage :=
  match ls.getItem key with
  | some (_ :: _) => some ls
  | _ =>
    match value with
    | some text => some (ls.setItem key text)
    | none => none

/-- The method `initializeDefaultData`, on the browser store; `none` is a raised error. -/
def initializeDefaultData (ls : LocalStorage) : Option LocalStorage := do
  let ls :=
    if ls.getItem "bt_version" ≠ some (codeUnits "2.0") then
      ls.clear.setItem "bt_version" (codeUnits "2.0")
    else ls
  let ls ← fillDefault ls "bt_users" (encryptData (.arr []))
  let ls ← fillDefault ls "bt_gameStatus" (encryptData defaultGameStatus)
  let ls ← fillDefault ls "bt_bugs" (encryptData (.arr []))
  let ls ← fillDefault ls "bt_suggestions" (encryptData (.arr []))
  let ls ← fillDefault ls "bt_notifications" (encryptData (.arr []))
  let ls ← fillDefault ls "bt_logs" (encryptData (.arr []))
  let ls ← fillDefault ls "bt_accountRequests" (encryptData (.arr []))
  let ls ← fillDefault ls "bt_websiteShutdown" (encryptData defaultWebsiteShutdown)
  fillDefault ls "bt_accountRequestsEnabled" (some (codeUnits "true"))

/-- The steps `fillDefault` of a list of keys with their default texts, in order. -/
def fillDefaults : List (String × List Nat) → LocalStorage → Option LocalStorage
  | [], ls => some ls
  | kv :: rest, ls => (fillDefault ls kv.1 (some kv.2)).bind (fillDefaults rest)

/-- The store of a first visit: the marker, then each key with the text of its default value
(the obfuscated texts of `[]`, of `{ available: false, link: '' }` and of
`{ isShutdown: false, reason: '' }`). -/
def freshStorage : LocalStorage :=
  [("bt_version", codeUnits "2.0"),
    ("bt_users", codeUnits "VzEwPQ=="),
    ("bt_gameStatus", codeUnits "ZXlKaGRtRnBiR0ZpYkdVaU9tWmhiSE5sTENKc2FXNXJJam9pSW4wPQ=="),
    ("bt_bugs", codeUnits "VzEwPQ=="),
    ("bt_suggestions", codeUnits "VzEwPQ=="),
    ("bt_notifications", codeUnits "VzEwPQ=="),
    ("bt_logs", codeUnits "VzEwPQ=="),
    ("bt_accountRequests", codeUnits "VzEwPQ=="),
    ("bt_websiteShutdown",
      codeUnits "ZXlKcGMxTm9kWFJrYjNkdUlqcG1ZV3h6WlN3aWNtVmhjMjl1SWpvaUluMD0="),
    ("bt_accountRequestsEnabled", codeUnits "true")]

/-- The keys `initializeDefaultData` fills, the version marker apart. -/
def defaultKeys : List String :=
  ["bt_users", "bt_gameStatus", "bt_bugs", "bt_suggestions", "bt_notifications", "bt_logs",
    "bt_accountRequests", "bt_websiteShutdown", "bt_accountRequestsEnabled"]

/-- A store of an earlier version: an old marker, a users collection and a foreign key. -/
def staleStorage : LocalStorage :=
  [("bt_version", codeUnits "1.0"), ("bt_users", codeUnits "W10="), ("theme", codeUnits "dark")]

/-- A current store whose users entry holds the empty string. -/
def blankUsersStorage : LocalStorage :=
  [("bt_version", codeUnits "2.0"), ("bt_users", [])]

/-- A configured persistence layer whose local copies hold other data than the remote store. -/
def divergedPersistence : Persistence :=
  { localStorage := [("users", codeUnits "[1]"), ("bt_users", codeUnits "VzEwPQ==")],
    isFirebaseReady := true }

/-- A persistence layer without a remote store, holding unreadable entries. -/
def localOnlyPersistence : Persistence :=
  { localStorage := [("users", codeUnits "\x7b"), ("bt_users", codeUnits "?")],
    isFirebaseReady := false }

/-! ## Login -/

/-- The search of `login`: the first user record with the username whose stored hash is the
hash of the password entered. -/
def loginCheck (users : List User) (username password : String) : Option User :=
  users.find? (fun u => u.username == username && u.password == hashPassword password)

/-- The method `login`; `logTime` is the clock text read by `addLog`.  The entry
`bt_last_username` of `localStorage` is not part of `State`.  If `encryptData` raised, the
handler would end with only `currentUser` assigned. -/
def login (s : State) (username password logTime : String) : State :=
  match loginCheck s.users username password with
  | none => s
  | some user =>
    match encryptData (.obj [(codeUnits "username", .str (codeUnits user.username))]) with
    | none => { s with currentUser := some user }
    | some text =>
      let session := s.sessionStorage.setItem "bt_session" (String.mk (text.map Char.ofNat))
      addLog { s with currentUser := some user, sessionStorage := session } "login"
        (user.username ++ " ha iniciado sesión") logTime

/-- The state reached when the primary admin root (password 0000) logs in, opens the edit
dialog of the own account, deletes it, and creates the account root again with role user: the
stored record of root is a new one without the flag `isMainAdmin`, while the session object
`currentUser` is still the old flagged record.  The draw 2^-5 gives the password 1281. -/
def staleSessionState : State :=
  createAccount
    (deleteAccount (editAccount (login adminOnlyState "root" "0000" "6/11/2026, 10:00:00")
      "root") true)
    "root" "root_rbx" "user" (generateRandomPassword (2 ^ 1069)) 1730851200000

/-! ## Properties: hexadecimal digits -/

theorem hexVal_hexDigitUpper (n : Nat) (h : n < 16) : hexVal (hexDigitUpper n) = some n := by
  interval_cases n <;> rfl

theorem hexVal_hexDigitLower (n : Nat) (h : n < 16) : hexVal (hexDigitLower n) = some n := by
  interval_cases n <;> rfl

theorem hexOctet_upper (b : Nat) (h : b < 256) :
    hexOctet (hexDigitUpper (b / 16)) (hexDigitUpper (b % 16)) = some b := by
  unfold hexOctet
  rw [hexVal_hexDigitUpper _ (by omega), hexVal_hexDigitUpper _ (by omega)]
  simp only [Option.some.injEq]
  omega

theorem hexQuad_lower (c : Nat) (h : c < 65536) :
    hexQuad (hexDigitLower (c / 4096 % 16)) (hexDigitLower (c / 256 % 16))
      (hexDigitLower (c / 16 % 16)) (hexDigitLower (c % 16)) = some c := by
  unfold hexQuad hexOctet
  rw [hexVal_hexDigitLower _ (by omega), hexVal_hexDigitLower _ (by omega),
    hexVal_hexDigitLower _ (by omega), hexVal_hexDigitLower _ (by omega)]
  simp only [Option.some.injEq]
  omega

/-! ## Properties: JSON strings -/

theorem parseStringBody_closing (t : List Nat) : parseStringBody (0x22 :: t) = some ([], t) := by
  rw [parseStringBody.eq_def]
  simp

theorem parseStringBody_raw (c : Nat) (t : List Nat) (h1 : c ≠ 0x22) (h2 : c ≠ 0x5C)
    (h3 : ¬ c < 0x20) :
    parseStringBody (c :: t) = (parseStringBody t).map (fun r => (c :: r.1, r.2)) := by
  rw [parseStringBody.eq_def]
  simp [h1, h2, h3]

theorem parseStringBody_simple (e v : Nat) (t : List Nat) (he : e ≠ 0x75)
    (hv : simpleEscape e = some v) :
    parseStringBody (0x5C :: e :: t) = (parseStringBody t).map (fun r => (v :: r.1, r.2)) := by
  rw [parseStringBody.eq_def]
  simp [he, hv]

theorem parseStringBody_unicode (h1 h2 h3 h4 v : Nat) (t : List Nat)
    (hv : hexQuad h1 h2 h3 h4 = some v) :
    parseStringBody (0x5C :: 0x75 :: h1 :: h2 :: h3 :: h4 :: t)
      = (parseStringBody t).map (fun r => (v :: r.1, r.2)) := by
  rw [parseStringBody.eq_def]
  simp [hv]

theorem parseStringBody_quoteUnit (c : Nat) (t : List Nat) (h : c < 65536) :
    parseStringBody (quoteUnit c ++ t)
      = (parseStringBody t).map (fun r => (c :: r.1, r.2)) := by
  unfold quoteUnit
  split_ifs with h1 h2 h3 h4 h5 h6 h7 h8
  · subst h1; exact parseStringBody_simple _ _ t (by decide) (by decide)
  · subst h2; exact parseStringBody_simple _ _ t (by decide) (by decide)
  · subst h3; exact parseStringBody_simple _ _ t (by decide) (by decide)
  · subst h4; exact parseStringBody_simple _ _ t (by decide) (by decide)
  · subst h5; exact parseStringBody_simple _ _ t (by decide) (by decide)
  · subst h6; exact parseStringBody_simple _ _ t (by decide) (by decide)
  · subst h7; exact parseStringBody_simple _ _ t (by decide) (by decide)
  · exact parseStringBody_unicode _ _ _ _ c t (hexQuad_lower c h)
  · exact parseStringBody_raw c t h6 h7 (fun hc => h8 (Or.inl hc))

theorem parseStringBody_pair (c d : Nat) (t : List Nat)
    (hc : 0xD800 ≤ c ∧ c ≤ 0xDBFF) (hd : 0xDC00 ≤ d ∧ d ≤ 0xDFFF) :
    parseStringBody (c :: d :: t)
      = (parseStringBody t).map (fun r => (c :: d :: r.1, r.2)) := by
  rw [parseStringBody_raw c _ (by omega) (by omega) (by omega),
    parseStringBody_raw d _ (by omega) (by omega) (by omega)]
  cases parseStringBody t <;> rfl

theorem parseStringBody_quoteBody (t : List Nat) :
    ∀ (n : Nat) (s : List Nat), s.length ≤ n → (∀ c ∈ s, c < 65536) →
      parseStringBody (quoteBody s ++ 0x22 :: t) = some (s, t) := by
  intro n
  induction n with
  | zero =>
    intro s hlen _
    have : s = [] := List.length_eq_zero.mp (by omega)
    subst this
    simp [quoteBody, parseStringBody_closing]
  | succ n ih =>
    intro s hlen hs
    match s, hlen, hs with
    | [], _, _ => simp [quoteBody, parseStringBody_closing]
    | [c], _, hs =>
      have hc : c < 65536 := hs c (List.mem_singleton.mpr rfl)
      rw [quoteBody, parseStringBody_quoteUnit c _ hc, parseStringBody_closing]
      rfl
    | c :: d :: rest, hlen, hs =>
      have hc : c < 65536 := hs c (List.mem_cons_self _ _)
      rw [quoteBody]
      split_ifs with hpair
      · have hrest := ih rest (by simp at hlen; omega)
          (fun x hx => hs x (List.mem_cons_of_mem _ (List.mem_cons_of_mem _ hx)))
        rw [List.cons_append, List.cons_append, parseStringBody_pair c d _ hpair.1 hpair.2, hrest]
        rfl
      · have hrest := ih (d :: rest) (by simp at hlen ⊢; omega)
          (fun x hx => hs x (List.mem_cons_of_mem _ hx))
        rw [List.append_assoc, parseStringBody_quoteUnit c _ hc, hrest]
        rfl

/-! ## Properties: JSON numbers -/

theorem decimalAux_eq (n : Nat) :
    ∀ (fuel : Nat) (acc : List Nat), n < fuel → decimalAux fuel n acc = decimal n ++ acc := by
  induction n using Nat.strong_induction_on with
  | _ n ih =>
    intro fuel acc hfuel
    obtain ⟨f, rfl⟩ : ∃ f, fuel = f + 1 := ⟨fuel - 1, by omega⟩
    by_cases hn : n < 10
    · simp [decimal, decimalAux, hn]
    · have h1 := ih (n / 10) (by omega) f ((48 + n % 10) :: acc) (by omega)
      have h2 := ih (n / 10) (by omega) n [48 + n % 10] (by omega)
      simp only [decimal, decimalAux, hn, if_false]
      rw [h1, h2]
      simp

theorem decimal_small (n : Nat) (h : n < 10) : decimal n = [48 + n] := by
  simp [decimal, decimalAux, h]

theorem decimal_large (n : Nat) (h : 10 ≤ n) :
    decimal n = decimal (n / 10) ++ [48 + n % 10] := by
  have hn : ¬ n < 10 := by omega
  have h2 := decimalAux_eq (n / 10) n [48 + n % 10] (by omega)
  simp only [decimal, decimalAux, hn, if_false]
  exact h2

theorem decimal_digits (n : Nat) : ∀ c ∈ decimal n, 48 ≤ c ∧ c ≤ 57 := by
  induction n using Nat.strong_induction_on with
  | _ n ih =>
    intro c hc
    by_cases hn : n < 10
    · rw [decimal_small n hn] at hc
      simp at hc
      omega
    · rw [decimal_large n (by omega)] at hc
      rcases List.mem_append.mp hc with h | h
      · exact ih (n / 10) (by omega) c h
      · simp at h
        omega

theorem decimal_value (n : Nat) :
    (decimal n).foldl (fun acc d => acc * 10 + (d - 48)) 0 = n := by
  induction n using Nat.strong_induction_on with
  | _ n ih =>
    by_cases hn : n < 10
    · rw [decimal_small n hn]
      simp
    · rw [decimal_large n (by omega), List.foldl_append, ih (n / 10) (by omega)]
      simp
      omega

theorem decimal_head (n : Nat) :
    ∃ c rest, decimal n = c :: rest ∧ 48 ≤ c ∧ c ≤ 57 ∧ (c = 48 → n = 0 ∧ rest = []) := by
  induction n using Nat.strong_induction_on with
  | _ n ih =>
    by_cases hn : n < 10
    · refine ⟨48 + n, [], decimal_small n hn, by omega, by omega, fun h => ⟨by omega, rfl⟩⟩
    · obtain ⟨c, rest, hc, h1, h2, h3⟩ := ih (n / 10) (by omega)
      refine ⟨c, rest ++ [48 + n % 10], ?_, h1, h2, ?_⟩
      · rw [decimal_large n (by omega), hc]
        rfl
      · intro h0
        have := (h3 h0).1
        omega

theorem readDigits_append (ds t : List Nat) (hds : ∀ c ∈ ds, 48 ≤ c ∧ c ≤ 57)
    (ht : ∀ c rest, t = c :: rest → ¬ (48 ≤ c ∧ c ≤ 57)) :
    ∀ acc, readDigits (ds ++ t) acc = (ds.foldl (fun acc d => acc * 10 + (d - 48)) acc, t) := by
  induction ds with
  | nil =>
    intro acc
    cases t with
    | nil => rfl
    | cons c rest => simp [readDigits, ht c rest rfl]
  | cons d ds ih =>
    intro acc
    have hd := hds d (List.mem_cons_self _ _)
    simp only [List.cons_append, readDigits, hd, and_self, if_true, List.foldl_cons]
    exact ih (fun c hc => hds c (List.mem_cons_of_mem _ hc)) _

theorem parseDigits_decimal (n : Nat) (t : List Nat)
    (ht : ∀ c rest, t = c :: rest → ¬ (48 ≤ c ∧ c ≤ 57)) :
    parseDigits (decimal n ++ t) = some (n, t) := by
  obtain ⟨c, rest, hc, h1, h2, h3⟩ := decimal_head n
  have hread := readDigits_append (decimal n) t (decimal_digits n) ht 0
  rw [decimal_value] at hread
  rw [hc] at hread ⊢
  by_cases h0 : c = 48
  · obtain ⟨hn, hrest⟩ := h3 h0
    subst hn hrest h0
    simp [parseDigits]
  · have hc1 : 49 ≤ c ∧ c ≤ 57 := by omega
    simp only [List.cons_append, parseDigits, h0, if_false, hc1, and_self, if_true]
    simp only [List.cons_append, readDigits, h1, h2, and_self, if_true] at hread
    simpa using hread

theorem parseNumber_numberToString (n : Int) (t : List Nat) (ht : Delimited t) :
    parseNumber (numberToString n ++ t) = some (.num n, t) := by
  have hdig : ∀ c rest, t = c :: rest → ¬ (48 ≤ c ∧ c ≤ 57) := by
    intro c rest hcr
    rcases ht with h | ⟨c2, rest2, h, hc2⟩
    · rw [h] at hcr; cases hcr
    · rw [h] at hcr
      cases hcr
      omega
  have hend : integerEnds t = true := by
    rcases ht with h | ⟨c2, rest2, h, hc2⟩
    · rw [h]; rfl
    · rw [h]
      rcases hc2 with h | h | h <;> subst h <;> rfl
  unfold numberToString
  split_ifs with hneg
  · simp only [List.cons_append, parseNumber, if_true, parseDigits_decimal _ t hdig, hend]
    have hval : -((n.natAbs : Nat) : Int) = n := by omega
    rw [hval]
  · obtain ⟨c, rest, hc, h1, h2, _⟩ := decimal_head n.natAbs
    have hp := parseDigits_decimal n.natAbs t hdig
    rw [hc] at hp ⊢
    have hminus : c ≠ 0x2D := by omega
    simp only [List.cons_append, parseNumber, hminus, if_false]
    rw [List.cons_append] at hp
    rw [hp]
    simp only [hend, if_true]
    have hval : ((n.natAbs : Nat) : Int) = n := by omega
    rw [hval]

/-! ## Properties: JSON.parse reads back JSON.stringify -/

theorem skipWs_cons (c : Nat) (t : List Nat)
    (h : ¬ (c = 0x20 ∨ c = 0x09 ∨ c = 0x0A ∨ c = 0x0D)) : skipWs (c :: t) = c :: t := by
  simp only [skipWs, h, if_false]

theorem setProperty_append (k : List Nat) (v : Json) :
    ∀ acc : List (List Nat × Json), KeysOrdered (acc ++ [(k, v)]) →
      setProperty k v acc = acc ++ [(k, v)] := by
  intro acc
  induction acc with
  | nil => intro _; rfl
  | cons a acc ih =>
    intro h
    obtain ⟨k2, v2⟩ := a
    unfold KeysOrdered at h
    rw [List.cons_append, List.pairwise_cons] at h
    have hkv := h.1 (k, v) (by simp)
    have hne : k2 ≠ k := hkv.1
    have hbefore : keyBefore k k2 = false := hkv.2
    simp only [setProperty, hne, if_false, hbefore, Bool.false_eq_true, List.cons_append]
    rw [ih h.2]

theorem delimited_moreElements (rest : List Json) (t : List Nat) :
    Delimited (JSON.moreElements rest ++ t) := by
  cases rest with
  | nil => exact Or.inr ⟨0x5D, t, rfl, by simp⟩
  | cons y r =>
    simp only [JSON.moreElements, List.cons_append]
    exact Or.inr ⟨_, _, rfl, by simp⟩

theorem delimited_moreMembers (rest : List (List Nat × Json)) (t : List Nat) :
    Delimited (JSON.moreMembers rest ++ t) := by
  cases rest with
  | nil => exact Or.inr ⟨0x7D, t, rfl, by simp⟩
  | cons y r =>
    obtain ⟨k, v⟩ := y
    simp only [JSON.moreMembers, List.cons_append]
    exact Or.inr ⟨_, _, rfl, by simp⟩

theorem parseValue_literal (fuel c : Nat) (rest : List Nat)
    (hws : ¬ (c = 0x20 ∨ c = 0x09 ∨ c = 0x0A ∨ c = 0x0D)) :
    parseValue (fuel + 1) (c :: rest) =
      if c = 0x5B then
        match skipWs rest with
        | [] => none
        | d :: rest1 =>
          if d = 0x5D then some (.arr [], rest1)
          else (parseElements fuel (d :: rest1)).map (fun r => (.arr r.1, r.2))
      else if c = 0x7B then
        match skipWs rest with
        | [] => none
        | d :: rest1 =>
          if d = 0x7D then some (.obj [], rest1)
          else (parseMembers fuel (d :: rest1) []).map (fun r => (.obj r.1, r.2))
      else if c = 0x22 then (parseStringBody rest).map (fun r => (.str r.1, r.2))
      else if c = 0x6E then (dropLiteral [0x75, 0x6C, 0x6C] rest).map (fun r => (.null, r))
      else if c = 0x74 then (dropLiteral [0x72, 0x75, 0x65] rest).map (fun r => (.bool true, r))
      else if c = 0x66 then
        (dropLiteral [0x61, 0x6C, 0x73, 0x65] rest).map (fun r => (.bool false, r))
      else parseNumber (c :: rest) := by
  rw [parseValue, skipWs_cons c rest hws]

theorem parseElements_step (fuel : Nat) (s : List Nat) :
    parseElements (fuel + 1) s =
      match parseValue fuel s with
      | none => none
      | some (v, rest) =>
        match skipWs rest with
        | [] => none
        | c :: rest1 =>
          if c = 0x2C then (parseElements fuel rest1).map (fun r => (v :: r.1, r.2))
          else if c = 0x5D then some ([v], rest1)
          else none := by
  rw [parseElements]

theorem parseMembers_step (fuel : Nat) (k : List Nat) (t : List Nat)
    (acc : List (List Nat × Json)) (hk : ∀ c ∈ k, c < 65536) :
    parseMembers (fuel + 1) (0x22 :: quoteBody k ++ 0x22 :: 0x3A :: t) acc =
      match parseValue fuel t with
      | none => none
      | some (v, rest3) =>
        match skipWs rest3 with
        | [] => none
        | c2 :: rest4 =>
          if c2 = 0x2C then parseMembers fuel rest4 (setProperty k v acc)
          else if c2 = 0x7D then some (setProperty k v acc, rest4)
          else none := by
  rw [parseMembers, List.cons_append, skipWs_cons _ _ (by decide)]
  simp only [if_true]
  rw [parseStringBody_quoteBody _ k.length k (le_refl _) hk]
  simp only [skipWs_cons 0x3A t (by decide), if_true]

theorem numberToString_head (n : Int) :
    ∃ c rest, numberToString n = c :: rest ∧ (c = 0x2D ∨ (48 ≤ c ∧ c ≤ 57)) := by
  unfold numberToString
  split_ifs
  · exact ⟨_, _, rfl, Or.inl rfl⟩
  · obtain ⟨c, rest, hc, h1, h2, _⟩ := decimal_head n.natAbs
    exact ⟨c, rest, hc, Or.inr ⟨h1, h2⟩⟩

theorem stringify_head (x : Json) :
    ∃ c r, JSON.stringify x = c :: r
      ∧ ¬ (c = 0x20 ∨ c = 0x09 ∨ c = 0x0A ∨ c = 0x0D) ∧ c ≠ 0x5D := by
  match x with
  | .null => exact ⟨_, _, rfl, by decide, by decide⟩
  | .bool true => exact ⟨_, _, rfl, by decide, by decide⟩
  | .bool false => exact ⟨_, _, rfl, by decide, by decide⟩
  | .num n =>
    obtain ⟨c, rest, hc, hhead⟩ := numberToString_head n
    exact ⟨c, rest, by simpa [JSON.stringify] using hc, by omega, by omega⟩
  | .str s => exact ⟨0x22, quoteBody s ++ [0x22], by simp [JSON.stringify], by decide, by decide⟩
  | .arr [] => exact ⟨_, _, rfl, by decide, by decide⟩
  | .arr (y :: rest) =>
    exact ⟨0x5B, JSON.stringify y ++ JSON.moreElements rest, by simp [JSON.stringify],
      by decide, by decide⟩
  | .obj [] => exact ⟨_, _, rfl, by decide, by decide⟩
  | .obj ((k, y) :: rest) =>
    exact ⟨0x7B, 0x22 :: quoteBody k ++ 0x22 :: 0x3A :: JSON.stringify y
      ++ JSON.moreMembers rest, by simp [JSON.stringify], by decide, by decide⟩

mutual
theorem parseValue_stringify : (x : Json) → (fuel : Nat) → (t : List Nat) →
    x.WF = true → Delimited t → x.size ≤ fuel →
    parseValue fuel (JSON.stringify x ++ t) = some (x, t)
  | .null, fuel, t, _, _, hf => by
    obtain ⟨f, rfl⟩ : ∃ f, fuel = f + 1 := ⟨fuel - 1, by simp [Json.size] at hf; omega⟩
    simp only [JSON.stringify, List.cons_append]
    rw [parseValue_literal _ _ _ (by decide)]
    simp [dropLiteral]
  | .bool true, fuel, t, _, _, hf => by
    obtain ⟨f, rfl⟩ : ∃ f, fuel = f + 1 := ⟨fuel - 1, by simp [Json.size] at hf; omega⟩
    simp only [JSON.stringify, List.cons_append]
    rw [parseValue_literal _ _ _ (by decide)]
    simp [dropLiteral]
  | .bool false, fuel, t, _, _, hf => by
    obtain ⟨f, rfl⟩ : ∃ f, fuel = f + 1 := ⟨fuel - 1, by simp [Json.size] at hf; omega⟩
    simp only [JSON.stringify, List.cons_append]
    rw [parseValue_literal _ _ _ (by decide)]
    simp [dropLiteral]
  | .num n, fuel, t, _, ht, hf => by
    obtain ⟨f, rfl⟩ : ∃ f, fuel = f + 1 := ⟨fuel - 1, by simp [Json.size] at hf; omega⟩
    have hnum := parseNumber_numberToString n t ht
    obtain ⟨c, rest, hc, hhead⟩ := numberToString_head n
    simp only [JSON.stringify]
    rw [hc] at hnum ⊢
    rw [List.cons_append] at hnum ⊢
    rw [parseValue_literal _ _ _ (by omega)]
    rw [if_neg (by omega), if_neg (by omega), if_neg (by omega), if_neg (by omega),
      if_neg (by omega), if_neg (by omega)]
    exact hnum
  | .str s, fuel, t, hwf, _, hf => by
    obtain ⟨f, rfl⟩ : ∃ f, fuel = f + 1 := ⟨fuel - 1, by simp [Json.size] at hf; omega⟩
    have hs : ∀ c ∈ s, c < 65536 := by simpa [Json.WF] using hwf
    simp only [JSON.stringify, List.cons_append, List.append_assoc, List.singleton_append,
      List.nil_append]
    rw [parseValue_literal _ _ _ (by decide)]
    rw [if_neg (by decide), if_neg (by decide), if_pos rfl,
      parseStringBody_quoteBody t s.length s (le_refl _) hs]
    rfl
  | .arr [], fuel, t, _, _, hf => by
    obtain ⟨f, rfl⟩ : ∃ f, fuel = f + 1 := ⟨fuel - 1, by simp [Json.size] at hf; omega⟩
    simp only [JSON.stringify, List.cons_append]
    rw [parseValue_literal _ _ _ (by decide)]
    simp [skipWs]
  | .arr (x :: rest), fuel, t, hwf, _, hf => by
    obtain ⟨f, rfl⟩ : ∃ f, fuel = f + 1 := ⟨fuel - 1, by simp [Json.size] at hf; omega⟩
    have hitems := parseElements_stringify (x :: rest) f t (by simpa [Json.WF] using hwf)
      (by simp [Json.size] at hf; omega) (by simp)
    obtain ⟨c, r, hc, hws, hclose⟩ := stringify_head x
    simp only [elementsText] at hitems
    simp only [JSON.stringify, List.cons_append]
    rw [parseValue_literal _ _ _ (by decide), if_pos rfl]
    rw [hc] at hitems ⊢
    simp only [List.cons_append] at hitems ⊢
    rw [skipWs_cons _ _ hws]
    simp only [hclose, if_false]
    rw [hitems]
    rfl
  | .obj [], fuel, t, _, _, hf => by
    obtain ⟨f, rfl⟩ : ∃ f, fuel = f + 1 := ⟨fuel - 1, by simp [Json.size] at hf; omega⟩
    simp only [JSON.stringify, List.cons_append]
    rw [parseValue_literal _ _ _ (by decide)]
    simp [skipWs]
  | .obj ((k, x) :: rest), fuel, t, hwf, _, hf => by
    obtain ⟨f, rfl⟩ : ∃ f, fuel = f + 1 := ⟨fuel - 1, by simp [Json.size] at hf; omega⟩
    have hwf2 : KeysOrdered ((k, x) :: rest) ∧ Json.WFFields ((k, x) :: rest) = true := by
      simpa [Json.WF] using hwf
    have hfields := parseMembers_stringify ((k, x) :: rest) f t [] hwf2.2
      (by simpa using hwf2.1) (by simp [Json.size] at hf; omega) (by simp)
    simp only [membersText, List.cons_append, List.nil_append] at hfields
    simp only [JSON.stringify, List.cons_append]
    rw [parseValue_literal _ _ _ (by decide), if_neg (by decide), if_pos rfl]
    rw [skipWs_cons _ _ (by decide)]
    simp only [show (0x22 : Nat) ≠ 0x7D by decide, if_false]
    rw [hfields]
    rfl
theorem parseElements_stringify : (items : List Json) → (fuel : Nat) → (t : List Nat) →
    Json.WFItems items = true → Json.sizeItems items ≤ fuel → items ≠ [] →
    parseElements fuel (elementsText items ++ t) = some (items, t)
  | [], _, _, _, _, hne => absurd rfl hne
  | [x], fuel, t, hwf, hf, _ => by
    obtain ⟨f, rfl⟩ : ∃ f, fuel = f + 1 := ⟨fuel - 1, by simp [Json.sizeItems] at hf; omega⟩
    have hx := parseValue_stringify x f (0x5D :: t) (by simpa [Json.WFItems] using hwf)
      (Or.inr ⟨_, _, rfl, by simp⟩) (by simp [Json.sizeItems] at hf; omega)
    simp only [elementsText, JSON.moreElements, List.append_assoc, List.singleton_append]
    rw [parseElements_step, hx]
    simp [skipWs]
  | x :: y :: rest, fuel, t, hwf, hf, _ => by
    obtain ⟨f, rfl⟩ : ∃ f, fuel = f + 1 := ⟨fuel - 1, by simp [Json.sizeItems] at hf; omega⟩
    have hwf2 : x.WF = true ∧ Json.WFItems (y :: rest) = true := by
      simpa [Json.WFItems] using hwf
    have hx := parseValue_stringify x f
      (0x2C :: (JSON.stringify y ++ (JSON.moreElements rest ++ t))) hwf2.1
      (Or.inr ⟨_, _, rfl, by simp⟩) (by simp [Json.sizeItems] at hf; omega)
    have hrest := parseElements_stringify (y :: rest) f t hwf2.2
      (by simp [Json.sizeItems] at hf ⊢; omega) (by simp)
    simp only [elementsText] at hrest
    simp only [elementsText, JSON.moreElements, List.append_assoc, List.cons_append]
    rw [parseElements_step, hx]
    simp only [skipWs_cons 0x2C _ (by decide), if_true]
    rw [List.append_assoc] at hrest
    rw [hrest]
    rfl
theorem parseMembers_stringify : (fields : List (List Nat × Json)) → (fuel : Nat) →
    (t : List Nat) → (acc : List (List Nat × Json)) →
    Json.WFFields fields = true → KeysOrdered (acc ++ fields) → Json.sizeFields fields ≤ fuel →
    fields ≠ [] →
    parseMembers fuel (membersText fields ++ t) acc = some (acc ++ fields, t)
  | [], _, _, _, _, _, _, hne => absurd rfl hne
  | [(k, x)], fuel, t, acc, hwf, hord, hf, _ => by
    obtain ⟨f, rfl⟩ : ∃ f, fuel = f + 1 := ⟨fuel - 1, by simp [Json.sizeFields] at hf; omega⟩
    have hwf2 : (∀ c ∈ k, c < 65536) ∧ x.WF = true := by
      simpa [Json.WFFields] using hwf
    have hx := parseValue_stringify x f (0x7D :: t) hwf2.2
      (Or.inr ⟨_, _, rfl, by simp⟩) (by simp [Json.sizeFields] at hf; omega)
    have htext : membersText [(k, x)] ++ t
        = 0x22 :: quoteBody k ++ 0x22 :: 0x3A :: (JSON.stringify x ++ 0x7D :: t) := by
      simp [membersText, JSON.moreMembers]
    rw [htext, parseMembers_step f k _ acc hwf2.1, hx]
    simp only [skipWs_cons 0x7D _ (by decide), show (0x7D : Nat) ≠ 0x2C by decide, if_false,
      if_true]
    rw [setProperty_append k x acc hord]
  | (k, x) :: (k2, y) :: rest, fuel, t, acc, hwf, hord, hf, _ => by
    obtain ⟨f, rfl⟩ : ∃ f, fuel = f + 1 := ⟨fuel - 1, by simp [Json.sizeFields] at hf; omega⟩
    have hwf2 : ((∀ c ∈ k, c < 65536) ∧ x.WF = true)
        ∧ Json.WFFields ((k2, y) :: rest) = true := by
      simpa [Json.WFFields] using hwf
    have hx := parseValue_stringify x f (0x2C :: (membersText ((k2, y) :: rest) ++ t)) hwf2.1.2
      (Or.inr ⟨_, _, rfl, by simp⟩) (by simp [Json.sizeFields] at hf; omega)
    have hord2 : KeysOrdered ((acc ++ [(k, x)]) ++ (k2, y) :: rest) := by
      simpa using hord
    have hord1 : KeysOrdered (acc ++ [(k, x)]) := by
      unfold KeysOrdered at hord2 ⊢
      exact (List.pairwise_append.mp hord2).1
    have hrest := parseMembers_stringify ((k2, y) :: rest) f t (acc ++ [(k, x)]) hwf2.2 hord2
      (by simp [Json.sizeFields] at hf ⊢; omega) (by simp)
    have htext : membersText ((k, x) :: (k2, y) :: rest) ++ t
        = 0x22 :: quoteBody k ++ 0x22 :: 0x3A :: (JSON.stringify x
            ++ 0x2C :: (membersText ((k2, y) :: rest) ++ t)) := by
      simp [membersText, JSON.moreMembers]
    rw [htext, parseMembers_step f k _ acc hwf2.1.1, hx]
    simp only [skipWs_cons 0x2C _ (by decide), if_true]
    rw [setProperty_append k x acc hord1, hrest]
    simp
end

mutual
theorem size_le_length : (x : Json) → x.size ≤ (JSON.stringify x).length
  | .null => by simp [Json.size, JSON.stringify]
  | .bool true => by simp [Json.size, JSON.stringify]
  | .bool false => by simp [Json.size, JSON.stringify]
  | .num n => by
    obtain ⟨c, rest, hc, _⟩ := numberToString_head n
    simp [Json.size, JSON.stringify, hc]
  | .str s => by simp [Json.size, JSON.stringify]
  | .arr [] => by simp [Json.size, JSON.stringify, Json.sizeItems]
  | .arr (x :: rest) => by
    have h := sizeItems_le_length (x :: rest) (by simp)
    simp only [elementsText] at h
    simp only [Json.size, JSON.stringify, List.cons_append, List.length_cons]
    omega
  | .obj [] => by simp [Json.size, JSON.stringify, Json.sizeFields]
  | .obj ((k, x) :: rest) => by
    have h := sizeFields_le_length ((k, x) :: rest) (by simp)
    simp only [membersText, List.cons_append, List.length_cons] at h
    simp only [Json.size, JSON.stringify, List.cons_append, List.length_cons]
    omega
theorem sizeItems_le_length : (items : List Json) → items ≠ [] →
    Json.sizeItems items ≤ (elementsText items).length
  | [], hne => absurd rfl hne
  | [x], _ => by
    have := size_le_length x
    simp [Json.sizeItems, elementsText, JSON.moreElements]
    omega
  | x :: y :: rest, _ => by
    have h1 := size_le_length x
    have h2 := sizeItems_le_length (y :: rest) (by simp)
    simp [Json.sizeItems, elementsText, JSON.moreElements] at h2 ⊢
    omega
theorem sizeFields_le_length : (fields : List (List Nat × Json)) → fields ≠ [] →
    Json.sizeFields fields ≤ (membersText fields).length
  | [], hne => absurd rfl hne
  | [(k, x)], _ => by
    have := size_le_length x
    simp [Json.sizeFields, membersText, JSON.moreMembers]
    omega
  | (k, x) :: (k2, y) :: rest, _ => by
    have h1 := size_le_length x
    have h2 := sizeFields_le_length ((k2, y) :: rest) (by simp)
    simp [Json.sizeFields, membersText, JSON.moreMembers] at h2 ⊢
    omega
end

theorem parse_stringify (x : Json) (hwf : x.WF = true) :
    JSON.parse (JSON.stringify x) = some x := by
  have h := parseValue_stringify x ((JSON.stringify x).length + 1) [] hwf (Or.inl rfl)
    (by have := size_le_length x; omega)
  rw [List.append_nil] at h
  simp [JSON.parse, h, skipWs]

/-! ## Properties: base64 -/

theorem base64Val_base64Char (i : Nat) (h : i < 64) : base64Val (base64Char i) = some i := by
  interval_cases i <;> rfl

theorem base64Char_alphabet (i : Nat) (h : i < 64) :
    (65 ≤ base64Char i ∧ base64Char i ≤ 90) ∨ (97 ≤ base64Char i ∧ base64Char i ≤ 122)
      ∨ (48 ≤ base64Char i ∧ base64Char i ≤ 57) ∨ base64Char i = 43 ∨ base64Char i = 47 := by
  unfold base64Char
  split_ifs <;> omega

theorem stripPadding_cons (c : Nat) (t : List Nat) (h : c ≠ 0x3D) :
    stripPadding (c :: t) = c :: stripPadding t := by
  simp [stripPadding, h]

theorem base64Values_cons (i : Nat) (h : i < 64) (t : List Nat) :
    base64Values (base64Char i :: t) = (base64Values t).map (fun vs => i :: vs) := by
  simp only [base64Values, base64Val_base64Char i h]
  cases base64Values t <;> rfl

/-- Textual facts about the output of `base64Encode` on bytes. -/
theorem base64Encode_chars (n : Nat) :
    ∀ bs : List Nat, bs.length ≤ n → (∀ b ∈ bs, b < 256) →
      (∀ c ∈ base64Encode bs, c < 256
          ∧ ¬ (c = 0x09 ∨ c = 0x0A ∨ c = 0x0C ∨ c = 0x0D ∨ c = 0x20))
        ∧ (base64Encode bs).length % 4 = 0 := by
  induction n using Nat.strong_induction_on with
  | _ n ih =>
    intro bs hlen hbs
    have hchar : ∀ i, i < 64 → base64Char i < 256
        ∧ ¬ (base64Char i = 0x09 ∨ base64Char i = 0x0A ∨ base64Char i = 0x0C
          ∨ base64Char i = 0x0D ∨ base64Char i = 0x20) := by
      intro i hi
      have := base64Char_alphabet i hi
      omega
    match bs, hlen, hbs with
    | [], _, _ => simp [base64Encode]
    | [a], _, hbs =>
      have ha : a < 256 := hbs a (by simp)
      refine ⟨?_, by simp [base64Encode]⟩
      intro c hc
      simp only [base64Encode, List.mem_cons, List.mem_singleton, List.not_mem_nil,
        or_false] at hc
      rcases hc with rfl | rfl | rfl | rfl
      · exact hchar _ (by omega)
      · exact hchar _ (by omega)
      · decide
      · decide
    | [a, b], _, hbs =>
      have ha : a < 256 := hbs a (by simp)
      have hb : b < 256 := hbs b (by simp)
      refine ⟨?_, by simp [base64Encode]⟩
      intro c hc
      simp only [base64Encode, List.mem_cons, List.mem_singleton, List.not_mem_nil,
        or_false] at hc
      rcases hc with rfl | rfl | rfl | rfl
      · exact hchar _ (by omega)
      · exact hchar _ (by omega)
      · exact hchar _ (by omega)
      · decide
    | a :: b :: c :: rest, hlen, hbs =>
      have ha : a < 256 := hbs a (by simp)
      have hb : b < 256 := hbs b (by simp)
      have hc : c < 256 := hbs c (by simp)
      have hrest := ih rest.length (by simp at hlen; omega) rest (le_refl _)
        (fun x hx => hbs x (by simp [hx]))
      refine ⟨?_, ?_⟩
      · intro x hx
        simp only [base64Encode, List.mem_cons] at hx
        rcases hx with rfl | rfl | rfl | rfl | hx
        · exact hchar _ (by omega)
        · exact hchar _ (by omega)
        · exact hchar _ (by omega)
        · exact hchar _ (by omega)
        · exact hrest.1 x hx
      · have := hrest.2
        simp only [base64Encode, List.length_cons]
        omega

/-- Decoding the text of `base64Encode` gives the bytes back. -/
theorem base64Encode_decode (n : Nat) :
    ∀ bs : List Nat, bs.length ≤ n → (∀ b ∈ bs, b < 256) →
      (base64Values (stripPadding (base64Encode bs))).map base64Bytes = some bs
        ∧ (stripPadding (base64Encode bs)).length % 4 ≠ 1 := by
  induction n using Nat.strong_induction_on with
  | _ n ih =>
    intro bs hlen hbs
    have hpad : ∀ i, i < 64 → base64Char i ≠ 0x3D := by
      intro i hi
      have := base64Char_alphabet i hi
      omega
    match bs, hlen, hbs with
    | [], _, _ => simp [base64Encode, stripPadding, base64Values, base64Bytes]
    | [a], _, hbs =>
      have ha : a < 256 := hbs a (by simp)
      have h1 : a / 4 < 64 := by omega
      have h2 : a % 4 * 16 < 64 := by omega
      simp only [base64Encode]
      rw [stripPadding_cons _ _ (hpad _ h1), stripPadding_cons _ _ (hpad _ h2)]
      rw [base64Values_cons _ h1, base64Values_cons _ h2]
      simp only [stripPadding, base64Values, base64Bytes, Option.map_some', List.length_cons,
        List.length_nil, and_true, true_or, or_true, if_true]
      refine ⟨?_, by omega⟩
      congr 2
      omega
    | [a, b], _, hbs =>
      have ha : a < 256 := hbs a (by simp)
      have hb : b < 256 := hbs b (by simp)
      have h1 : a / 4 < 64 := by omega
      have h2 : a % 4 * 16 + b / 16 < 64 := by omega
      have h3 : b % 16 * 4 < 64 := by omega
      simp only [base64Encode]
      rw [stripPadding_cons _ _ (hpad _ h1), stripPadding_cons _ _ (hpad _ h2),
        stripPadding_cons _ _ (hpad _ h3)]
      rw [base64Values_cons _ h1, base64Values_cons _ h2, base64Values_cons _ h3]
      simp only [stripPadding, base64Values, base64Bytes, Option.map_some', List.length_cons,
        List.length_nil, and_true, true_or, or_true, if_true]
      refine ⟨?_, by omega⟩
      congr 2
      · omega
      · congr 1
        omega
    | a :: b :: c :: rest, hlen, hbs =>
      have ha : a < 256 := hbs a (by simp)
      have hb : b < 256 := hbs b (by simp)
      have hc : c < 256 := hbs c (by simp)
      have h1 : a / 4 < 64 := by omega
      have h2 : a % 4 * 16 + b / 16 < 64 := by omega
      have h3 : b % 16 * 4 + c / 64 < 64 := by omega
      have h4 : c % 64 < 64 := by omega
      obtain ⟨hrest, hlenrest⟩ := ih rest.length (by simp at hlen; omega) rest (le_refl _)
        (fun x hx => hbs x (by simp [hx]))
      simp only [base64Encode]
      rw [stripPadding_cons _ _ (hpad _ h1), stripPadding_cons _ _ (hpad _ h2),
        stripPadding_cons _ _ (hpad _ h3), stripPadding_cons _ _ (hpad _ h4)]
      rw [base64Values_cons _ h1, base64Values_cons _ h2, base64Values_cons _ h3,
        base64Values_cons _ h4]
      refine ⟨?_, by simp only [List.length_cons]; omega⟩
      cases hv : base64Values (stripPadding (base64Encode rest)) with
      | none => rw [hv] at hrest; simp at hrest
      | some vs =>
        rw [hv] at hrest
        simp only [Option.map_some', Option.some.injEq] at hrest
        simp only [Option.map_some', base64Bytes, hrest, Option.some.injEq]
        congr 1
        · omega
        · congr 1
          · omega
          · congr 1
            omega

theorem atob_base64Encode (bs : List Nat) (hbs : ∀ b ∈ bs, b < 256) :
    atob (base64Encode bs) = some bs := by
  obtain ⟨hchars, hlen⟩ := base64Encode_chars bs.length bs (le_refl _) hbs
  obtain ⟨hdec, hlen2⟩ := base64Encode_decode bs.length bs (le_refl _) hbs
  have hfilter : (base64Encode bs).filter
      (fun c => !(c = 0x09 || c = 0x0A || c = 0x0C || c = 0x0D || c = 0x20))
      = base64Encode bs := by
    apply List.filter_eq_self.mpr
    intro c hc
    have := (hchars c hc).2
    simp only [not_or] at this
    simp [this]
  unfold atob
  simp only [hfilter, hlen, if_true, hlen2, if_false]
  exact hdec

theorem btoa_bytes (bs : List Nat) (hbs : ∀ b ∈ bs, b < 256) :
    btoa bs = some (base64Encode bs) := by
  unfold btoa
  rw [if_pos]
  simpa using hbs

/-! ## Properties: URI encoding and legacy escaping -/

theorem hexDigitUpper_range (n : Nat) (h : n < 16) :
    (48 ≤ hexDigitUpper n ∧ hexDigitUpper n ≤ 57)
      ∨ (65 ≤ hexDigitUpper n ∧ hexDigitUpper n ≤ 70) := by
  unfold hexDigitUpper
  split <;> omega

theorem unescape_literal (c : Nat) (t : List Nat) (h : c ≠ 0x25) :
    unescape (c :: t) = c :: unescape t := by
  rw [unescape.eq_def]
  simp [h]

theorem unescape_octet (b : Nat) (t : List Nat) (h : b < 256) :
    unescape (0x25 :: hexDigitUpper (b / 16) :: hexDigitUpper (b % 16) :: t)
      = b :: unescape t := by
  have hne : hexDigitUpper (b / 16) ≠ 0x75 := by
    have := hexDigitUpper_range (b / 16) (by omega)
    omega
  rw [unescape.eq_def]
  simp [hne, hexOctet_upper b h]

theorem unescape_percentEncode (t : List Nat) :
    ∀ bs : List Nat, (∀ b ∈ bs, b < 256) →
      unescape (percentEncode bs ++ t) = bs ++ unescape t := by
  intro bs
  induction bs with
  | nil => intro _; rfl
  | cons b bs ih =>
    intro h
    simp only [percentEncode, List.cons_append]
    rw [unescape_octet b _ (h b (List.mem_cons_self _ _)),
      ih (fun x hx => h x (List.mem_cons_of_mem _ hx))]

theorem escape_high (b : Nat) (t : List Nat) (h1 : 0x80 ≤ b) (h2 : b < 256) :
    escape (b :: t)
      = 0x25 :: hexDigitUpper (b / 16) :: hexDigitUpper (b % 16) :: escape t := by
  have hsafe : isEscapeSafe b = false := by
    simp [isEscapeSafe, isAlphaNum]
    omega
  simp [escape, hsafe, h2]

theorem decodeLoop_literal (c : Nat) (t : List Nat) (h : c ≠ 0x25) :
    decodeLoop (c :: t) 0 0 0 = (decodeLoop t 0 0 0).map (fun r => c :: r) := by
  rw [decodeLoop.eq_def]
  simp [h]

theorem decodeLoop_octet (b : Nat) (t : List Nat) (pending acc lower : Nat) (h : b < 256) :
    decodeLoop (0x25 :: hexDigitUpper (b / 16) :: hexDigitUpper (b % 16) :: t)
        pending acc lower =
      if pending = 0 then
        if b < 0x80 then (decodeLoop t 0 0 0).map (fun r => b :: r)
        else if b < 0xC0 then none
        else if b < 0xE0 then decodeLoop t 1 (b - 0xC0) 0x80
        else if b < 0xF0 then decodeLoop t 2 (b - 0xE0) 0x800
        else if b < 0xF8 then decodeLoop t 3 (b - 0xF0) 0x10000
        else none
      else if 0x80 ≤ b ∧ b < 0xC0 then
        if pending = 1 then
          if lower ≤ acc * 64 + (b - 0x80) ∧ acc * 64 + (b - 0x80) ≤ 0x10FFFF
              ∧ ¬ (0xD800 ≤ acc * 64 + (b - 0x80) ∧ acc * 64 + (b - 0x80) ≤ 0xDFFF) then
            (decodeLoop t 0 0 0).map (fun r => utf16Encode (acc * 64 + (b - 0x80)) ++ r)
          else none
        else decodeLoop t (pending - 1) (acc * 64 + (b - 0x80)) lower
      else none := by
  rw [decodeLoop.eq_def]
  simp only [ne_eq, not_true_eq_false, if_false, hexOctet_upper b h]

theorem decodeLoop_first (b : Nat) (t : List Nat) (h : b < 256) :
    decodeLoop (0x25 :: hexDigitUpper (b / 16) :: hexDigitUpper (b % 16) :: t) 0 0 0 =
      if b < 0x80 then (decodeLoop t 0 0 0).map (fun r => b :: r)
      else if b < 0xC0 then none
      else if b < 0xE0 then decodeLoop t 1 (b - 0xC0) 0x80
      else if b < 0xF0 then decodeLoop t 2 (b - 0xE0) 0x800
      else if b < 0xF8 then decodeLoop t 3 (b - 0xF0) 0x10000
      else none := by
  rw [decodeLoop_octet b t 0 0 0 h, if_pos rfl]

theorem decodeLoop_middle (b : Nat) (t : List Nat) (pending acc lower : Nat)
    (h1 : 0x80 ≤ b) (h2 : b < 0xC0) (hp : 2 ≤ pending) :
    decodeLoop (0x25 :: hexDigitUpper (b / 16) :: hexDigitUpper (b % 16) :: t)
        pending acc lower
      = decodeLoop t (pending - 1) (acc * 64 + (b - 0x80)) lower := by
  rw [decodeLoop_octet b t pending acc lower (by omega), if_neg (by omega), if_pos ⟨h1, h2⟩,
    if_neg (by omega)]

theorem decodeLoop_last (b : Nat) (t : List Nat) (acc lower : Nat)
    (h1 : 0x80 ≤ b) (h2 : b < 0xC0)
    (hv : lower ≤ acc * 64 + (b - 0x80) ∧ acc * 64 + (b - 0x80) ≤ 0x10FFFF
      ∧ ¬ (0xD800 ≤ acc * 64 + (b - 0x80) ∧ acc * 64 + (b - 0x80) ≤ 0xDFFF)) :
    decodeLoop (0x25 :: hexDigitUpper (b / 16) :: hexDigitUpper (b % 16) :: t) 1 acc lower
      = (decodeLoop t 0 0 0).map (fun r => utf16Encode (acc * 64 + (b - 0x80)) ++ r) := by
  rw [decodeLoop_octet b t 1 acc lower (by omega), if_neg (by omega), if_pos ⟨h1, h2⟩,
    if_pos rfl, if_pos hv]

theorem decode_two (cp : Nat) (t : List Nat) (h1 : 0x80 ≤ cp) (h2 : cp < 0x800) :
    decodeLoop (percentEncode [0xC0 + cp / 64, 0x80 + cp % 64] ++ t) 0 0 0
      = (decodeLoop t 0 0 0).map (fun r => utf16Encode cp ++ r) := by
  have hcp : (0xC0 + cp / 64 - 0xC0) * 64 + (0x80 + cp % 64 - 0x80) = cp := by omega
  simp only [percentEncode, List.cons_append, List.nil_append]
  rw [decodeLoop_first _ _ (by omega), if_neg (by omega), if_neg (by omega), if_pos (by omega),
    decodeLoop_last _ _ _ _ (by omega) (by omega) (by rw [hcp]; omega), hcp]

theorem decode_three (cp : Nat) (t : List Nat) (h1 : 0x800 ≤ cp) (h2 : cp < 0x10000)
    (h3 : ¬ (0xD800 ≤ cp ∧ cp ≤ 0xDFFF)) :
    decodeLoop
        (percentEncode [0xE0 + cp / 4096, 0x80 + cp / 64 % 64, 0x80 + cp % 64] ++ t) 0 0 0
      = (decodeLoop t 0 0 0).map (fun r => utf16Encode cp ++ r) := by
  have hcp : ((0xE0 + cp / 4096 - 0xE0) * 64 + (0x80 + cp / 64 % 64 - 0x80)) * 64
      + (0x80 + cp % 64 - 0x80) = cp := by omega
  simp only [percentEncode, List.cons_append, List.nil_append]
  rw [decodeLoop_first _ _ (by omega), if_neg (by omega), if_neg (by omega), if_neg (by omega),
    if_pos (by omega), decodeLoop_middle _ _ _ _ _ (by omega) (by omega) (by omega),
    decodeLoop_last _ _ _ _ (by omega) (by omega) (by rw [hcp]; omega), hcp]

theorem decode_four (cp : Nat) (t : List Nat) (h1 : 0x10000 ≤ cp) (h2 : cp ≤ 0x10FFFF) :
    decodeLoop
        (percentEncode [0xF0 + cp / 262144, 0x80 + cp / 4096 % 64, 0x80 + cp / 64 % 64,
          0x80 + cp % 64] ++ t) 0 0 0
      = (decodeLoop t 0 0 0).map (fun r => utf16Encode cp ++ r) := by
  have hcp : (((0xF0 + cp / 262144 - 0xF0) * 64 + (0x80 + cp / 4096 % 64 - 0x80)) * 64
      + (0x80 + cp / 64 % 64 - 0x80)) * 64 + (0x80 + cp % 64 - 0x80) = cp := by omega
  simp only [percentEncode, List.cons_append, List.nil_append]
  rw [decodeLoop_first _ _ (by omega), if_neg (by omega), if_neg (by omega), if_neg (by omega),
    if_neg (by omega), if_pos (by omega),
    decodeLoop_middle _ _ _ _ _ (by omega) (by omega) (by omega),
    decodeLoop_middle _ _ _ _ _ (by omega) (by omega) (by omega),
    decodeLoop_last _ _ _ _ (by omega) (by omega) (by rw [hcp]; omega), hcp]

theorem escape_append (a : List Nat) (t : List Nat) (ha : ∀ b ∈ a, 0x80 ≤ b ∧ b < 256) :
    escape (a ++ t) = percentEncode a ++ escape t := by
  induction a with
  | nil => rfl
  | cons b a ih =>
    have hb := ha b (List.mem_cons_self _ _)
    rw [List.cons_append, escape_high b _ hb.1 hb.2,
      ih (fun x hx => ha x (List.mem_cons_of_mem _ hx))]
    rfl

theorem utf8Encode_bytes (cp : Nat) (h : cp ≤ 0x10FFFF) : ∀ b ∈ utf8Encode cp, b < 256 := by
  intro b hb
  unfold utf8Encode at hb
  split_ifs at hb <;> simp at hb <;> omega

/-- One code point: the octets written by `encodeURIComponent`, read by `unescape`, escaped by
`escape` and decoded by `decodeURIComponent` give the code units of the code point. -/
theorem decode_escape_utf8 (cp : Nat) (t : List Nat) (h1 : cp ≤ 0x10FFFF)
    (h2 : ¬ (0xD800 ≤ cp ∧ cp ≤ 0xDFFF)) :
    decodeLoop (escape (utf8Encode cp ++ t)) 0 0 0
      = (decodeLoop (escape t) 0 0 0).map (fun r => utf16Encode cp ++ r) := by
  unfold utf8Encode
  split_ifs with ha hb hc
  · have h16 : utf16Encode cp = [cp] := by
      unfold utf16Encode
      rw [if_pos (by omega)]
    rw [h16]
    by_cases hsafe : isEscapeSafe cp = true
    · have hne : cp ≠ 0x25 := by
        intro h
        rw [h] at hsafe
        revert hsafe
        decide
      simp only [List.cons_append, List.nil_append, escape, hsafe, if_true]
      rw [decodeLoop_literal cp _ hne]
      rfl
    · have h256 : cp < 256 := by omega
      simp only [List.cons_append, List.nil_append, escape, hsafe, Bool.false_eq_true,
        if_false, h256, if_true]
      rw [decodeLoop_first cp _ h256, if_pos ha]
      rfl
  · rw [escape_append _ _ (by intro b hb; simp at hb; omega),
      decode_two cp _ (by omega) hb]
  · rw [escape_append _ _ (by intro b hb; simp at hb; omega),
      decode_three cp _ (by omega) hc h2]
  · rw [escape_append _ _ (by intro b hb; simp at hb; omega),
      decode_four cp _ (by omega) h1]

theorem isUriUnreserved_ascii (c : Nat) (h : isUriUnreserved c = true) :
    c < 0x80 ∧ c ≠ 0x25 := by
  simp [isUriUnreserved, isAlphaNum] at h
  omega

theorem encodeURIComponent_cons_unreserved (c : Nat) (rest : List Nat)
    (h : isUriUnreserved c = true) :
    encodeURIComponent (c :: rest) = (encodeURIComponent rest).map (fun r => c :: r) := by
  rw [encodeURIComponent.eq_def]
  simp [h]

theorem encodeURIComponent_cons_bmp (c : Nat) (rest : List Nat)
    (h : isUriUnreserved c = false) (hs : ¬ (0xD800 ≤ c ∧ c ≤ 0xDFFF)) :
    encodeURIComponent (c :: rest)
      = (encodeURIComponent rest).map (fun r => percentEncode (utf8Encode c) ++ r) := by
  rw [encodeURIComponent.eq_def]
  have h1 : ¬ (0xDC00 ≤ c ∧ c ≤ 0xDFFF) := by omega
  have h2 : ¬ (0xD800 ≤ c ∧ c ≤ 0xDBFF) := by omega
  simp [h, h1, h2]

theorem encodeURIComponent_cons_pair (c d : Nat) (rest : List Nat)
    (hc : 0xD800 ≤ c ∧ c ≤ 0xDBFF) (hd : 0xDC00 ≤ d ∧ d ≤ 0xDFFF) :
    encodeURIComponent (c :: d :: rest)
      = (encodeURIComponent rest).map (fun r =>
          percentEncode (utf8Encode (0x10000 + (c - 0xD800) * 0x400 + (d - 0xDC00))) ++ r) := by
  have h0 : isUriUnreserved c = false := by
    simp [isUriUnreserved, isAlphaNum]
    omega
  have h1 : ¬ (0xDC00 ≤ c ∧ c ≤ 0xDFFF) := by omega
  rw [encodeURIComponent.eq_def]
  simp [h0, h1, hc, hd]

theorem encodeURIComponent_lone (c : Nat) (rest : List Nat)
    (hc : 0xD800 ≤ c ∧ c ≤ 0xDFFF)
    (hlone : ¬ ((0xD800 ≤ c ∧ c ≤ 0xDBFF)
      ∧ ∃ d rest2, rest = d :: rest2 ∧ 0xDC00 ≤ d ∧ d ≤ 0xDFFF)) :
    encodeURIComponent (c :: rest) = none := by
  have h0 : isUriUnreserved c = false := by
    simp [isUriUnreserved, isAlphaNum]
    omega
  rw [encodeURIComponent.eq_def]
  simp only [h0, Bool.false_eq_true, if_false]
  split_ifs with h1 h2
  · rfl
  · cases rest with
    | nil => rfl
    | cons d rest2 =>
      simp only
      split_ifs with h3
      · exact absurd ⟨h2, d, rest2, rfl, h3⟩ hlone
      · rfl
  · omega

/-- What `encodeURIComponent` accepts is given back, as bytes, by `unescape`, and those bytes
are turned back into the text by `escape` followed by `decodeURIComponent`. -/
theorem uri_round_trip (n : Nat) :
    ∀ s : List Nat, s.length ≤ n → (∀ c ∈ s, c < 65536) →
      ∀ p, encodeURIComponent s = some p →
        (∀ b ∈ unescape p, b < 256) ∧ decodeURIComponent (escape (unescape p)) = some s := by
  induction n using Nat.strong_induction_on with
  | _ n ih =>
    intro s hlen hs p hp
    match s, hlen, hs, hp with
    | [], _, _, hp =>
      simp only [encodeURIComponent, Option.some.injEq] at hp
      subst hp
      exact ⟨by simp [unescape], rfl⟩
    | c :: rest, hlen, hs, hp =>
      have hc : c < 65536 := hs c (List.mem_cons_self _ _)
      have hrestlt : ∀ x ∈ rest, x < 65536 := fun x hx => hs x (List.mem_cons_of_mem _ hx)
      by_cases hun : isUriUnreserved c = true
      · obtain ⟨hascii, hpct⟩ := isUriUnreserved_ascii c hun
        rw [encodeURIComponent_cons_unreserved c rest hun] at hp
        cases hq : encodeURIComponent rest with
        | none => rw [hq] at hp; simp at hp
        | some q =>
          rw [hq] at hp
          simp only [Option.map_some', Option.some.injEq] at hp
          subst hp
          obtain ⟨hb, hd⟩ := ih rest.length (by simp at hlen; omega) rest (le_refl _) hrestlt q hq
          rw [unescape_literal c q hpct]
          refine ⟨?_, ?_⟩
          · intro b hb2
            rcases List.mem_cons.mp hb2 with rfl | hb2
            · omega
            · exact hb b hb2
          · have h8 : utf8Encode c = [c] := by
              unfold utf8Encode
              rw [if_pos (by omega)]
            have h16 : utf16Encode c = [c] := by
              unfold utf16Encode
              rw [if_pos (by omega)]
            have hstep := decode_escape_utf8 c (unescape q) (by omega) (by omega)
            unfold decodeURIComponent at hd ⊢
            rw [h8, h16, hd] at hstep
            exact hstep
      · have hun2 : isUriUnreserved c = false := by simpa using hun
        by_cases hsur : 0xD800 ≤ c ∧ c ≤ 0xDFFF
        · by_cases hpair : (0xD800 ≤ c ∧ c ≤ 0xDBFF)
              ∧ ∃ d rest2, rest = d :: rest2 ∧ 0xDC00 ≤ d ∧ d ≤ 0xDFFF
          · obtain ⟨hhigh, d, rest2, hrest, hlow⟩ := hpair
            subst hrest
            rw [encodeURIComponent_cons_pair c d rest2 hhigh hlow] at hp
            cases hq : encodeURIComponent rest2 with
            | none => rw [hq] at hp; simp at hp
            | some q =>
              rw [hq] at hp
              simp only [Option.map_some', Option.some.injEq] at hp
              subst hp
              obtain ⟨hb, hd⟩ := ih rest2.length (by simp at hlen; omega) rest2 (le_refl _)
                (fun x hx => hrestlt x (List.mem_cons_of_mem _ hx)) q hq
              have hcp : 0x10000 + (c - 0xD800) * 0x400 + (d - 0xDC00) ≤ 0x10FFFF := by omega
              have hbytes := utf8Encode_bytes _ hcp
              rw [unescape_percentEncode q _ hbytes]
              refine ⟨?_, ?_⟩
              · intro b hb2
                rcases List.mem_append.mp hb2 with hb2 | hb2
                · exact hbytes b hb2
                · exact hb b hb2
              · have h16 : utf16Encode (0x10000 + (c - 0xD800) * 0x400 + (d - 0xDC00))
                    = [c, d] := by
                  have hge : ¬ (0x10000 + (c - 0xD800) * 0x400 + (d - 0xDC00) < 0x10000) := by
                    omega
                  have e1 : 0xD800 + (0x10000 + (c - 0xD800) * 0x400 + (d - 0xDC00) - 0x10000)
                      / 0x400 = c := by omega
                  have e2 : 0xDC00 + (0x10000 + (c - 0xD800) * 0x400 + (d - 0xDC00) - 0x10000)
                      % 0x400 = d := by omega
                  unfold utf16Encode
                  rw [if_neg hge, e1, e2]
                unfold decodeURIComponent at hd ⊢
                rw [decode_escape_utf8 _ _ hcp (by omega), hd, h16]
                rfl
          · rw [encodeURIComponent_lone c rest hsur hpair] at hp
            simp at hp
        · rw [encodeURIComponent_cons_bmp c rest hun2 hsur] at hp
          cases hq : encodeURIComponent rest with
          | none => rw [hq] at hp; simp at hp
          | some q =>
            rw [hq] at hp
            simp only [Option.map_some', Option.some.injEq] at hp
            subst hp
            obtain ⟨hb, hd⟩ := ih rest.length (by simp at hlen; omega) rest (le_refl _) hrestlt
              q hq
            have hbytes := utf8Encode_bytes c (by omega)
            rw [unescape_percentEncode q _ hbytes]
            refine ⟨?_, ?_⟩
            · intro b hb2
              rcases List.mem_append.mp hb2 with hb2 | hb2
              · exact hbytes b hb2
              · exact hb b hb2
            · have h16 : utf16Encode c = [c] := by
                unfold utf16Encode
                rw [if_pos (by omega)]
              unfold decodeURIComponent at hd ⊢
              rw [decode_escape_utf8 c _ (by omega) hsur, hd, h16]
              rfl

/-! ## Properties: the text of JSON.stringify is accepted by encodeURIComponent -/

theorem uriSafe_nil : UriSafe [] :=
  ⟨by simp, fun _ h => h⟩

theorem uriSafe_append (a b : List Nat) (ha : UriSafe a) (hb : UriSafe b) :
    UriSafe (a ++ b) := by
  refine ⟨?_, ?_⟩
  · intro c hc
    rcases List.mem_append.mp hc with h | h
    · exact ha.1 c h
    · exact hb.1 c h
  · intro t ht
    rw [List.append_assoc]
    exact ha.2 _ (hb.2 t ht)

theorem uriSafe_cons (c : Nat) (a : List Nat) (hc : c < 65536)
    (hs : ¬ (0xD800 ≤ c ∧ c ≤ 0xDFFF)) (ha : UriSafe a) : UriSafe (c :: a) := by
  refine ⟨?_, ?_⟩
  · intro x hx
    rcases List.mem_cons.mp hx with rfl | h
    · exact hc
    · exact ha.1 x h
  · intro t ht
    have hrest := ha.2 t ht
    rw [List.cons_append]
    by_cases hun : isUriUnreserved c = true
    · rw [encodeURIComponent_cons_unreserved c _ hun]
      simpa using hrest
    · rw [encodeURIComponent_cons_bmp c _ (by simpa using hun) hs]
      simpa using hrest

theorem uriSafe_pair (c d : Nat) (a : List Nat) (hc : 0xD800 ≤ c ∧ c ≤ 0xDBFF)
    (hd : 0xDC00 ≤ d ∧ d ≤ 0xDFFF) (ha : UriSafe a) : UriSafe (c :: d :: a) := by
  refine ⟨?_, ?_⟩
  · intro x hx
    rcases List.mem_cons.mp hx with rfl | h
    · omega
    · rcases List.mem_cons.mp h with rfl | h
      · omega
      · exact ha.1 x h
  · intro t ht
    have hrest := ha.2 t ht
    rw [List.cons_append, List.cons_append, encodeURIComponent_cons_pair c d _ hc hd]
    simpa using hrest

theorem uriSafe_ascii (l : List Nat) (h : ∀ c ∈ l, c < 0x80) : UriSafe l := by
  induction l with
  | nil => exact uriSafe_nil
  | cons c l ih =>
    have hc := h c (List.mem_cons_self _ _)
    exact uriSafe_cons c l (by omega) (by omega) (ih (fun x hx => h x (List.mem_cons_of_mem _ hx)))

theorem hexDigitLower_ascii (n : Nat) (h : n < 16) : hexDigitLower n < 0x80 := by
  unfold hexDigitLower
  split <;> omega

theorem uriSafe_quoteUnit (c : Nat) (hc : c < 65536) : UriSafe (quoteUnit c) := by
  unfold quoteUnit
  split_ifs with h1 h2 h3 h4 h5 h6 h7 h8
  · exact uriSafe_ascii _ (by decide)
  · exact uriSafe_ascii _ (by decide)
  · exact uriSafe_ascii _ (by decide)
  · exact uriSafe_ascii _ (by decide)
  · exact uriSafe_ascii _ (by decide)
  · exact uriSafe_ascii _ (by decide)
  · exact uriSafe_ascii _ (by decide)
  · apply uriSafe_ascii
    intro x hx
    simp only [unicodeEscape, List.mem_cons, List.mem_singleton, List.not_mem_nil,
      or_false] at hx
    rcases hx with rfl | rfl | rfl | rfl | rfl | rfl
    · decide
    · decide
    · exact hexDigitLower_ascii _ (by omega)
    · exact hexDigitLower_ascii _ (by omega)
    · exact hexDigitLower_ascii _ (by omega)
    · exact hexDigitLower_ascii _ (by omega)
  · exact uriSafe_cons c [] hc (fun hs => h8 (Or.inr hs)) uriSafe_nil

theorem uriSafe_quoteBody (n : Nat) :
    ∀ s : List Nat, s.length ≤ n → (∀ c ∈ s, c < 65536) → UriSafe (quoteBody s) := by
  induction n using Nat.strong_induction_on with
  | _ n ih =>
    intro s hlen hs
    match s, hlen, hs with
    | [], _, _ => exact uriSafe_nil
    | [c], _, hs =>
      rw [quoteBody]
      exact uriSafe_quoteUnit c (hs c (List.mem_cons_self _ _))
    | c :: d :: rest, hlen, hs =>
      rw [quoteBody]
      split_ifs with hpair
      · exact uriSafe_pair c d _ hpair.1 hpair.2
          (ih rest.length (by simp at hlen; omega) rest (le_refl _)
            (fun x hx => hs x (List.mem_cons_of_mem _ (List.mem_cons_of_mem _ hx))))
      · exact uriSafe_append _ _ (uriSafe_quoteUnit c (hs c (List.mem_cons_self _ _)))
          (ih (d :: rest).length (by simp at hlen ⊢; omega) (d :: rest) (le_refl _)
            (fun x hx => hs x (List.mem_cons_of_mem _ hx)))

theorem uriSafe_quoted (s : List Nat) (hs : ∀ c ∈ s, c < 65536) :
    UriSafe (0x22 :: quoteBody s ++ [0x22]) := by
  rw [List.cons_append]
  exact uriSafe_cons _ _ (by decide) (by decide)
    (uriSafe_append _ _ (uriSafe_quoteBody s.length s (le_refl _) hs)
      (uriSafe_ascii _ (by decide)))

theorem uriSafe_numberToString (n : Int) : UriSafe (numberToString n) := by
  have hdec : ∀ m, UriSafe (decimal m) := by
    intro m
    apply uriSafe_ascii
    intro c hc
    have := decimal_digits m c hc
    omega
  unfold numberToString
  split_ifs
  · exact uriSafe_cons _ _ (by decide) (by decide) (hdec _)
  · exact hdec _

mutual
theorem uriSafe_stringify : (x : Json) → x.WF = true → UriSafe (JSON.stringify x)
  | .null, _ => uriSafe_ascii _ (by decide)
  | .bool true, _ => uriSafe_ascii _ (by decide)
  | .bool false, _ => uriSafe_ascii _ (by decide)
  | .num n, _ => by
    simp only [JSON.stringify]
    exact uriSafe_numberToString n
  | .str s, hwf => by
    simp only [JSON.stringify]
    exact uriSafe_quoted s (by simpa [Json.WF] using hwf)
  | .arr [], _ => uriSafe_ascii _ (by decide)
  | .arr (x :: rest), hwf => by
    have hwf2 : x.WF = true ∧ Json.WFItems rest = true := by
      simpa [Json.WF, Json.WFItems] using hwf
    simp only [JSON.stringify, List.cons_append]
    exact uriSafe_cons _ _ (by decide) (by decide)
      (uriSafe_append _ _ (uriSafe_stringify x hwf2.1) (uriSafe_moreElements rest hwf2.2))
  | .obj [], _ => uriSafe_ascii _ (by decide)
  | .obj ((k, x) :: rest), hwf => by
    have hwf2 : ((∀ c ∈ k, c < 65536) ∧ x.WF = true) ∧ Json.WFFields rest = true := by
      have h := hwf
      simp only [Json.WF, Json.WFFields, Bool.and_eq_true, decide_eq_true_eq, List.all_eq_true]
        at h
      exact ⟨⟨h.2.1.1, h.2.1.2⟩, h.2.2⟩
    have hkey := uriSafe_quoted k hwf2.1.1
    have hval := uriSafe_stringify x hwf2.1.2
    have hrest := uriSafe_moreMembers rest hwf2.2
    have htext : JSON.stringify (.obj ((k, x) :: rest))
        = [0x7B] ++ ((0x22 :: quoteBody k ++ [0x22]) ++ ([0x3A] ++ (JSON.stringify x
            ++ JSON.moreMembers rest))) := by
      simp [JSON.stringify]
    rw [htext]
    exact uriSafe_append _ _ (uriSafe_ascii _ (by decide))
      (uriSafe_append _ _ hkey
        (uriSafe_append _ _ (uriSafe_ascii _ (by decide)) (uriSafe_append _ _ hval hrest)))
theorem uriSafe_moreElements : (items : List Json) → Json.WFItems items = true →
    UriSafe (JSON.moreElements items)
  | [], _ => uriSafe_ascii _ (by decide)
  | x :: rest, hwf => by
    have hwf2 : x.WF = true ∧ Json.WFItems rest = true := by
      simpa [Json.WFItems] using hwf
    simp only [JSON.moreElements, List.cons_append]
    exact uriSafe_cons _ _ (by decide) (by decide)
      (uriSafe_append _ _ (uriSafe_stringify x hwf2.1) (uriSafe_moreElements rest hwf2.2))
theorem uriSafe_moreMembers : (fields : List (List Nat × Json)) →
    Json.WFFields fields = true → UriSafe (JSON.moreMembers fields)
  | [], _ => uriSafe_ascii _ (by decide)
  | (k, x) :: rest, hwf => by
    have hwf2 : ((∀ c ∈ k, c < 65536) ∧ x.WF = true) ∧ Json.WFFields rest = true := by
      simpa [Json.WFFields] using hwf
    have hkey := uriSafe_quoted k hwf2.1.1
    have hval := uriSafe_stringify x hwf2.1.2
    have hrest := uriSafe_moreMembers rest hwf2.2
    have htext : JSON.moreMembers ((k, x) :: rest)
        = [0x2C] ++ ((0x22 :: quoteBody k ++ [0x22]) ++ ([0x3A] ++ (JSON.stringify x
            ++ JSON.moreMembers rest))) := by
      simp [JSON.moreMembers]
    rw [htext]
    exact uriSafe_append _ _ (uriSafe_ascii _ (by decide))
      (uriSafe_append _ _ hkey
        (uriSafe_append _ _ (uriSafe_ascii _ (by decide)) (uriSafe_append _ _ hval hrest)))
end

/-! ## Properties: decryptData undoes encryptData -/

/-- Claim C1. For every JSON value that `JSON.stringify` renders exactly (strings of UTF-16
code units, integers, arrays and objects of such values, the empty array included),
`encryptData` returns a string without raising, and `decryptData` applied to that string
returns the value. -/
theorem decryptData_encryptData (x : Json) (hwf : x.WF = true) :
    ∃ encrypted, encryptData x = some encrypted ∧ decryptData encrypted = x := by
  have hsafe := uriSafe_stringify x hwf
  have hsome : (encodeURIComponent (JSON.stringify x)).isSome = true := by
    have := hsafe.2 [] rfl
    rwa [List.append_nil] at this
  obtain ⟨uri, huri⟩ := Option.isSome_iff_exists.mp hsome
  obtain ⟨hbytes, hdecode⟩ :=
    uri_round_trip (JSON.stringify x).length (JSON.stringify x) (le_refl _) hsafe.1 uri huri
  have hinner : ∀ b ∈ base64Encode (unescape uri), b < 256 := fun b hb =>
    ((base64Encode_chars _ _ (le_refl _) hbytes).1 b hb).1
  refine ⟨base64Encode (base64Encode (unescape uri)), ?_, ?_⟩
  · simp only [encryptData, huri, btoa_bytes _ hbytes, btoa_bytes _ hinner]
  · simp only [decryptData, decryptAttempt, atob_base64Encode _ hinner,
      atob_base64Encode _ hbytes, hdecode, parse_stringify x hwf]

theorem decryptData_encryptData_witness :
    (∃ encrypted, encryptData sampleCollection = some encrypted
        ∧ decryptData encrypted = sampleCollection)
      ∧ ∃ encrypted, encryptData (.arr []) = some encrypted
        ∧ decryptData encrypted = .arr [] :=
  ⟨decryptData_encryptData sampleCollection (by decide),
    decryptData_encryptData (.arr []) (by decide)⟩

/-! ## Properties: texts the persistence layer stores -/

theorem stringify_ne_nil (x : Json) : JSON.stringify x ≠ [] := by
  obtain ⟨c, r, h, _⟩ := stringify_head x
  rw [h]
  exact List.cons_ne_nil _ _

/-- The obfuscated text of a value that `JSON.stringify` renders exactly can be computed and
reads back as the value. -/
theorem encryptData_readable (x : Json) (hwf : x.WF = true) :
    ∃ encrypted, encryptData x = some encrypted ∧ decryptData encrypted = x := by
  have hsafe := uriSafe_stringify x hwf
  have hsome : (encodeURIComponent (JSON.stringify x)).isSome = true := by
    have := hsafe.2 [] rfl
    rwa [List.append_nil] at this
  obtain ⟨uri, huri⟩ := Option.isSome_iff_exists.mp hsome
  obtain ⟨hbytes, hdecode⟩ :=
    uri_round_trip (JSON.stringify x).length (JSON.stringify x) (le_refl _) hsafe.1 uri huri
  have hinner : ∀ b ∈ base64Encode (unescape uri), b < 256 := fun b hb =>
    ((base64Encode_chars _ _ (le_refl _) hbytes).1 b hb).1
  refine ⟨base64Encode (base64Encode (unescape uri)), ?_, ?_⟩
  · simp only [encryptData, huri, btoa_bytes _ hbytes, btoa_bytes _ hinner]
  · simp only [decryptData, decryptAttempt, atob_base64Encode _ hinner,
      atob_base64Encode _ hbytes, hdecode, parse_stringify x hwf]

/-! ## Properties: logs -/

theorem addLog_logs (s : State) (type message now : String) :
    (addLog s type message now).logs =
      if (s.logs.length + 1) > 100 then
        ({ type := type, message := message,
           user := match s.currentUser with
             | some u => u.username
             | none => "Sistema"
           timestamp := now } :: s.logs).dropLast
      else
        { type := type, message := message,
          user := match s.currentUser with
            | some u => u.username
            | none => "Sistema"
          timestamp := now } :: s.logs := by
  simp [addLog]

theorem addLog_length_le (s : State) (type message now : String)
    (h : s.logs.length ≤ 100) : (addLog s type message now).logs.length ≤ 100 := by
  rw [addLog_logs]
  split
  · simp only [List.length_dropLast, List.length_cons]
    omega
  · simp only [List.length_cons]
    omega

theorem clearLogs_length_le (s : State) (confirmed : Bool)
    (h : s.logs.length ≤ 100) : (clearLogs s confirmed).logs.length ≤ 100 := by
  unfold clearLogs
  split
  · simp
  · exact h

theorem runLogOps_length_le (ops : List LogOp) :
    ∀ s : State, s.logs.length ≤ 100 → (runLogOps s ops).logs.length ≤ 100 := by
  induction ops with
  | nil => intro s h; simpa [runLogOps] using h
  | cons op ops ih =>
    intro s h
    have hstep : (LogOp.run s op).logs.length ≤ 100 := by
      cases op with
      | addLog type message now => exact addLog_length_le s type message now h
      | clearLogs confirmed => exact clearLogs_length_le s confirmed h
    have := ih (LogOp.run s op) hstep
    simpa [runLogOps] using this

/-- Claim C8. Starting from an empty log list, after any sequence of `addLog` and `clearLogs`
calls the stored log list has at most 100 entries. -/
theorem logs_never_exceed_100 (s : State) (ops : List LogOp) (h : s.logs = []) :
    (runLogOps s ops).logs.length ≤ 100 := by
  apply runLogOps_length_le
  simp [h]

/-- Claim C9. With exactly 100 stored entries, `addLog` stores 100 entries: the new entry followed
by the previous first 99; the entry left out is the previous last one. -/
theorem addLog_at_capacity (s : State) (type message now : String)
    (h : s.logs.length = 100) :
    (addLog s type message now).logs =
        { type := type, message := message,
          user := match s.currentUser with
            | some u => u.username
            | none => "Sistema"
          timestamp := now } :: s.logs.take 99
      ∧ (addLog s type message now).logs.length = 100
      ∧ ∃ oldest, s.logs = s.logs.take 99 ++ [oldest] := by
  have hne : s.logs ≠ [] := by
    intro h0
    rw [h0] at h
    simp at h
  have htake : s.logs.dropLast = s.logs.take 99 := by
    rw [List.dropLast_eq_take, h]
  refine ⟨?_, ?_, s.logs.getLast hne, ?_⟩
  · rw [addLog_logs, if_pos (by omega), List.dropLast_cons_of_ne_nil hne, htake]
  · rw [addLog_logs, if_pos (by omega)]
    simp only [List.length_dropLast, List.length_cons]
    omega
  · rw [← htake]
    exact (List.dropLast_append_getLast hne).symm

/-! ## Properties: hashPassword -/

set_option maxRecDepth 100000

/-- Claim C10. The hashes of the passwords 1234 and 5678 are different strings. -/
theorem hashPassword_1234_ne_5678 : hashPassword "1234" ≠ hashPassword "5678" := by
  decide

/-! ## Properties: broadcast -/

theorem broadcastCopies_recipients (type title message : String) (g : Option Bool)
    (now : Nat → String) (us : List User) :
    ∀ i, (broadcastCopies type title message g now i us).map (fun n => n.recipient)
      = us.map (fun u => u.username) := by
  induction us with
  | nil => intro i; rfl
  | cons u us ih => intro i; simp [broadcastCopies, ih]

theorem broadcastCopies_fields (type title message : String) (g : Option Bool)
    (now : Nat → String) (us : List User) :
    ∀ i, ∀ n ∈ broadcastCopies type title message g now i us,
      n.type = type ∧ n.title = title ∧ n.message = message ∧ n.read = false
        ∧ n.isGlobal = g ∧ ∃ j, n.timestamp = now j := by
  induction us with
  | nil => intro i n hn; simp [broadcastCopies] at hn
  | cons u us ih =>
    intro i n hn
    simp only [broadcastCopies, List.mem_cons] at hn
    rcases hn with rfl | hn
    · exact ⟨rfl, rfl, rfl, rfl, rfl, i, rfl⟩
    · exact ih (i + 1) n hn

/-- Claim C4. A broadcast (`addInternalNotification` with recipient all) keeps the stored
notifications as a prefix, in order, and appends after them one unread notification per user
record with role user, addressed to that record's username, in the order of the users
collection; records with another role (admins) get none. -/
theorem addInternalNotification_all_appends (s : State) (type title message : String)
    (now : Nat → String) :
    ∃ added : List Notification,
      (addInternalNotification s "all" type title message now).notifications
          = s.notifications ++ added
        ∧ added.map (fun n => n.recipient)
          = (s.users.filter (fun u => u.role == "user")).map (fun u => u.username)
        ∧ added.length = s.users.countP (fun u => u.role == "user")
        ∧ (∀ n ∈ added, n.read = false ∧ n.type = type ∧ n.title = title
            ∧ n.message = message)
        ∧ (∀ u ∈ s.users, u.role ≠ "user" →
            (∀ v ∈ s.users, v.role = "user" → v.username ≠ u.username) →
            ∀ n ∈ added, n.recipient ≠ u.username) := by
  refine ⟨broadcastCopies type title message (some true) now 0
    (s.users.filter (fun u => u.role == "user")), ?_, ?_, ?_, ?_, ?_⟩
  · simp [addInternalNotification]
  · exact broadcastCopies_recipients _ _ _ _ _ _ 0
  · have h := congrArg List.length (broadcastCopies_recipients type title message (some true) now
      (s.users.filter (fun u => u.role == "user")) 0)
    simp only [List.length_map] at h
    rw [h, List.countP_eq_length_filter]
  · intro n hn
    have h := broadcastCopies_fields _ _ _ _ _ _ 0 n hn
    exact ⟨h.2.2.2.1, h.1, h.2.1, h.2.2.1⟩
  · intro u _ _ hother n hn heq
    have hmem : n.recipient ∈ (broadcastCopies type title message (some true) now 0
        (s.users.filter (fun u => u.role == "user"))).map (fun n => n.recipient) :=
      List.mem_map_of_mem _ hn
    rw [broadcastCopies_recipients] at hmem
    obtain ⟨v, hv, hvn⟩ := List.mem_map.mp hmem
    have hv2 := List.mem_filter.mp hv
    exact hother v hv2.1 (by simpa using hv2.2) (by rw [hvn, heq])

/-! ## Properties: account requests -/

theorem find?_username_isSome (users : List User) (name : String)
    (h : ∃ u ∈ users, u.username = name) :
    ∃ v, users.find? (fun u => u.username == name) = some v := by
  obtain ⟨u, hu, hname⟩ := h
  cases hfind : users.find? (fun u => u.username == name) with
  | some v => exact ⟨v, rfl⟩
  | none =>
    have := List.find?_eq_none.mp hfind u hu
    simp [hname] at this

theorem find?_username_none (users : List User) (name : String)
    (h : ∀ u ∈ users, u.username ≠ name) :
    users.find? (fun u => u.username == name) = none := by
  apply List.find?_eq_none.mpr
  intro u hu
  simpa using h u hu

/-- Claim C6. When the username of the request found for the given id already belongs to a user
record, `approveRequest` changes nothing: users, requests, notifications (the whole state) stay
as they were, so no duplicate user is created. -/
theorem approveRequest_existing_username (s : State) (requestId : Nat) (confirmed : Bool)
    (acceptedAt logTime : String) (request : AccountRequest)
    (hreq : s.accountRequests.find? (fun r => r.id == requestId) = some request)
    (huser : ∃ u ∈ s.users, u.username = request.username) :
    approveRequest s requestId confirmed acceptedAt logTime = s := by
  obtain ⟨v, hv⟩ := find?_username_isSome s.users request.username huser
  unfold approveRequest
  split
  · rfl
  · simp only [hreq, hv]

/-- Claim C7. A submission whose username equals that of an existing user record is rejected
without any write: the stored state (requests, users, notifications) is unchanged and no
notification call is started. -/
theorem submitAccountRequest_existing_username (s : State)
    (username password robloxName reason : String) (nowMs : Nat) (now : String)
    (huser : ∃ u ∈ s.users, u.username = username) :
    submitAccountRequest s username password robloxName reason nowMs now = ⟨s, []⟩ := by
  obtain ⟨v, hv⟩ := find?_username_isSome s.users username huser
  unfold submitAccountRequest
  split
  · rfl
  · split
    · rfl
    · split
      · rfl
      · simp only [hv]

theorem logs_never_exceed_100_witness :
    emptyState.logs = [] ∧
      (runLogOps emptyState [LogOp.addLog "login" "m" "t", LogOp.clearLogs false]).logs.length
        ≤ 100 :=
  ⟨rfl, logs_never_exceed_100 emptyState _ rfl⟩

theorem addLog_at_capacity_witness :
    fullLogState.logs.length = 100 ∧
      (addLog fullLogState "game" "m" "t").logs.length = 100 :=
  ⟨by simp [fullLogState], (addLog_at_capacity fullLogState "game" "m" "t"
    (by simp [fullLogState])).2.1⟩

theorem approveRequest_existing_username_witness :
    approveRequest collisionState 7 true "t1" "t2" = collisionState :=
  approveRequest_existing_username collisionState 7 true "t1" "t2"
    (sampleRequest 7 "ana" "pending") (by decide) ⟨sampleUser "ana", by decide, by decide⟩

theorem submitAccountRequest_existing_username_witness :
    submitAccountRequest sampleState "ana" "1234" "ana_rbx" "beta" 1 "t"
      = ⟨sampleState, []⟩ :=
  submitAccountRequest_existing_username sampleState "ana" "1234" "ana_rbx" "beta" 1 "t"
    ⟨sampleUser "ana", by decide, by decide⟩

theorem markAccepted_of_find? (requestId : Nat) (acceptedAt : String) :
    ∀ (l : List AccountRequest) (r : AccountRequest),
      l.find? (fun x => x.id == requestId) = some r →
      ∃ pre post, l = pre ++ r :: post ∧ (∀ x ∈ pre, x.id ≠ requestId) ∧ r.id = requestId
        ∧ markAccepted requestId acceptedAt l
          = pre ++ { r with status := "accepted", acceptedAt := some acceptedAt } :: post := by
  intro l
  induction l with
  | nil => intro r h; simp at h
  | cons x l ih =>
    intro r h
    by_cases hx : x.id = requestId
    · rw [List.find?_cons_of_pos _ (by simpa using hx)] at h
      have hxr : x = r := by simpa using h
      subst hxr
      exact ⟨[], l, rfl, by simp, hx, by simp [markAccepted, hx]⟩
    · have h2 : l.find? (fun x => x.id == requestId) = some r := by
        rw [List.find?_cons_of_neg _ (by simpa using hx)] at h
        exact h
      obtain ⟨pre, post, hl, hpre, hid, hm⟩ := ih r h2
      refine ⟨x :: pre, post, by simp [hl], ?_, hid, ?_⟩
      · intro y hy
        rcases List.mem_cons.mp hy with rfl | hy
        · exact hx
        · exact hpre y hy
      · simp [markAccepted, hx, hm]

theorem addLog_users (s : State) (type message now : String) :
    (addLog s type message now).users = s.users := rfl

theorem addLog_notifications (s : State) (type message now : String) :
    (addLog s type message now).notifications = s.notifications := rfl

theorem addLog_accountRequests (s : State) (type message now : String) :
    (addLog s type message now).accountRequests = s.accountRequests := rfl

theorem approveRequest_success (s : State) (requestId : Nat) (acceptedAt logTime : String)
    (request : AccountRequest)
    (hreq : s.accountRequests.find? (fun r => r.id == requestId) = some request)
    (hfree : ∀ u ∈ s.users, u.username ≠ request.username) :
    approveRequest s requestId true acceptedAt logTime =
      addLog
        { addGlobalNotificationsToNewUser
            { s with users := s.users ++
                [{ username := request.username, password := request.password,
                   plainPassword := orElseText request.plainPassword "****", role := "user",
                   robloxName := request.robloxName, discord := none, isMainAdmin := none }] }
            request.username with
          accountRequests := markAccepted requestId acceptedAt s.accountRequests }
        "account" ("Solicitud de cuenta aprobada: " ++ request.username) logTime := by
  have hnone := find?_username_none s.users request.username hfree
  simp [approveRequest, hreq, hnone]

/-- Claim C5, refuted as stated. Two stored requests carry the id 5; the second is pending and
its username (bob) is not among the users, yet `approveRequest` looks up the first one, finds
its username taken and changes nothing. -/
theorem approveRequest_same_id_counterexample :
    (∃ r ∈ sameIdState.accountRequests, r.id = 5 ∧ r.status = "pending"
        ∧ ∀ u ∈ sameIdState.users, u.username ≠ r.username)
      ∧ approveRequest sameIdState 5 true "t1" "t2" = sameIdState
      ∧ (approveRequest sameIdState 5 true "t1" "t2").users.length
          ≠ sameIdState.users.length + 1 := by
  decide

/-- Claim C5, amended. When the first stored request with id k is pending and its username is
not among the users, a confirmed `approveRequest` appends exactly one user record, with role
user and the username and stored password hash of the request, and turns that request, in
place, into an accepted one with the acceptance time set; the number of pending requests drops
by one and every other request is unchanged. -/
theorem approveRequest_first_pending (s : State) (requestId : Nat)
    (acceptedAt logTime : String) (request : AccountRequest)
    (hreq : s.accountRequests.find? (fun r => r.id == requestId) = some request)
    (hpending : request.status = "pending")
    (hfree : ∀ u ∈ s.users, u.username ≠ request.username) :
    (∃ added : User,
        (approveRequest s requestId true acceptedAt logTime).users = s.users ++ [added]
          ∧ added.role = "user" ∧ added.username = request.username
          ∧ added.password = request.password)
      ∧ (approveRequest s requestId true acceptedAt logTime).users.length
          = s.users.length + 1
      ∧ (∃ pre post, s.accountRequests = pre ++ request :: post
          ∧ (∀ x ∈ pre, x.id ≠ requestId)
          ∧ (approveRequest s requestId true acceptedAt logTime).accountRequests
            = pre ++ { request with status := "accepted", acceptedAt := some acceptedAt }
                :: post)
      ∧ (approveRequest s requestId true acceptedAt logTime).accountRequests.countP
            (fun r => r.status == "pending") + 1
          = s.accountRequests.countP (fun r => r.status == "pending") := by
  rw [approveRequest_success s requestId acceptedAt logTime request hreq hfree]
  obtain ⟨pre, post, hl, hpre, _, hm⟩ :=
    markAccepted_of_find? requestId acceptedAt s.accountRequests request hreq
  refine ⟨⟨_, rfl, rfl, rfl, rfl⟩, ?_, ⟨pre, post, hl, hpre, ?_⟩, ?_⟩
  · simp [addLog_users, addGlobalNotificationsToNewUser]
  · rw [addLog_accountRequests, hm]
  · rw [addLog_accountRequests]
    show (markAccepted requestId acceptedAt s.accountRequests).countP _ + 1 = _
    rw [hm, hl]
    simp [List.countP_append, List.countP_cons, hpending]
    omega

theorem approveRequest_first_pending_witness :
    (approveRequest sampleState 7 true "t1" "t2").users.length = sampleState.users.length + 1 :=
  (approveRequest_first_pending sampleState 7 "t1" "t2" (sampleRequest 7 "bob" "pending")
    (by decide) (by decide) (by decide)).2.1

/-! ## Properties: hashPassword depends on its argument only -/

theorem toInt32_range (x : Int) : -2147483648 ≤ toInt32 x ∧ toInt32 x < 2147483648 := by
  unfold toInt32
  omega

theorem shl32_range (x : Int) (k : Nat) : -2147483648 ≤ shl32 x k ∧ shl32 x k < 2147483648 :=
  toInt32_range _

theorem codes_as_integers (l : List Nat) :
    (do let a ← l; pure (a : Int) : List Int) = l.map (fun (a : Nat) => (a : Int)) := by
  induction l with
  | nil => rfl
  | cons c l ih =>
    rw [List.map_cons, ← ih]
    rfl

theorem firstLoop_range (l : List Int) :
    ∀ h : Int, (-2147483648 ≤ h ∧ h < 2147483648) →
      -2147483648 ≤ l.foldl (fun h c => toInt32 (shl32 h 5 - h + c)) h
        ∧ l.foldl (fun h c => toInt32 (shl32 h 5 - h + c)) h < 2147483648 := by
  induction l with
  | nil => intro h hh; exact hh
  | cons c l ih =>
    intro h _
    rw [List.foldl_cons]
    exact ih _ (toInt32_range _)

theorem firstPass_range (password : String) :
    -2147483648 ≤ firstPass password ∧ firstPass password < 2147483648 :=
  firstLoop_range _ 0 (by omega)

theorem secondLoop_bound (l : List Int) (hl : ∀ c ∈ l, 0 ≤ c ∧ c ≤ 122) :
    ∀ (h : Int) (b : Int), (-b ≤ h ∧ h ≤ b) →
      -(b + l.length * 2147483770) ≤ l.foldl (fun h c => shl32 h 3 - h + c) h
        ∧ l.foldl (fun h c => shl32 h 3 - h + c) h ≤ b + l.length * 2147483770 := by
  induction l with
  | nil =>
    intro h b hb
    simp only [List.foldl_nil, List.length_nil, Nat.cast_zero, zero_mul, add_zero]
    exact hb
  | cons c l ih =>
    intro h b hb
    have hc := hl c (List.mem_cons_self _ _)
    have hs := shl32_range h 3
    have hstep := ih (fun x hx => hl x (List.mem_cons_of_mem _ hx))
      (shl32 h 3 - h + c) (b + 2147483770) (by omega)
    rw [List.foldl_cons]
    simp only [List.length_cons, Nat.cast_add, Nat.cast_one]
    constructor
    · have := hstep.1
      linarith
    · have := hstep.2
      linarith

theorem toBase36Aux_eq (n : Nat) :
    ∀ (fuel : Nat) (acc : List Char), n < fuel →
      toBase36Aux fuel n acc = toString36 n ++ acc := by
  induction n using Nat.strong_induction_on with
  | _ n ih =>
    intro fuel acc hfuel
    obtain ⟨f, rfl⟩ : ∃ f, fuel = f + 1 := ⟨fuel - 1, by omega⟩
    by_cases hn : n < 36
    · simp [toString36, toBase36Aux, hn]
    · have h1 := ih (n / 36) (by omega) f (digit36 (n % 36) :: acc) (by omega)
      have h2 := ih (n / 36) (by omega) n [digit36 (n % 36)] (by omega)
      simp only [toString36, toBase36Aux, hn, if_false]
      rw [h1, h2]
      simp

theorem toString36_small (n : Nat) (h : n < 36) : toString36 n = [digit36 n] := by
  simp [toString36, toBase36Aux, h]

theorem toString36_large (n : Nat) (h : 36 ≤ n) :
    toString36 n = toString36 (n / 36) ++ [digit36 (n % 36)] := by
  have hn : ¬ n < 36 := by omega
  have h2 := toBase36Aux_eq (n / 36) n [digit36 (n % 36)] (by omega)
  simp only [toString36, toBase36Aux, hn, if_false]
  exact h2

theorem digit36_code (d : Nat) (h : d < 36) :
    (digit36 d).toNat ≤ 122 ∧ charCodes [digit36 d] = [(digit36 d).toNat] := by
  interval_cases d <;> exact ⟨by decide, by decide⟩

theorem charCodes_append (a b : List Char) : charCodes (a ++ b) = charCodes a ++ charCodes b := by
  induction a with
  | nil => rfl
  | cons c a ih =>
    rw [List.cons_append]
    by_cases hc : c.toNat < 65536
    · rw [charCodes, charCodes, if_pos hc, if_pos hc, ih]
      rfl
    · rw [charCodes, charCodes, if_neg hc, if_neg hc, ih]
      rfl

/-- The text of `toString(36)`: at most `k + 1` digits below `36 ^ (k + 1)`, each a code unit of
at most 122 (the letter z). -/
theorem toString36_codes (k : Nat) :
    ∀ n : Nat, n < 36 ^ (k + 1) →
      (charCodes (toString36 n)).length ≤ k + 1 ∧ ∀ c ∈ charCodes (toString36 n), c ≤ 122 := by
  induction k with
  | zero =>
    intro n hn
    have hn36 : n < 36 := by simpa using hn
    rw [toString36_small n hn36, (digit36_code n hn36).2]
    exact ⟨by simp, by
      intro c hc
      rw [List.mem_singleton] at hc
      rw [hc]
      exact (digit36_code n hn36).1⟩
  | succ k ih =>
    intro n hn
    by_cases hn36 : n < 36
    · rw [toString36_small n hn36, (digit36_code n hn36).2]
      exact ⟨by simp, by
        intro c hc
        rw [List.mem_singleton] at hc
        rw [hc]
        exact (digit36_code n hn36).1⟩
    · have hdiv : n / 36 < 36 ^ (k + 1) := by
        rw [Nat.div_lt_iff_lt_mul (by omega)]
        rw [pow_succ] at hn
        exact hn
      obtain ⟨hlen, hcodes⟩ := ih (n / 36) hdiv
      have hd := digit36_code (n % 36) (Nat.mod_lt _ (by omega))
      rw [toString36_large n (by omega), charCodes_append, hd.2]
      refine ⟨by simp only [List.length_append, List.length_singleton]; omega, ?_⟩
      intro c hc
      rcases List.mem_append.mp hc with h | h
      · exact hcodes c h
      · rw [List.mem_singleton] at h
        rw [h]
        exact hd.1

/-- Claim C11. The result of `hashPassword` is a function of the password alone: called in any
two controller states it returns the same text and leaves the state as it was.  The arithmetic
behind it is exact: the first loop stays within 32 bits and every value of the second loop stays
below 2^53, so no rounding of a double can make two evaluations differ. -/
theorem hashPassword_deterministic (s1 s2 : State) (password : String) :
    (hashPasswordCall s1 password).1 = (hashPasswordCall s2 password).1
      ∧ (hashPasswordCall s1 password).2 = s1
      ∧ (hashPasswordCall s1 password).1
          = String.mk (toString36 (secondPassAt password
              (charCodes (toString36 (firstPass password).natAbs)).length).natAbs)
      ∧ (-2147483648 ≤ firstPass password ∧ firstPass password < 2147483648)
      ∧ ∀ k, -9007199254740992 < secondPassAt password k
          ∧ secondPassAt password k < 9007199254740992 := by
  refine ⟨rfl, rfl, ?_, firstPass_range password, ?_⟩
  · simp only [hashPasswordCall, hashPassword, secondPassAt, firstPass, List.take_length]
  · intro k
    have hfirst := firstPass_range password
    have hnat : (firstPass password).natAbs < 36 ^ (6 + 1) := by
      have : (firstPass password).natAbs ≤ 2147483648 := by omega
      have h36 : (36 : Nat) ^ (6 + 1) = 78364164096 := by norm_num
      omega
    obtain ⟨hlen, hcodes⟩ := toString36_codes 6 _ hnat
    have htake : ∀ c ∈ ((charCodes (toString36 (firstPass password).natAbs)).take k).map
        (fun (a : Nat) => (a : Int)), 0 ≤ c ∧ c ≤ 122 := by
      intro c hc
      obtain ⟨a, ha, rfl⟩ := List.mem_map.mp hc
      have := hcodes a (List.mem_of_mem_take ha)
      omega
    have hlen2 : (((charCodes (toString36 (firstPass password).natAbs)).take k).map
        (fun (a : Nat) => (a : Int))).length ≤ 7 := by
      rw [List.length_map, List.length_take]
      omega
    have hbound := secondLoop_bound _ htake (firstPass password) 2147483648 (by omega)
    have hcast : ((((charCodes (toString36 (firstPass password).natAbs)).take k).map
        (fun (a : Nat) => (a : Int))).length : Int) ≤ 7 := by exact_mod_cast hlen2
    unfold secondPassAt
    rw [codes_as_integers]
    constructor
    · have := hbound.1
      linarith
    · have := hbound.2
      linarith

/-! ## Properties: password rules of the handlers -/

theorem isFourDigits_iff (password : String) :
    isFourDigits password = true ↔
      password.data.length = 4 ∧ ∀ c ∈ password.data, '0' ≤ c ∧ c ≤ '9' := by
  simp [isFourDigits]

theorem isFourToSixDigits_iff (password : String) :
    isFourToSixDigits password = true ↔
      (4 ≤ password.data.length ∧ password.data.length ≤ 6)
        ∧ ∀ c ∈ password.data, '0' ≤ c ∧ c ≤ '9' := by
  simp [isFourToSixDigits]

theorem passwordAllowed_iff (isMainAdmin : Bool) (password : String) :
    passwordAllowed isMainAdmin password = true ↔
      (∀ c ∈ password.data, '0' ≤ c ∧ c ≤ '9')
        ∧ (password.data.length = 4
          ∨ (isMainAdmin = true ∧ 4 ≤ password.data.length ∧ password.data.length ≤ 6)) := by
  unfold passwordAllowed
  cases isMainAdmin with
  | true =>
    simp only [if_true, isFourToSixDigits_iff, true_and]
    constructor
    · rintro ⟨hlen, hd⟩
      exact ⟨hd, Or.inr hlen⟩
    · rintro ⟨hd, h | h⟩
      · exact ⟨by omega, hd⟩
      · exact ⟨h, hd⟩
  | false =>
    simp only [Bool.false_eq_true, if_false, isFourDigits_iff, false_and, or_false]
    exact And.comm

theorem updateFirst_of_find? {α : Type} (p : α → Bool) (f : α → α) :
    ∀ (l : List α) (x : α), l.find? p = some x →
      ∃ pre post, l = pre ++ x :: post ∧ (∀ y ∈ pre, p y = false)
        ∧ updateFirst p f l = pre ++ f x :: post := by
  intro l
  induction l with
  | nil => intro x h; simp at h
  | cons a l ih =>
    intro x h
    by_cases ha : p a = true
    · rw [List.find?_cons_of_pos _ ha] at h
      have hax : a = x := by simpa using h
      subst hax
      exact ⟨[], l, rfl, by simp, by simp [updateFirst, ha]⟩
    · rw [List.find?_cons_of_neg _ ha] at h
      obtain ⟨pre, post, hl, hpre, hu⟩ := ih x h
      refine ⟨a :: pre, post, by simp [hl], ?_, by simp [updateFirst, ha, hu]⟩
      intro y hy
      rcases List.mem_cons.mp hy with rfl | hy
      · simpa using ha
      · exact hpre y hy

theorem setTempPassword_users (s : State) (username password : String) (nowMs : Nat) :
    (setTempPassword s username password nowMs).users = s.users := rfl

/-- Claim C12. A submission whose password is not exactly four characters 0-9 stores nothing
(the request collection, and indeed the state, is unchanged).  With requests enabled, all four
fields filled in, a 4-digit password and a username that is neither a user nor a pending
request, exactly one request is appended: pending, with the submitted username, and with
`hashPassword(password)` as its password field. -/
theorem submitAccountRequest_password_rule (s : State)
    (username password robloxName reason : String) (nowMs : Nat) (now : String) :
    (¬ (password.data.length = 4 ∧ ∀ c ∈ password.data, '0' ≤ c ∧ c ≤ '9') →
        submitAccountRequest s username password robloxName reason nowMs now = ⟨s, []⟩)
      ∧ (s.accountRequestsEnabled = true →
          username ≠ "" → password ≠ "" → robloxName ≠ "" → reason ≠ "" →
          (password.data.length = 4 ∧ ∀ c ∈ password.data, '0' ≤ c ∧ c ≤ '9') →
          (∀ u ∈ s.users, u.username ≠ username) →
          (∀ r ∈ s.accountRequests, ¬ (r.username = username ∧ r.status = "pending")) →
          ∃ added : AccountRequest,
            (submitAccountRequest s username password robloxName reason nowMs
                now).state.accountRequests = s.accountRequests ++ [added]
              ∧ added.status = "pending" ∧ added.username = username
              ∧ added.password = hashPassword password
              ∧ (submitAccountRequest s username password robloxName reason nowMs
                  now).state.users = s.users) := by
  constructor
  · intro hbad
    have hfour : isFourDigits password = false := by
      rw [← Bool.not_eq_true, isFourDigits_iff]
      exact hbad
    unfold submitAccountRequest
    split
    · rfl
    · split
      · rfl
      · simp [hfour]
  · intro hen hu hp hr hre hfour hfree hpending
    have hfour2 : isFourDigits password = true := (isFourDigits_iff password).mpr hfour
    have hnone := find?_username_none s.users username hfree
    have hnoreq : s.accountRequests.find?
        (fun r => r.username == username && r.status == "pending") = none := by
      apply List.find?_eq_none.mpr
      intro r hr2
      simpa using hpending r hr2
    let added : AccountRequest :=
      { id := nowMs, username := username, password := hashPassword password,
        plainPassword := some password, robloxName := robloxName, reason := reason,
        status := "pending", timestamp := now, acceptedAt := none }
    refine ⟨added, ?_, rfl, rfl, rfl, ?_⟩
    · simp [submitAccountRequest, hen, hu, hp, hr, hre, hfour2, hnone, hnoreq]
    · simp [submitAccountRequest, hen, hu, hp, hr, hre, hfour2, hnone, hnoreq]

theorem submitAccountRequest_password_rule_witness :
    ∃ added : AccountRequest,
      (submitAccountRequest sampleState "carl" "1234" "carl_rbx" "beta" 9
          "t").state.accountRequests = sampleState.accountRequests ++ [added]
        ∧ added.status = "pending" ∧ added.username = "carl"
        ∧ added.password = hashPassword "1234"
        ∧ (submitAccountRequest sampleState "carl" "1234" "carl_rbx" "beta" 9
            "t").state.users = sampleState.users :=
  (submitAccountRequest_password_rule sampleState "carl" "1234" "carl_rbx" "beta" 9 "t").2
    (by decide) (by decide) (by decide) (by decide) (by decide) (by decide) (by decide)
    (by decide)

/-- The format test as the two handlers apply it.  It accepts a password exactly when it is
made of decimal digits and has length 4, or length 4 to 6 when the flag it is given is set; the
flag is the one of the session object `this.currentUser` in `changePassword`, and the one of
the stored record of the edited account in `saveEdit`.  A non-empty password that fails the
test leaves the state unchanged; one that passes it, with the other checks of the handler
passed, is stored as `hashPassword(newPassword)` in the first record with the username. -/
theorem password_change_rule :
    (∀ (flag : Bool) (password : String),
        passwordAllowed flag password = true ↔
          (∀ c ∈ password.data, '0' ≤ c ∧ c ≤ '9')
            ∧ (password.data.length = 4
              ∨ (flag = true ∧ 4 ≤ password.data.length ∧ password.data.length ≤ 6)))
      ∧ (∀ (s : State) (currentPassword newPassword confirmPassword : String) (nowMs : Nat)
          (current : User), s.currentUser = some current →
          passwordAllowed (current.isMainAdmin == some true) newPassword = false →
          changePassword s currentPassword newPassword confirmPassword nowMs = s)
      ∧ (∀ (s : State) (currentPassword newPassword : String) (nowMs : Nat)
          (current user : User), s.currentUser = some current →
          currentPassword ≠ "" → newPassword ≠ "" →
          passwordAllowed (current.isMainAdmin == some true) newPassword = true →
          s.users.find? (fun u => u.username == current.username) = some user →
          user.password = hashPassword currentPassword →
          ∃ pre post, s.users = pre ++ user :: post
            ∧ (changePassword s currentPassword newPassword newPassword nowMs).users
              = pre ++ { user with password := hashPassword newPassword,
                                   plainPassword := newPassword } :: post)
      ∧ (∀ (s : State) (newPassword newRobloxName newRole : String) (nowMs : Nat)
          (user : User), newPassword ≠ "" →
          s.users.find? (fun u => some u.username == s.currentEditingUser) = some user →
          passwordAllowed (user.isMainAdmin == some true) newPassword = false →
          saveEdit s newPassword newRobloxName newRole nowMs = s)
      ∧ (∀ (s : State) (newPassword newRobloxName newRole : String) (nowMs : Nat)
          (user : User), newPassword ≠ "" → blockedForOthers s = false →
          s.users.find? (fun u => some u.username == s.currentEditingUser) = some user →
          passwordAllowed (user.isMainAdmin == some true) newPassword = true →
          ∃ pre post, s.users = pre ++ user :: post
            ∧ (saveEdit s newPassword newRobloxName newRole nowMs).users
              = pre ++ { user with password := hashPassword newPassword,
                                   plainPassword := newPassword, robloxName := newRobloxName,
                                   role := newRole } :: post) := by
  refine ⟨passwordAllowed_iff, ?_, ?_, ?_, ?_⟩
  · intro s currentPassword newPassword confirmPassword nowMs current hcur hbad
    unfold changePassword
    split
    · rfl
    · simp [hcur, hbad]
  · intro s currentPassword newPassword nowMs current user hcur hc hn hok hfind hpw
    obtain ⟨pre, post, hl, _, hu⟩ := updateFirst_of_find?
      (fun u => u.username == current.username)
      (fun u => { u with password := hashPassword newPassword, plainPassword := newPassword })
      s.users user hfind
    refine ⟨pre, post, hl, ?_⟩
    rw [← hu]
    simp [changePassword, hc, hn, hcur, hok, hfind, hpw, setTempPassword]
  · intro s newPassword newRobloxName newRole nowMs user hn hfind hbad
    unfold saveEdit
    split
    · rfl
    · simp [hfind, hbad, hn]
  · intro s newPassword newRobloxName newRole nowMs user hn hblocked hfind hok
    obtain ⟨pre, post, hl, _, hu⟩ := updateFirst_of_find?
      (fun u => some u.username == s.currentEditingUser)
      (fun u =>
        if newPassword ≠ "" then
          { u with password := hashPassword newPassword, plainPassword := newPassword,
                   robloxName := newRobloxName, role := newRole }
        else { u with robloxName := newRobloxName, role := newRole })
      s.users user hfind
    refine ⟨pre, post, hl, ?_⟩
    simp only [hn, ne_eq, not_false_eq_true, if_true] at hu
    rw [← hu]
    simp [saveEdit, hblocked, hfind, hok, hn]

theorem password_change_rule_witness :
    passwordAllowed true "123456" = true
      ∧ saveEdit otherAdminState "1234567" "root_rbx" "admin" 0 = otherAdminState :=
  ⟨(password_change_rule.1 true "123456").mpr (by decide),
    password_change_rule.2.2.2.1 otherAdminState "1234567" "root_rbx" "admin" 0 sampleAdmin
      (by decide) (by decide) (by decide)⟩

/-! ## Properties: deleting accounts -/

/-- The guard that `deleteAccount` does have: the account named `ducky_y2` cannot be deleted by
a current user with another name. -/
theorem deleteAccount_guard_by_name (s : State) (confirmed : Bool) (current : User)
    (hedit : s.currentEditingUser = some "ducky_y2") (hcur : s.currentUser = some current)
    (hother : current.username ≠ "ducky_y2") : deleteAccount s confirmed = s := by
  have hblocked : blockedForOthers s = true := by
    simp [blockedForOthers, hedit, hcur, hother]
  simp [deleteAccount, hblocked]

/-- Claim C14, failing on the code. The primary admin (root, flagged `isMainAdmin`) is selected for
deletion by another administrator (eva); after the confirmation the record of root is gone. -/
theorem deleteAccount_primary_admin_deleted :
    (∃ u ∈ otherAdminState.users, u.username = "root" ∧ u.isMainAdmin = some true)
      ∧ otherAdminState.currentEditingUser = some "root"
      ∧ otherAdminState.currentUser.map (fun u => u.username) = some "eva"
      ∧ (deleteAccount otherAdminState true).users.map (fun u => u.username) = ["eva"]
      ∧ (deleteAccount otherAdminState true).users ≠ otherAdminState.users := by
  decide

/-! ## Properties: usernames stay distinct -/

theorem createAccount_users (s : State) (username robloxName role password : String)
    (nowMs : Nat) :
    (createAccount s username robloxName role password nowMs).users = s.users
      ∨ ((∀ u ∈ s.users, u.username ≠ username)
        ∧ ∃ added : User, added.username = username
          ∧ (createAccount s username robloxName role password nowMs).users
            = s.users ++ [added]) := by
  unfold createAccount
  split
  · exact Or.inl rfl
  · split
    · exact Or.inl rfl
    · rename_i hnone
      right
      let added : User :=
        { username := username, password := hashPassword password, plainPassword := password,
          role := role, robloxName := robloxName, discord := none, isMainAdmin := none }
      refine ⟨?_, added, rfl, ?_⟩
      · intro u hu
        have := List.find?_eq_none.mp hnone u hu
        simpa using this
      · split <;> rfl

theorem approveRequest_users (s : State) (requestId : Nat) (confirmed : Bool)
    (acceptedAt logTime : String) :
    (approveRequest s requestId confirmed acceptedAt logTime).users = s.users
      ∨ ∃ added : User, (∀ u ∈ s.users, u.username ≠ added.username)
          ∧ (approveRequest s requestId confirmed acceptedAt logTime).users
            = s.users ++ [added] := by
  unfold approveRequest
  split
  · exact Or.inl rfl
  · split
    · exact Or.inl rfl
    · split
      · exact Or.inl rfl
      · rename_i request _ hnone
        right
        refine ⟨_, ?_, rfl⟩
        intro u hu
        have := List.find?_eq_none.mp hnone u hu
        simpa using this

theorem nodup_append_fresh (users : List User) (added : User)
    (hnodup : (users.map (fun u => u.username)).Nodup)
    (hfresh : ∀ u ∈ users, u.username ≠ added.username) :
    ((users ++ [added]).map (fun u => u.username)).Nodup := by
  rw [List.map_append, List.nodup_append]
  refine ⟨hnodup, by simp, ?_⟩
  intro a ha hb
  simp only [List.map_cons, List.map_nil, List.mem_singleton] at hb
  obtain ⟨u, hu, hname⟩ := List.mem_map.mp ha
  exact hfresh u hu (by rw [hname, hb])

/-- Claim C20. If the usernames of the users collection are pairwise distinct, they still are
after `createAccount` and after `approveRequest`, whatever the input; and when the username to
insert already belongs to a user, either handler leaves the users collection as it was. -/
theorem usernames_stay_distinct (s : State)
    (hnodup : (s.users.map (fun u => u.username)).Nodup) :
    (∀ (username robloxName role password : String) (nowMs : Nat),
        ((createAccount s username robloxName role password nowMs).users.map
            (fun u => u.username)).Nodup
          ∧ ((∃ u ∈ s.users, u.username = username) →
            (createAccount s username robloxName role password nowMs).users = s.users))
      ∧ (∀ (requestId : Nat) (confirmed : Bool) (acceptedAt logTime : String),
        ((approveRequest s requestId confirmed acceptedAt logTime).users.map
            (fun u => u.username)).Nodup
          ∧ (∀ request, s.accountRequests.find? (fun r => r.id == requestId) = some request →
            (∃ u ∈ s.users, u.username = request.username) →
            (approveRequest s requestId confirmed acceptedAt logTime).users = s.users)) := by
  constructor
  · intro username robloxName role password nowMs
    constructor
    · rcases createAccount_users s username robloxName role password nowMs with h | ⟨hfresh, a, ha, h⟩
      · rw [h]; exact hnodup
      · rw [h]
        exact nodup_append_fresh s.users a hnodup (by rw [ha]; exact hfresh)
    · intro hex
      rcases createAccount_users s username robloxName role password nowMs with h | ⟨hfresh, _⟩
      · exact h
      · obtain ⟨u, hu, hname⟩ := hex
        exact absurd hname (hfresh u hu)
  · intro requestId confirmed acceptedAt logTime
    constructor
    · rcases approveRequest_users s requestId confirmed acceptedAt logTime with h | ⟨a, hfresh, h⟩
      · rw [h]; exact hnodup
      · rw [h]
        exact nodup_append_fresh s.users a hnodup hfresh
    · intro request hreq hex
      obtain ⟨v, hv⟩ := find?_username_isSome s.users request.username hex
      unfold approveRequest
      split
      · rfl
      · simp only [hreq, hv]

theorem usernames_stay_distinct_witness :
    ((createAccount sampleState "bob" "bob_rbx" "user" "1234" 1).users.map
        (fun u => u.username)).Nodup
      ∧ (createAccount sampleState "ana" "x" "user" "1234" 1).users = sampleState.users :=
  ⟨((usernames_stay_distinct sampleState (by decide)).1 "bob" "bob_rbx" "user" "1234" 1).1,
    ((usernames_stay_distinct sampleState (by decide)).1 "ana" "x" "user" "1234" 1).2
      ⟨sampleUser "ana", by decide, by decide⟩⟩

/-! ## Properties: temporary passwords -/

theorem getItem_setItem_same (st : Storage) (key value : String) :
    (st.setItem key value).getItem key = some value := by
  induction st with
  | nil => simp [Storage.setItem, Storage.getItem]
  | cons kv st ih =>
    by_cases h : kv.1 = key
    · simp [Storage.setItem, Storage.getItem, h]
    · have ih2 : Option.map (fun kv => kv.2)
          (List.find? (fun kv => kv.1 == key) (Storage.setItem st key value)) = some value := ih
      simp [Storage.setItem, Storage.getItem, h, List.find?_cons, ih2]

theorem find?_key_pos (kv : String × String) (l : List (String × String)) (key : String)
    (h : (kv.1 == key) = true) :
    List.find? (fun kv : String × String => kv.1 == key) (kv :: l) = some kv :=
  List.find?_cons_of_pos l h

theorem find?_key_neg (kv : String × String) (l : List (String × String)) (key : String)
    (h : ¬ (kv.1 == key) = true) :
    List.find? (fun kv : String × String => kv.1 == key) (kv :: l)
      = List.find? (fun kv : String × String => kv.1 == key) l :=
  List.find?_cons_of_neg l h

theorem getItem_setItem_other (st : Storage) (key other value : String) (h : other ≠ key) :
    (st.setItem key value).getItem other = st.getItem other := by
  have h2 : (key == other) = false := by
    simp only [beq_eq_false_iff_ne, ne_eq]
    exact fun e => h e.symm
  induction st with
  | nil =>
    show Option.map _ (List.find? _ [(key, value)]) = Option.map _ (List.find? _ [])
    rw [find?_key_neg _ _ _ (by simp [h2])]
  | cons kv st ih =>
    have ih2 : Option.map (fun kv => kv.2)
        (List.find? (fun kv => kv.1 == other) (Storage.setItem st key value))
        = Option.map (fun kv => kv.2) (List.find? (fun kv => kv.1 == other) st) := ih
    by_cases hk : (kv.1 == key) = true
    · have h3 : (kv.1 == other) = false := by
        rw [beq_iff_eq] at hk
        rw [hk]
        exact h2
      show Option.map _ (List.find? _ (if (kv.1 == key) = true then (key, value) :: st
        else kv :: Storage.setItem st key value)) = Option.map _ (List.find? _ (kv :: st))
      rw [if_pos hk, find?_key_neg _ _ _ (by simp [h2]),
        find?_key_neg _ _ _ (by simp [h3])]
    · show Option.map _ (List.find? _ (if (kv.1 == key) = true then (key, value) :: st
        else kv :: Storage.setItem st key value)) = Option.map _ (List.find? _ (kv :: st))
      rw [if_neg hk]
      by_cases ho : (kv.1 == other) = true
      · rw [find?_key_pos _ _ _ ho, find?_key_pos _ _ _ ho]
      · rw [find?_key_neg _ _ _ ho, find?_key_neg _ _ _ ho]
        exact ih2

theorem getItem_removeItem_same (st : Storage) (key : String) :
    (st.removeItem key).getItem key = none := by
  simp only [Storage.getItem, Storage.removeItem, Option.map_eq_none']
  apply List.find?_eq_none.mpr
  intro kv hkv
  have := (List.mem_filter.mp hkv).2
  simpa using this

theorem getItem_removeItem_other (st : Storage) (key other : String) (h : other ≠ key) :
    (st.removeItem key).getItem other = st.getItem other := by
  induction st with
  | nil => rfl
  | cons kv st ih =>
    have ih2 : Option.map (fun kv => kv.2)
        (List.find? (fun kv => kv.1 == other) (List.filter (fun kv => kv.1 != key) st))
        = Option.map (fun kv => kv.2) (List.find? (fun kv => kv.1 == other) st) := ih
    show Option.map _ (List.find? _ (List.filter (fun kv => kv.1 != key) (kv :: st)))
      = Option.map _ (List.find? _ (kv :: st))
    by_cases hk : kv.1 = key
    · have ho : ¬ (kv.1 == other) = true := by
        rw [beq_iff_eq, hk]
        exact fun e => h e.symm
      rw [List.filter_cons_of_neg (by simp [hk]), find?_key_neg _ _ _ ho]
      exact ih2
    · rw [List.filter_cons_of_pos (by simp [hk])]
      by_cases ho : (kv.1 == other) = true
      · rw [find?_key_pos _ _ _ ho, find?_key_pos _ _ _ ho]
      · rw [find?_key_neg _ _ _ ho, find?_key_neg _ _ _ ho]
        exact ih2

theorem digitChar_code (d : Nat) (h : d < 10) : (Nat.digitChar d).toNat = 48 + d := by
  interval_cases d <;> rfl

theorem toDigitsCore_eq (n : Nat) :
    ∀ (fuel : Nat) (acc : List Char), n < fuel →
      Nat.toDigitsCore 10 fuel n acc = Nat.toDigits 10 n ++ acc := by
  induction n using Nat.strong_induction_on with
  | _ n ih =>
    intro fuel acc hfuel
    obtain ⟨f, rfl⟩ : ∃ f, fuel = f + 1 := ⟨fuel - 1, by omega⟩
    by_cases hn : n / 10 = 0
    · simp [Nat.toDigits, Nat.toDigitsCore, hn]
    · have h1 := ih (n / 10) (by omega) f (Nat.digitChar (n % 10) :: acc) (by omega)
      have h2 := ih (n / 10) (by omega) n [Nat.digitChar (n % 10)] (by omega)
      simp only [Nat.toDigits, Nat.toDigitsCore, hn, if_false]
      rw [h1, h2]
      simp

theorem toDigits_small (n : Nat) (h : n < 10) : Nat.toDigits 10 n = [Nat.digitChar n] := by
  have h0 : n / 10 = 0 := by omega
  have hmod : n % 10 = n := by omega
  simp [Nat.toDigits, Nat.toDigitsCore, h0, hmod]

theorem toDigits_large (n : Nat) (h : 10 ≤ n) :
    Nat.toDigits 10 n = Nat.toDigits 10 (n / 10) ++ [Nat.digitChar (n % 10)] := by
  have hn : ¬ n / 10 = 0 := by omega
  have h2 := toDigitsCore_eq (n / 10) n [Nat.digitChar (n % 10)] (by omega)
  simp only [Nat.toDigits, Nat.toDigitsCore, hn, if_false]
  exact h2

theorem toDigits_codes (n : Nat) : ∀ c ∈ Nat.toDigits 10 n, 48 ≤ c.toNat ∧ c.toNat ≤ 57 := by
  induction n using Nat.strong_induction_on with
  | _ n ih =>
    intro c hc
    by_cases hn : n < 10
    · rw [toDigits_small n hn, List.mem_singleton] at hc
      rw [hc, digitChar_code n hn]
      omega
    · rw [toDigits_large n (by omega)] at hc
      rcases List.mem_append.mp hc with h | h
      · exact ih (n / 10) (by omega) c h
      · rw [List.mem_singleton] at h
        rw [h, digitChar_code _ (Nat.mod_lt _ (by omega))]
        omega

theorem radixDigit_decimal (c : Char) (h : 48 ≤ c.toNat ∧ c.toNat ≤ 57) :
    radixDigit 10 c = some (c.toNat - 48) := by
  unfold radixDigit
  simp only [h, and_self, if_true]
  rw [if_pos (by omega)]

theorem readRadixDigits_append (ds : List Char) (d : Char)
    (hds : ∀ c ∈ ds, 48 ≤ c.toNat ∧ c.toNat ≤ 57) (hd : 48 ≤ d.toNat ∧ d.toNat ≤ 57) :
    ∀ acc, readRadixDigits 10 (ds ++ [d]) acc
      = readRadixDigits 10 ds acc * 10 + (d.toNat - 48) := by
  induction ds with
  | nil =>
    intro acc
    simp [readRadixDigits, radixDigit_decimal d hd]
  | cons c ds ih =>
    intro acc
    have hc := hds c (List.mem_cons_self _ _)
    simp only [List.cons_append, readRadixDigits, radixDigit_decimal c hc]
    exact ih (fun x hx => hds x (List.mem_cons_of_mem _ hx)) _

theorem readRadixDigits_toDigits (n : Nat) : readRadixDigits 10 (Nat.toDigits 10 n) 0 = n := by
  induction n using Nat.strong_induction_on with
  | _ n ih =>
    by_cases hn : n < 10
    · rw [toDigits_small n hn]
      simp only [readRadixDigits, radixDigit_decimal _ (by rw [digitChar_code n hn]; omega),
        digitChar_code n hn]
      omega
    · have hd : 48 ≤ (Nat.digitChar (n % 10)).toNat ∧ (Nat.digitChar (n % 10)).toNat ≤ 57 := by
        rw [digitChar_code _ (Nat.mod_lt _ (by omega))]
        omega
      rw [toDigits_large n (by omega), readRadixDigits_append _ _ (toDigits_codes _) hd,
        ih (n / 10) (by omega), digitChar_code _ (Nat.mod_lt _ (by omega))]
      omega

theorem toDigits_head (n : Nat) :
    ∃ c rest, Nat.toDigits 10 n = c :: rest ∧ 48 ≤ c.toNat ∧ c.toNat ≤ 57 := by
  cases h : Nat.toDigits 10 n with
  | nil =>
    by_cases hn : n < 10
    · rw [toDigits_small n hn] at h
      cases h
    · rw [toDigits_large n (by omega)] at h
      simp at h
  | cons c rest =>
    have := toDigits_codes n c (by rw [h]; exact List.mem_cons_self _ _)
    exact ⟨c, rest, rfl, this⟩

/-- The call `parseInt` reads back the text of `Date.now().toString()`. -/
theorem parseInt_toString (n : Nat) : parseInt (toString n) = some (n : Int) := by
  obtain ⟨c, rest, hc, hcode⟩ := toDigits_head n
  have hvalue := readRadixDigits_toDigits n
  have hdata : (toString n).data = c :: rest := hc
  have hws : isStrWhiteSpace c = false := by
    simp [isStrWhiteSpace]
    omega
  have hminus : c ≠ '-' := by
    intro h
    rw [h] at hcode
    revert hcode
    decide
  have hplus : c ≠ '+' := by
    intro h
    rw [h] at hcode
    revert hcode
    decide
  rw [hc] at hvalue
  unfold parseInt
  rw [hdata, List.dropWhile_cons_of_neg (by simp [hws])]
  cases rest with
  | nil =>
    simp [hminus, hplus, hvalue, radixDigit_decimal c hcode]
  | cons b rest2 =>
    have hb := toDigits_codes n b (by rw [hc]; simp)
    have hx : b ≠ 'x' := by
      intro h
      rw [h] at hb
      revert hb
      decide
    have hX : b ≠ 'X' := by
      intro h
      rw [h] at hb
      revert hb
      decide
    simp [hminus, hplus, hx, hX, hvalue, radixDigit_decimal c hcode]

theorem tempKey_ne_timeKey (username : String) :
    "temp_pwd_" ++ username ++ "_time" ≠ "temp_pwd_" ++ username := by
  intro h
  have hlen := congrArg String.length h
  simp only [String.length_append] at hlen
  have : "_time".length = 5 := by decide
  omega

/-- Claim C19, refuted as stated. For the empty password the entry never expires: 1,800,001 ms
after `setTempPassword` the call returns the (empty) password, not null, and the entry and its
timestamp are still stored. -/
theorem getTempPassword_empty_counterexample :
    (getTempPassword (setTempPassword emptyState "ana" "" 1000) "ana" 1801001).1 = some ""
      ∧ (getTempPassword (setTempPassword emptyState "ana" "" 1000) "ana" 1801001).2
        = setTempPassword emptyState "ana" "" 1000
      ∧ ((setTempPassword emptyState "ana" "" 1000).sessionStorage.map (fun kv => kv.1))
        = ["temp_pwd_ana", "temp_pwd_ana_time"] := by
  decide

/-- Claim C19, amended. For every username and every non-empty password, after
`setTempPassword` at time t the call `getTempPassword` at time t' returns the password and
changes nothing when t' - t is at most 1,800,000 ms; when t' - t exceeds 1,800,000 ms it
returns null and removes the entry and its timestamp, leaving every other key of the session
storage and everything else as it was. -/
theorem getTempPassword_expiry (s : State) (username password : String) (t t' : Nat)
    (hpassword : password ≠ "") :
    ((t' : Int) - t ≤ 1800000 →
        getTempPassword (setTempPassword s username password t) username t'
          = (some password, setTempPassword s username password t))
      ∧ ((t' : Int) - t > 1800000 →
        (getTempPassword (setTempPassword s username password t) username t').1 = none
          ∧ (getTempPassword (setTempPassword s username password t) username
              t').2.sessionStorage.getItem ("temp_pwd_" ++ username) = none
          ∧ (getTempPassword (setTempPassword s username password t) username
              t').2.sessionStorage.getItem ("temp_pwd_" ++ username ++ "_time") = none
          ∧ (∀ key, key ≠ "temp_pwd_" ++ username → key ≠ "temp_pwd_" ++ username ++ "_time" →
              (getTempPassword (setTempPassword s username password t) username
                t').2.sessionStorage.getItem key = s.sessionStorage.getItem key)
          ∧ (getTempPassword (setTempPassword s username password t) username t').2.users
              = s.users) := by
  have hkeys := tempKey_ne_timeKey username
  have hget : (setTempPassword s username password t).sessionStorage.getItem
      ("temp_pwd_" ++ username) = some password := by
    simp only [setTempPassword]
    rw [getItem_setItem_other _ _ _ _ (Ne.symm hkeys), getItem_setItem_same]
  have hgetTime : (setTempPassword s username password t).sessionStorage.getItem
      ("temp_pwd_" ++ username ++ "_time") = some (toString t) := by
    simp only [setTempPassword]
    rw [getItem_setItem_same]
  have hstamp : toString t ≠ "" := by
    obtain ⟨c, rest, hc, _⟩ := toDigits_head t
    intro h
    have hd : (toString t).data = c :: rest := hc
    rw [h] at hd
    cases hd
  constructor
  · intro hle
    have hnot : ¬ ((t' : Int) - t > 1800000) := by omega
    simp only [getTempPassword, hget, hgetTime, hpassword, hstamp, if_false,
      parseInt_toString, hnot]
  · intro hgt
    have hres : getTempPassword (setTempPassword s username password t) username t'
        = (none, { setTempPassword s username password t with
            sessionStorage := ((setTempPassword s username password t).sessionStorage.removeItem
              ("temp_pwd_" ++ username)).removeItem ("temp_pwd_" ++ username ++ "_time") }) := by
      simp only [getTempPassword, hget, hgetTime, hpassword, hstamp, if_false,
        parseInt_toString, hgt, if_true]
    rw [hres]
    refine ⟨rfl, ?_, ?_, ?_, rfl⟩
    · show Storage.getItem _ _ = none
      rw [getItem_removeItem_other _ _ _ (Ne.symm hkeys), getItem_removeItem_same]
    · show Storage.getItem _ _ = none
      rw [getItem_removeItem_same]
    · intro key hk1 hk2
      show Storage.getItem _ _ = _
      rw [getItem_removeItem_other _ _ _ hk2, getItem_removeItem_other _ _ _ hk1]
      simp only [setTempPassword]
      rw [getItem_setItem_other _ _ _ _ hk2, getItem_setItem_other _ _ _ _ hk1]

theorem getTempPassword_expiry_witness :
    getTempPassword (setTempPassword emptyState "ana" "1234" 1000) "ana" 1801000
        = (some "1234", setTempPassword emptyState "ana" "1234" 1000)
      ∧ (getTempPassword (setTempPassword emptyState "ana" "1234" 1000) "ana" 1801001).1
        = none :=
  ⟨(getTempPassword_expiry emptyState "ana" "1234" 1000 1801000 (by decide)).1 (by decide),
    ((getTempPassword_expiry emptyState "ana" "1234" 1000 1801001 (by decide)).2
      (by decide)).1⟩

/-! ## Properties: the persistence layer -/

theorem localFind_pos (kv : String × List Nat) (l : List (String × List Nat)) (key : String)
    (h : (kv.1 == key) = true) :
    List.find? (fun kv : String × List Nat => kv.1 == key) (kv :: l) = some kv :=
  List.find?_cons_of_pos l h

theorem localFind_neg (kv : String × List Nat) (l : List (String × List Nat)) (key : String)
    (h : ¬ (kv.1 == key) = true) :
    List.find? (fun kv : String × List Nat => kv.1 == key) (kv :: l)
      = List.find? (fun kv : String × List Nat => kv.1 == key) l :=
  List.find?_cons_of_neg l h

theorem localGet_set_same (ls : LocalStorage) (key : String) (value : List Nat) :
    (ls.setItem key value).getItem key = some value := by
  induction ls with
  | nil =>
    show Option.map _ (List.find? _ [(key, value)]) = some value
    rw [localFind_pos _ _ _ (by simp)]
    rfl
  | cons kv ls ih =>
    have ih2 : Option.map (fun kv => kv.2)
        (List.find? (fun kv => kv.1 == key) (LocalStorage.setItem ls key value))
        = some value := ih
    show Option.map _ (List.find? _ (if (kv.1 == key) = true then (key, value) :: ls
      else kv :: LocalStorage.setItem ls key value)) = some value
    by_cases hk : (kv.1 == key) = true
    · rw [if_pos hk, localFind_pos _ _ _ (by simp)]
      rfl
    · rw [if_neg hk, localFind_neg _ _ _ hk]
      exact ih2

theorem localGet_set_other (ls : LocalStorage) (key other : String) (value : List Nat)
    (h : other ≠ key) : (ls.setItem key value).getItem other = ls.getItem other := by
  have h2 : (key == other) = false := by
    simp only [beq_eq_false_iff_ne, ne_eq]
    exact fun e => h e.symm
  induction ls with
  | nil =>
    show Option.map _ (List.find? _ [(key, value)]) = Option.map _ (List.find? _ [])
    rw [localFind_neg _ _ _ (by simp [h2])]
  | cons kv ls ih =>
    have ih2 : Option.map (fun kv => kv.2)
        (List.find? (fun kv => kv.1 == other) (LocalStorage.setItem ls key value))
        = Option.map (fun kv => kv.2) (List.find? (fun kv => kv.1 == other) ls) := ih
    show Option.map _ (List.find? _ (if (kv.1 == key) = true then (key, value) :: ls
      else kv :: LocalStorage.setItem ls key value)) = Option.map _ (List.find? _ (kv :: ls))
    by_cases hk : (kv.1 == key) = true
    · have h3 : (kv.1 == other) = false := by
        rw [beq_iff_eq] at hk
        rw [hk]
        exact h2
      rw [if_pos hk, localFind_neg _ _ _ (by simp [h2]), localFind_neg _ _ _ (by simp [h3])]
    · rw [if_neg hk]
      by_cases ho : (kv.1 == other) = true
      · rw [localFind_pos _ _ _ ho, localFind_pos _ _ _ ho]
      · rw [localFind_neg _ _ _ ho, localFind_neg _ _ _ ho]
        exact ih2

theorem mirror_ne_obfuscated (name : String) : name ≠ "bt_" ++ name := by
  intro h
  have hlen := congrArg String.length h
  simp only [String.length_append] at hlen
  have : "bt_".length = 3 := by decide
  omega

theorem encryptData_emptyArray : encryptData (.arr []) = some (codeUnits "VzEwPQ==") := by
  decide

theorem encryptData_defaultGameStatus :
    encryptData defaultGameStatus
      = some (codeUnits "ZXlKaGRtRnBiR0ZpYkdVaU9tWmhiSE5sTENKc2FXNXJJam9pSW4wPQ==") := by
  decide

theorem encryptData_defaultWebsiteShutdown :
    encryptData defaultWebsiteShutdown
      = some (codeUnits "ZXlKcGMxTm9kWFJrYjNkdUlqcG1ZV3h6WlN3aWNtVmhjMjl1SWpvaUluMD0=") := by
  decide

/-! ## Properties: reads and writes of the persistence layer -/

theorem localRead_of_stringify (ls : LocalStorage) (path : String) (v : Json)
    (hwf : v.WF = true) (hget : ls.getItem path = some (JSON.stringify v)) :
    localRead ls path = some v := by
  simp only [localRead, hget, stringify_ne_nil v, if_false, parse_stringify v hwf]

theorem setData_eq (p : Persistence) (path : String) (data : Json) (remoteWriteOk : Bool) :
    setData p path data remoteWriteOk
      = some { p with localStorage := p.localStorage.setItem path (JSON.stringify data) } := by
  unfold setData
  split_ifs <;> rfl

theorem getCollection_saveCollection (p : Persistence) (name : String) (fallback v : Json)
    (remoteWriteOk : Bool) (remote : RemoteRead) (hlocal : p.isFirebaseReady = false)
    (hwf : v.WF = true) (htruthy : v.truthy = true) :
    ∃ p1, saveCollection p name v remoteWriteOk = some p1
      ∧ getCollection p1 name fallback remote = some v := by
  obtain ⟨encrypted, henc, _⟩ := encryptData_readable v hwf
  have hsave : saveCollection p name v remoteWriteOk
      = some { localStorage := (p.localStorage.setItem ("bt_" ++ name) encrypted).setItem name
                 (JSON.stringify v),
               isFirebaseReady := p.isFirebaseReady } := by
    simp only [saveCollection, henc, setData_eq]
  refine ⟨_, hsave, ?_⟩
  · have hread := localRead_of_stringify
      ((p.localStorage.setItem ("bt_" ++ name) encrypted).setItem name (JSON.stringify v))
      name v hwf (localGet_set_same _ _ _)
    simp only [getCollection, getData, hlocal, Bool.not_false, if_true, hread, htruthy]

/-- Claim C15. Without a remote store, for each of the seven persisted collections (users,
gameStatus, bugs, suggestions, notifications, logs, accountRequests), every store content
before, and every value `v` that `JSON.stringify` renders exactly and that is truthy (every
array and every object is), the save of `v` returns, and the getter called after it returns
`v`. -/
theorem getter_after_save (p : Persistence) (v : Json) (remoteWriteOk : Bool)
    (remote : RemoteRead) (hlocal : p.isFirebaseReady = false) (hwf : v.WF = true)
    (htruthy : v.truthy = true) :
    (∃ p1, saveUsers p v remoteWriteOk = some p1 ∧ getUsers p1 remote = some v)
      ∧ (∃ p1, saveGameStatus p v remoteWriteOk = some p1 ∧ getGameStatus p1 remote = some v)
      ∧ (∃ p1, saveBugs p v remoteWriteOk = some p1 ∧ getBugs p1 remote = some v)
      ∧ (∃ p1, saveSuggestions p v remoteWriteOk = some p1
          ∧ getSuggestions p1 remote = some v)
      ∧ (∃ p1, saveNotifications p v remoteWriteOk = some p1
          ∧ getNotifications p1 remote = some v)
      ∧ (∃ p1, saveLogs p v remoteWriteOk = some p1 ∧ getLogs p1 remote = some v)
      ∧ (∃ p1, saveAccountRequests p v remoteWriteOk = some p1
          ∧ getAccountRequests p1 remote = some v)
      ∧ (∀ items, (Json.arr items).truthy = true)
      ∧ (∀ fields, (Json.obj fields).truthy = true) :=
  ⟨getCollection_saveCollection p "users" _ v remoteWriteOk remote hlocal hwf htruthy,
    getCollection_saveCollection p "gameStatus" _ v remoteWriteOk remote hlocal hwf htruthy,
    getCollection_saveCollection p "bugs" _ v remoteWriteOk remote hlocal hwf htruthy,
    getCollection_saveCollection p "suggestions" _ v remoteWriteOk remote hlocal hwf htruthy,
    getCollection_saveCollection p "notifications" _ v remoteWriteOk remote hlocal hwf htruthy,
    getCollection_saveCollection p "logs" _ v remoteWriteOk remote hlocal hwf htruthy,
    getCollection_saveCollection p "accountRequests" _ v remoteWriteOk remote hlocal hwf
      htruthy,
    fun _ => rfl, fun _ => rfl⟩

theorem getter_after_save_witness :
    (∃ p1, saveUsers localOnlyPersistence sampleCollection true = some p1
        ∧ getUsers p1 .failure = some sampleCollection)
      ∧ (∃ p1, saveLogs localOnlyPersistence (.arr []) false = some p1
        ∧ getLogs p1 (.value .null) = some (.arr [])) :=
  ⟨(getter_after_save localOnlyPersistence sampleCollection true .failure rfl (by decide)
      rfl).1,
    (getter_after_save localOnlyPersistence (.arr []) false (.value .null) rfl (by decide)
      rfl).2.2.2.2.2.1⟩

/-- Claim C16. With a remote store configured: when the remote read fails, `getData(path)`
raises no error and returns `null` if nothing is stored locally under the path, and the value
`v` if the text stored locally under the path is the one `setData(path, v)` writes, in
particular right after `setData(path, v)` whether or not its remote write succeeded; when the
remote write fails, `setData` raises no error and has written the local copy, leaving the other
keys as they were. -/
theorem remote_failure_downgraded (p : Persistence) (path : String)
    (hready : p.isFirebaseReady = true) :
    (p.localStorage.getItem path = none → getData p path .failure = some .null)
      ∧ (∀ v, v.WF = true → p.localStorage.getItem path = some (JSON.stringify v) →
          getData p path .failure = some v)
      ∧ (∀ v remoteWriteOk, v.WF = true →
          ∃ p1, setData p path v remoteWriteOk = some p1 ∧ getData p1 path .failure = some v)
      ∧ (∀ v, ∃ p1, setData p path v false = some p1
          ∧ p1.localStorage.getItem path = some (JSON.stringify v)
          ∧ p1.isFirebaseReady = true
          ∧ ∀ other, other ≠ path → p1.localStorage.getItem other
              = p.localStorage.getItem other) := by
  refine ⟨?_, ?_, ?_, ?_⟩
  · intro hnone
    simp [getData, hready, localRead, hnone]
  · intro v hwf hget
    simp [getData, hready, localRead_of_stringify _ _ v hwf hget]
  · intro v remoteWriteOk hwf
    refine ⟨_, setData_eq p path v remoteWriteOk, ?_⟩
    simp [getData, hready, localRead_of_stringify _ _ v hwf (localGet_set_same _ _ _)]
  · intro v
    exact ⟨_, setData_eq p path v false, localGet_set_same _ _ _, hready,
      fun other ho => localGet_set_other _ _ _ _ ho⟩

theorem remote_failure_downgraded_witness :
    getData divergedPersistence "bugs" .failure = some .null
      ∧ ∃ p1, setData divergedPersistence "users" sampleCollection false = some p1
        ∧ getData p1 "users" .failure = some sampleCollection :=
  ⟨(remote_failure_downgraded divergedPersistence "bugs" rfl).1 (by decide),
    (remote_failure_downgraded divergedPersistence "users" rfl).2.2.1 sampleCollection false
      (by decide)⟩

theorem getCollection_of_truthy (p : Persistence) (name : String) (fallback : Json)
    (remote : RemoteRead) (data : Json) (hdata : getData p name remote = some data)
    (htruthy : data.truthy = true) : getCollection p name fallback remote = some data := by
  simp only [getCollection, hdata, htruthy, if_true]

theorem getData_remote (p : Persistence) (name : String) (r : Json)
    (hready : p.isFirebaseReady = true) : getData p name (.value r) = some r := by
  simp [getData, hready]

/-- Claim C17. When the remote store is configured and its read returns a truthy value (every
array and every object is truthy), each collection getter returns that value, whatever the
local store holds.  More generally a getter returns the value of `getData` whenever that value
is truthy, and reads the obfuscated local copy only when it is not: then it returns
`decryptData(copy) || fallback`. -/
theorem remote_wins_on_read (p : Persistence) (r : Json) (hready : p.isFirebaseReady = true)
    (hr : r.truthy = true) :
    getUsers p (.value r) = some r
      ∧ getGameStatus p (.value r) = some r
      ∧ getBugs p (.value r) = some r
      ∧ getSuggestions p (.value r) = some r
      ∧ getNotifications p (.value r) = some r
      ∧ getLogs p (.value r) = some r
      ∧ getAccountRequests p (.value r) = some r
      ∧ (∀ (q : Persistence) name fallback remote data, getData q name remote = some data →
          data.truthy = true → getCollection q name fallback remote = some data)
      ∧ (∀ (q : Persistence) name fallback remote data, getData q name remote = some data →
          data.truthy = false →
          getCollection q name fallback remote
            = some ((decryptData (itemText (q.localStorage.getItem ("bt_" ++ name)))).orElse
                fallback)) := by
  refine ⟨?_, ?_, ?_, ?_, ?_, ?_, ?_, ?_, ?_⟩
  · exact getCollection_of_truthy p _ _ _ r (getData_remote p _ r hready) hr
  · exact getCollection_of_truthy p _ _ _ r (getData_remote p _ r hready) hr
  · exact getCollection_of_truthy p _ _ _ r (getData_remote p _ r hready) hr
  · exact getCollection_of_truthy p _ _ _ r (getData_remote p _ r hready) hr
  · exact getCollection_of_truthy p _ _ _ r (getData_remote p _ r hready) hr
  · exact getCollection_of_truthy p _ _ _ r (getData_remote p _ r hready) hr
  · exact getCollection_of_truthy p _ _ _ r (getData_remote p _ r hready) hr
  · intro q name fallback remote data hdata htruthy
    exact getCollection_of_truthy q name fallback remote data hdata htruthy
  · intro q name fallback remote data hdata hfalsy
    simp [getCollection, hdata, hfalsy]

theorem remote_wins_on_read_witness :
    getUsers divergedPersistence (.value sampleCollection) = some sampleCollection
      ∧ getLogs divergedPersistence (.value (.arr [])) = some (.arr []) :=
  ⟨(remote_wins_on_read divergedPersistence sampleCollection rfl rfl).1,
    (remote_wins_on_read divergedPersistence (.arr []) rfl rfl).2.2.2.2.2.1⟩

/-! ## Properties: backfill of broadcasts -/

theorem notifKey_copyFor (username : String) (n : Notification) :
    notifKey (copyFor username n) = notifKey n := rfl

theorem uniqueCopies_cons_seen (username : String) (x : Notification) (l : List Notification)
    (seen : List String) (hx : notifKey x ∈ seen) :
    uniqueCopies username seen (x :: l) = uniqueCopies username seen l := by
  simp [uniqueCopies, hx]

theorem uniqueCopies_cons_new (username : String) (x : Notification) (l : List Notification)
    (seen : List String) (hx : notifKey x ∉ seen) :
    uniqueCopies username seen (x :: l)
      = copyFor username x :: uniqueCopies username (notifKey x :: seen) l := by
  simp [uniqueCopies, hx]

theorem uniqueCopies_of_seen (username : String) :
    ∀ (l : List Notification) (seen : List String), (∀ n ∈ l, notifKey n ∈ seen) →
      uniqueCopies username seen l = [] := by
  intro l
  induction l with
  | nil => intro seen _; rfl
  | cons x l ih =>
    intro seen h
    have hx : notifKey x ∈ seen := h x (List.mem_cons_self _ _)
    rw [uniqueCopies_cons_seen username x l seen hx]
    exact ih seen (fun n hn => h n (List.mem_cons_of_mem _ hn))

theorem uniqueCopies_append_of_seen (username : String) (extra : List Notification) :
    ∀ (l : List Notification) (seen : List String),
      (∀ n ∈ extra, notifKey n ∈ seen ∨ ∃ m ∈ l, notifKey m = notifKey n) →
      uniqueCopies username seen (l ++ extra) = uniqueCopies username seen l := by
  intro l
  induction l with
  | nil =>
    intro seen h
    simp only [List.nil_append, uniqueCopies]
    apply uniqueCopies_of_seen
    intro n hn
    rcases h n hn with hs | ⟨m, hm, _⟩
    · exact hs
    · simp at hm
  | cons x l ih =>
    intro seen h
    by_cases hx : notifKey x ∈ seen
    · rw [List.cons_append, uniqueCopies_cons_seen username x _ seen hx,
        uniqueCopies_cons_seen username x _ seen hx]
      apply ih
      intro n hn
      rcases h n hn with hs | ⟨m, hm, hk⟩
      · exact Or.inl hs
      · rcases List.mem_cons.mp hm with rfl | hm
        · exact Or.inl (hk ▸ hx)
        · exact Or.inr ⟨m, hm, hk⟩
    · rw [List.cons_append, uniqueCopies_cons_new username x _ seen hx,
        uniqueCopies_cons_new username x _ seen hx]
      congr 1
      apply ih
      intro n hn
      rcases h n hn with hs | ⟨m, hm, hk⟩
      · exact Or.inl (List.mem_cons_of_mem _ hs)
      · rcases List.mem_cons.mp hm with rfl | hm
        · exact Or.inl (hk ▸ List.mem_cons_self _ _)
        · exact Or.inr ⟨m, hm, hk⟩

theorem uniqueCopies_source (username : String) :
    ∀ (l : List Notification) (seen : List String), ∀ c ∈ uniqueCopies username seen l,
      ∃ n ∈ l, c = copyFor username n ∧ notifKey n ∉ seen := by
  intro l
  induction l with
  | nil => intro seen c hc; simp [uniqueCopies] at hc
  | cons x l ih =>
    intro seen c hc
    by_cases hx : notifKey x ∈ seen
    · rw [uniqueCopies_cons_seen username x l seen hx] at hc
      obtain ⟨n, hn, hcn, hns⟩ := ih seen c hc
      exact ⟨n, List.mem_cons_of_mem _ hn, hcn, hns⟩
    · rw [uniqueCopies_cons_new username x l seen hx, List.mem_cons] at hc
      rcases hc with rfl | hc
      · exact ⟨x, List.mem_cons_self _ _, rfl, hx⟩
      · obtain ⟨n, hn, hcn, hns⟩ := ih (notifKey x :: seen) c hc
        exact ⟨n, List.mem_cons_of_mem _ hn, hcn, fun h => hns (List.mem_cons_of_mem _ h)⟩

theorem uniqueCopies_keys_nodup (username : String) :
    ∀ (l : List Notification) (seen : List String),
      ((uniqueCopies username seen l).map notifKey).Nodup := by
  intro l
  induction l with
  | nil => intro seen; simp [uniqueCopies]
  | cons x l ih =>
    intro seen
    by_cases hx : notifKey x ∈ seen
    · rw [uniqueCopies_cons_seen username x l seen hx]
      exact ih seen
    · rw [uniqueCopies_cons_new username x l seen hx, List.map_cons, List.nodup_cons]
      refine ⟨?_, ih _⟩
      intro hmem
      obtain ⟨c, hc, hkey⟩ := List.mem_map.mp hmem
      obtain ⟨n, _, hcn, hns⟩ := uniqueCopies_source username l (notifKey x :: seen) c hc
      apply hns
      rw [hcn, notifKey_copyFor] at hkey
      rw [hkey, notifKey_copyFor]
      exact List.mem_cons_self _ _

theorem uniqueCopies_covers (username : String) :
    ∀ (l : List Notification) (seen : List String) (n : Notification), n ∈ l →
      notifKey n ∉ seen →
      ∃ m ∈ l, notifKey m = notifKey n ∧ copyFor username m ∈ uniqueCopies username seen l := by
  intro l
  induction l with
  | nil => intro seen n hn; simp at hn
  | cons x l ih =>
    intro seen n hn hns
    by_cases hx : notifKey x ∈ seen
    · have hnl : n ∈ l := by
        rcases List.mem_cons.mp hn with rfl | h
        · exact absurd hx hns
        · exact h
      obtain ⟨m, hm, hk, hc⟩ := ih seen n hnl hns
      refine ⟨m, List.mem_cons_of_mem _ hm, hk, ?_⟩
      rw [uniqueCopies_cons_seen username x l seen hx]
      exact hc
    · by_cases hxn : notifKey x = notifKey n
      · refine ⟨x, List.mem_cons_self _ _, hxn, ?_⟩
        rw [uniqueCopies_cons_new username x l seen hx]
        exact List.mem_cons_self _ _
      · have hnl : n ∈ l := by
          rcases List.mem_cons.mp hn with rfl | h
          · exact absurd rfl hxn
          · exact h
        have hns2 : notifKey n ∉ notifKey x :: seen := by
          intro h
          rcases List.mem_cons.mp h with h | h
          · exact hxn h.symm
          · exact hns h
        obtain ⟨m, hm, hk, hc⟩ := ih (notifKey x :: seen) n hnl hns2
        refine ⟨m, List.mem_cons_of_mem _ hm, hk, ?_⟩
        rw [uniqueCopies_cons_new username x l seen hx]
        exact List.mem_cons_of_mem _ hc

theorem uniqueCopies_global (username : String) (l : List Notification) (seen : List String) :
    (uniqueCopies username seen l).filter (fun n => n.isGlobal == some true)
      = uniqueCopies username seen l := by
  apply List.filter_eq_self.mpr
  intro c hc
  obtain ⟨n, _, hcn, _⟩ := uniqueCopies_source username l seen c hc
  simp [hcn, copyFor]

theorem uniqueCopies_recipient (username : String) (l : List Notification) (seen : List String) :
    (uniqueCopies username seen l).filter (fun n => n.recipient == username)
      = uniqueCopies username seen l := by
  apply List.filter_eq_self.mpr
  intro c hc
  obtain ⟨n, _, hcn, _⟩ := uniqueCopies_source username l seen c hc
  simp [hcn, copyFor]

theorem addGlobalNotificationsToNewUser_notifications (s : State) (username : String) :
    (addGlobalNotificationsToNewUser s username).notifications =
      s.notifications ++ uniqueCopies username []
        (s.notifications.filter (fun n => n.isGlobal == some true)) := rfl

theorem addGlobalNotificationsToNewUser_twice (s : State) (username : String) :
    (addGlobalNotificationsToNewUser (addGlobalNotificationsToNewUser s username)
        username).notifications =
      s.notifications
        ++ uniqueCopies username [] (s.notifications.filter (fun n => n.isGlobal == some true))
        ++ uniqueCopies username []
            (s.notifications.filter (fun n => n.isGlobal == some true)) := by
  rw [addGlobalNotificationsToNewUser_notifications,
    addGlobalNotificationsToNewUser_notifications, List.filter_append, uniqueCopies_global,
    uniqueCopies_append_of_seen]
  intro c hc
  obtain ⟨n, hn, hcn, _⟩ := uniqueCopies_source username _ [] c hc
  exact Or.inr ⟨n, hn, by rw [hcn, notifKey_copyFor]⟩

/-- Claim C2, refuted as stated. With one stored broadcast copy, one backfill call gives bob one
copy and a second call gives bob the same copy again: two equal records, a duplicate. -/
theorem backfill_twice_counterexample :
    notificationsOf (addGlobalNotificationsToNewUser sampleState "bob") "bob"
        = [copyFor "bob" sampleGlobal]
      ∧ notificationsOf (addGlobalNotificationsToNewUser
          (addGlobalNotificationsToNewUser sampleState "bob") "bob") "bob"
        = [copyFor "bob" sampleGlobal, copyFor "bob" sampleGlobal]
      ∧ ¬ (notificationsOf (addGlobalNotificationsToNewUser
          (addGlobalNotificationsToNewUser sampleState "bob") "bob") "bob").Nodup := by
  decide

/-- Claim C2, amended. One backfill call appends, for the user, one copy per distinct key
title-message-timestamp among the stored global notifications; a second call for the same
username appends that same batch once more. So after two calls the user is addressed by the
same distinct records as after one call, but every backfilled record is stored twice. -/
theorem backfill_twice_appends_same_batch (s : State) (username : String) :
    notificationsOf (addGlobalNotificationsToNewUser s username) username
        = notificationsOf s username ++ uniqueCopies username []
            (s.notifications.filter (fun n => n.isGlobal == some true))
      ∧ notificationsOf (addGlobalNotificationsToNewUser
          (addGlobalNotificationsToNewUser s username) username) username
        = notificationsOf s username
            ++ uniqueCopies username []
              (s.notifications.filter (fun n => n.isGlobal == some true))
            ++ uniqueCopies username []
              (s.notifications.filter (fun n => n.isGlobal == some true))
      ∧ (∀ n, n ∈ notificationsOf (addGlobalNotificationsToNewUser
            (addGlobalNotificationsToNewUser s username) username) username
          ↔ n ∈ notificationsOf (addGlobalNotificationsToNewUser s username) username)
      ∧ ((uniqueCopies username []
            (s.notifications.filter (fun n => n.isGlobal == some true))).map notifKey).Nodup := by
  have h1 : notificationsOf (addGlobalNotificationsToNewUser s username) username
      = notificationsOf s username ++ uniqueCopies username []
          (s.notifications.filter (fun n => n.isGlobal == some true)) := by
    unfold notificationsOf
    rw [addGlobalNotificationsToNewUser_notifications, List.filter_append,
      uniqueCopies_recipient]
  have h2 : notificationsOf (addGlobalNotificationsToNewUser
      (addGlobalNotificationsToNewUser s username) username) username
      = notificationsOf s username
          ++ uniqueCopies username []
            (s.notifications.filter (fun n => n.isGlobal == some true))
          ++ uniqueCopies username []
            (s.notifications.filter (fun n => n.isGlobal == some true)) := by
    unfold notificationsOf
    rw [addGlobalNotificationsToNewUser_twice, List.filter_append, List.filter_append,
      uniqueCopies_recipient]
  refine ⟨h1, h2, ?_, uniqueCopies_keys_nodup username _ []⟩
  intro n
  rw [h1, h2]
  simp only [List.mem_append]
  tauto

/-! ## Properties: initializeDefaultData -/

theorem fillDefault_step (ls : LocalStorage) (key : String) (text : List Nat)
    (htext : text ≠ []) :
    ∃ ls1, fillDefault ls key (some text) = some ls1
      ∧ (∀ k v, ls.getItem k = some v → v ≠ [] → ls1.getItem k = some v)
      ∧ (∀ k, k ≠ key → ls1.getItem k = ls.getItem k)
      ∧ (∃ c r, ls1.getItem key = some (c :: r))
      ∧ ((ls.getItem key = none ∨ ls.getItem key = some []) → ls1.getItem key = some text) := by
  obtain ⟨t0, trest, ht⟩ := List.exists_cons_of_ne_nil htext
  cases hget : ls.getItem key with
  | none =>
    refine ⟨ls.setItem key text, by simp [fillDefault, hget], ?_, ?_, ?_, ?_⟩
    · intro k v hk hv
      by_cases hkk : k = key
      · rw [hkk, hget] at hk
        cases hk
      · rw [localGet_set_other _ _ _ _ hkk, hk]
    · intro k hk
      exact localGet_set_other _ _ _ _ hk
    · exact ⟨t0, trest, by rw [localGet_set_same, ht]⟩
    · intro _
      exact localGet_set_same _ _ _
  | some value =>
    cases value with
    | nil =>
      refine ⟨ls.setItem key text, by simp [fillDefault, hget], ?_, ?_, ?_, ?_⟩
      · intro k v hk hv
        by_cases hkk : k = key
        · rw [hkk, hget] at hk
          cases hk
          exact absurd rfl hv
        · rw [localGet_set_other _ _ _ _ hkk, hk]
      · intro k hk
        exact localGet_set_other _ _ _ _ hk
      · exact ⟨t0, trest, by rw [localGet_set_same, ht]⟩
      · intro _
        exact localGet_set_same _ _ _
    | cons c r =>
      refine ⟨ls, by simp [fillDefault, hget], fun k v hk _ => hk, fun k _ => rfl,
        ⟨c, r, hget⟩, ?_⟩
      intro h
      rcases h with h | h <;> cases h

theorem fillDefaults_spec (entries : List (String × List Nat))
    (hne : ∀ kv ∈ entries, kv.2 ≠ []) (hnodup : (entries.map (fun kv => kv.1)).Nodup) :
    ∀ ls : LocalStorage, ∃ ls1, fillDefaults entries ls = some ls1
      ∧ (∀ k v, ls.getItem k = some v → v ≠ [] → ls1.getItem k = some v)
      ∧ (∀ k, k ∉ entries.map (fun kv => kv.1) → ls1.getItem k = ls.getItem k)
      ∧ (∀ kv ∈ entries, ∃ c r, ls1.getItem kv.1 = some (c :: r))
      ∧ (∀ kv ∈ entries, (ls.getItem kv.1 = none ∨ ls.getItem kv.1 = some []) →
          ls1.getItem kv.1 = some kv.2) := by
  induction entries with
  | nil =>
    intro ls
    exact ⟨ls, rfl, fun k v hk _ => hk, fun k _ => rfl,
      fun kv hkv => absurd hkv (List.not_mem_nil _),
      fun kv hkv => absurd hkv (List.not_mem_nil _)⟩
  | cons e rest ih =>
    intro ls
    have hne2 : ∀ kv ∈ rest, kv.2 ≠ [] := fun kv hkv => hne kv (List.mem_cons_of_mem _ hkv)
    rw [List.map_cons, List.nodup_cons] at hnodup
    obtain ⟨ls0, hstep, hkeep0, hframe0, hpresent0, hdefault0⟩ :=
      fillDefault_step ls e.1 e.2 (hne e (List.mem_cons_self _ _))
    obtain ⟨ls1, hrest, hkeep, hframe, hpresent, hdefault⟩ := ih hne2 hnodup.2 ls0
    refine ⟨ls1, by simp [fillDefaults, hstep, hrest], ?_, ?_, ?_, ?_⟩
    · intro k v hk hv
      exact hkeep k v (hkeep0 k v hk hv) hv
    · intro k hk
      rw [List.map_cons, List.mem_cons, not_or] at hk
      rw [hframe k hk.2, hframe0 k hk.1]
    · intro kv hkv
      rcases List.mem_cons.mp hkv with h | h
      · obtain ⟨c, r, hcr⟩ := hpresent0
        rw [h]
        exact ⟨c, r, hkeep _ _ hcr (List.cons_ne_nil _ _)⟩
      · exact hpresent kv h
    · intro kv hkv hmissing
      rcases List.mem_cons.mp hkv with h | h
      · rw [h] at hmissing ⊢
        exact hkeep _ _ (hdefault0 hmissing) (hne e (List.mem_cons_self _ _))
      · have hkey : kv.1 ≠ e.1 := by
          intro heq
          exact hnodup.1 (heq ▸ List.mem_map_of_mem (fun kv => kv.1) h)
        rw [← hframe0 kv.1 hkey] at hmissing
        exact hdefault kv h hmissing

theorem fillDefaults_fixed (entries : List (String × List Nat)) (ls : LocalStorage)
    (hpresent : ∀ kv ∈ entries, ∃ c r, ls.getItem kv.1 = some (c :: r)) :
    fillDefaults entries ls = some ls := by
  induction entries with
  | nil => rfl
  | cons e rest ih =>
    obtain ⟨c, r, hcr⟩ := hpresent e (List.mem_cons_self _ _)
    have hstep : fillDefault ls e.1 (some e.2) = some ls := by simp [fillDefault, hcr]
    simp [fillDefaults, hstep, ih (fun kv hkv => hpresent kv (List.mem_cons_of_mem _ hkv))]

theorem initializeDefaultData_eq (ls : LocalStorage) :
    initializeDefaultData ls
      = fillDefaults freshStorage.tail
          (if ls.getItem "bt_version" ≠ some (codeUnits "2.0") then
            [("bt_version", codeUnits "2.0")]
          else ls) := by
  simp only [initializeDefaultData, encryptData_emptyArray, encryptData_defaultGameStatus,
    encryptData_defaultWebsiteShutdown, freshStorage, List.tail_cons, fillDefaults,
    LocalStorage.clear, LocalStorage.setItem]
  simp only [bind, Option.bind_some]

/-- Claim C18, refuted as stated. With the marker already '2.0', a key that is present with
the empty string as its value does not keep it: `initializeDefaultData` replaces it by the text
of the default value. -/
theorem initializeDefaultData_empty_value_counterexample :
    blankUsersStorage.getItem "bt_version" = some (codeUnits "2.0")
      ∧ blankUsersStorage.getItem "bt_users" = some []
      ∧ (initializeDefaultData blankUsersStorage).map (fun ls => ls.getItem "bt_users")
        = some (some (codeUnits "VzEwPQ==")) := by
  decide

/-- Claim C18, amended. `initializeDefaultData` always returns.  If the stored marker is
absent or differs from '2.0', the result is exactly the store of a first visit: the marker,
the obfuscated text of each default value, and 'true' for the request flag.  If the marker is
already '2.0', every key holding a non-empty value keeps it, every key other than the nine keys
with a default is as before, and each of these nine that is missing or holds the empty string
gets the text of its default value.  Running it on its own result changes nothing. -/
theorem initializeDefaultData_frame (ls : LocalStorage) :
    ∃ ls1, initializeDefaultData ls = some ls1
      ∧ (ls.getItem "bt_version" ≠ some (codeUnits "2.0") → ls1 = freshStorage)
      ∧ (ls.getItem "bt_version" = some (codeUnits "2.0") →
          (∀ key value, ls.getItem key = some value → value ≠ [] →
              ls1.getItem key = some value)
            ∧ (∀ key, key ∉ defaultKeys → ls1.getItem key = ls.getItem key)
            ∧ (∀ kv ∈ freshStorage.tail,
                (ls.getItem kv.1 = none ∨ ls.getItem kv.1 = some []) →
                ls1.getItem kv.1 = some kv.2))
      ∧ initializeDefaultData ls1 = some ls1
      ∧ (∃ users game shutdown, encryptData (.arr []) = some users
          ∧ encryptData defaultGameStatus = some game
          ∧ encryptData defaultWebsiteShutdown = some shutdown
          ∧ freshStorage = [("bt_version", codeUnits "2.0"), ("bt_users", users),
              ("bt_gameStatus", game), ("bt_bugs", users), ("bt_suggestions", users),
              ("bt_notifications", users), ("bt_logs", users), ("bt_accountRequests", users),
              ("bt_websiteShutdown", shutdown),
              ("bt_accountRequestsEnabled", codeUnits "true")]) := by
  have hne : ∀ kv ∈ freshStorage.tail, kv.2 ≠ [] := by decide
  have hnodup : (freshStorage.tail.map (fun kv => kv.1)).Nodup := by decide
  have hkeys : freshStorage.tail.map (fun kv => kv.1) = defaultKeys := by decide
  obtain ⟨ls1, hrun, hkeep, hframe, hpresent, hdefault⟩ :=
    fillDefaults_spec freshStorage.tail hne hnodup
      (if ls.getItem "bt_version" ≠ some (codeUnits "2.0") then
        [("bt_version", codeUnits "2.0")]
      else ls)
  have hmarker : ls1.getItem "bt_version" = some (codeUnits "2.0") := by
    apply hkeep _ _ _ (by decide)
    by_cases hv : ls.getItem "bt_version" = some (codeUnits "2.0")
    · rw [if_neg (not_not.mpr hv)]
      exact hv
    · rw [if_pos hv]
      decide
  refine ⟨ls1, by rw [initializeDefaultData_eq, hrun], ?_, ?_, ?_, ?_⟩
  · intro hv
    rw [if_pos hv] at hrun
    have hfresh : fillDefaults freshStorage.tail [("bt_version", codeUnits "2.0")]
        = some freshStorage := by decide
    rw [hfresh] at hrun
    exact (Option.some.inj hrun).symm
  · intro hv
    rw [if_neg (not_not.mpr hv)] at hkeep hframe hdefault
    refine ⟨hkeep, ?_, hdefault⟩
    intro key hkey
    rw [← hkeys] at hkey
    exact hframe key hkey
  · rw [initializeDefaultData_eq, if_neg (not_not.mpr hmarker)]
    exact fillDefaults_fixed _ _ hpresent
  · exact ⟨_, _, _, encryptData_emptyArray, encryptData_defaultGameStatus,
      encryptData_defaultWebsiteShutdown, rfl⟩

theorem initializeDefaultData_frame_witness :
    staleStorage.getItem "bt_version" ≠ some (codeUnits "2.0")
      ∧ ∃ ls1, initializeDefaultData staleStorage = some ls1 ∧ ls1 = freshStorage
        ∧ ls1.getItem "theme" = none :=
  ⟨by decide, (initializeDefaultData_frame staleStorage).imp
    (fun ls1 h => ⟨h.1, h.2.1 (by decide), by rw [h.2.1 (by decide)]; decide⟩)⟩

/-! ## Properties: broadcasts reach accounts created later -/

theorem string_append_left_cancel (a x y : String) (h : a ++ x = a ++ y) : x = y := by
  have hd := congrArg String.data h
  simp only [String.data_append] at hd
  exact String.ext (List.append_cancel_left hd)

theorem createAccount_user_notifications (s : State) (username robloxName password : String)
    (nowMs : Nat) (hname : username ≠ "") (hroblox : robloxName ≠ "")
    (hfree : ∀ u ∈ s.users, u.username ≠ username) :
    (createAccount s username robloxName "user" password nowMs).notifications =
      s.notifications ++ uniqueCopies username []
        (s.notifications.filter (fun n => n.isGlobal == some true)) := by
  have hnone := find?_username_none s.users username hfree
  simp [createAccount, hname, hroblox, hnone, addGlobalNotificationsToNewUser,
    setTempPassword]

theorem approveRequest_notifications (s : State) (requestId : Nat)
    (acceptedAt logTime : String) (request : AccountRequest)
    (hreq : s.accountRequests.find? (fun r => r.id == requestId) = some request)
    (hfree : ∀ u ∈ s.users, u.username ≠ request.username) :
    (approveRequest s requestId true acceptedAt logTime).notifications =
      s.notifications ++ uniqueCopies request.username []
        (s.notifications.filter (fun n => n.isGlobal == some true)) := by
  rw [approveRequest_success s requestId acceptedAt logTime request hreq hfree]
  rfl

theorem broadcast_then_backfill (s : State) (type title message username : String)
    (now : Nat → String)
    (hrecv : ∃ u ∈ s.users, u.role = "user")
    (hkey : ∀ m ∈ s.notifications, m.isGlobal = some true →
      notifKey m = title ++ "-" ++ message ++ "-" ++ now 0 →
      m.type = type ∧ m.title = title ∧ m.message = message ∧ m.timestamp = now 0) :
    ∃ n ∈ uniqueCopies username []
        ((addInternalNotification s "all" type title message now).notifications.filter
          (fun n => n.isGlobal == some true)),
      n.recipient = username ∧ n.type = type ∧ n.title = title ∧ n.message = message
        ∧ n.timestamp = now 0 := by
  -- the first copy of the broadcast
  have hne : s.users.filter (fun u => u.role == "user") ≠ [] := by
    obtain ⟨u, hu, hrole⟩ := hrecv
    intro h0
    have : u ∈ s.users.filter (fun u => u.role == "user") :=
      List.mem_filter.mpr ⟨hu, by simp [hrole]⟩
    rw [h0] at this
    simp at this
  obtain ⟨u, us, hus⟩ := List.exists_cons_of_ne_nil hne
  have hnotifs : (addInternalNotification s "all" type title message now).notifications
      = s.notifications ++ broadcastCopies type title message (some true) now 0
          (s.users.filter (fun u => u.role == "user")) := by
    simp [addInternalNotification]
  let c0 : Notification :=
    { recipient := u.username, type := type, title := title, message := message,
      timestamp := now 0, read := false, isGlobal := some true }
  have hc0 : c0 ∈ (addInternalNotification s "all" type title message now).notifications.filter
      (fun n => n.isGlobal == some true) := by
    rw [hnotifs, hus]
    apply List.mem_filter.mpr
    refine ⟨List.mem_append_right _ ?_, by simp [c0]⟩
    simp [broadcastCopies, c0]
  obtain ⟨m, hm, hmk, hmc⟩ := uniqueCopies_covers username _ [] c0 hc0 (by simp)
  refine ⟨copyFor username m, hmc, rfl, ?_⟩
  have hm2 := List.mem_filter.mp hm
  rw [hnotifs] at hm2
  have hglobal : m.isGlobal = some true := by simpa using hm2.2
  have hmk2 : notifKey m = title ++ "-" ++ message ++ "-" ++ now 0 := hmk
  rcases List.mem_append.mp hm2.1 with hold | hnew
  · exact hkey m hold hglobal hmk2
  · obtain ⟨h1, h2, h3, _, _, _⟩ := broadcastCopies_fields _ _ _ _ _ _ 0 m hnew
    refine ⟨h1, h2, h3, ?_⟩
    have hk : title ++ "-" ++ message ++ "-" ++ m.timestamp
        = title ++ "-" ++ message ++ "-" ++ now 0 := by
      rw [← hmk2]
      simp [notifKey, h2, h3]
    exact string_append_left_cancel _ _ _ hk

/-- Claim C3, refuted as stated, twice.  (1) A broadcast made while no account with role user
exists stores no record, so the account created afterwards (bob, role user) receives nothing.
(2) With ana as the only tester, two broadcasts with the same title, message and clock text but
different types (success, then info) are both stored for ana; bob, created afterwards, receives
one notification, of type success, and none carrying the type of the second broadcast. -/
theorem broadcast_not_backfilled_counterexample :
    ((addInternalNotification adminOnlyState "all" "success" "¡Juego Disponible!"
          "El juego ya está disponible para jugar" (fun _ => "6/11/2026, 10:00:00")).notifications
          = []
        ∧ (createAccount
            (addInternalNotification adminOnlyState "all" "success" "¡Juego Disponible!"
              "El juego ya está disponible para jugar" (fun _ => "6/11/2026, 10:00:00"))
            "bob" "bob_rbx" "user" "1234" 1).users.map (fun u => (u.username, u.role))
          = [("root", "admin"), ("bob", "user")]
        ∧ notificationsOf
            (createAccount
              (addInternalNotification adminOnlyState "all" "success" "¡Juego Disponible!"
                "El juego ya está disponible para jugar" (fun _ => "6/11/2026, 10:00:00"))
              "bob" "bob_rbx" "user" "1234" 1) "bob"
          = [])
      ∧ ((notificationsOf
            (addInternalNotification
              (addInternalNotification oneTesterState "all" "success" "Aviso" "Servidor"
                (fun _ => "6/11/2026, 10:00:00"))
              "all" "info" "Aviso" "Servidor" (fun _ => "6/11/2026, 10:00:00")) "ana").map
            (fun n => n.type)
          = ["success", "info"]
        ∧ (notificationsOf
            (createAccount
              (addInternalNotification
                (addInternalNotification oneTesterState "all" "success" "Aviso" "Servidor"
                  (fun _ => "6/11/2026, 10:00:00"))
                "all" "info" "Aviso" "Servidor" (fun _ => "6/11/2026, 10:00:00"))
              "bob" "bob_rbx" "user" "1234" 1) "bob").map (fun n => n.type)
          = ["success"]) := by
  decide

/-- A broadcast sent from the admin panel (`sendNotification` with recipient all) is stored
without the `isGlobal` flag: ana receives it, the account created afterwards (bob) does not. -/
theorem sendNotification_broadcast_not_backfilled :
    (notificationsOf
        (sendNotification oneTesterState "all" "info" "Aviso" "Mantenimiento" ""
          (fun _ => "6/11/2026, 10:00:00") "6/11/2026, 10:00:00") "ana").length = 1
      ∧ notificationsOf
          (createAccount
            (sendNotification oneTesterState "all" "info" "Aviso" "Mantenimiento" ""
              (fun _ => "6/11/2026, 10:00:00") "6/11/2026, 10:00:00")
            "bob" "bob_rbx" "user" "1234" 1) "bob"
        = [] := by
  decide

/-- Claim C3, amended. After a broadcast by `addInternalNotification` with recipient all, made
while at least one account with role user exists, an account created next (by `createAccount`
with role user, or by a confirmed `approveRequest`) has a notification addressed to it with
the type, title, message and timestamp of the broadcast, provided every global notification
stored before the broadcast that has the same key title-message-timestamp also has these four
fields. -/
theorem broadcast_reaches_later_account (s : State) (type title message : String)
    (now : Nat → String)
    (hrecv : ∃ u ∈ s.users, u.role = "user")
    (hkey : ∀ m ∈ s.notifications, m.isGlobal = some true →
      notifKey m = title ++ "-" ++ message ++ "-" ++ now 0 →
      m.type = type ∧ m.title = title ∧ m.message = message ∧ m.timestamp = now 0) :
    (∀ (username robloxName password : String) (nowMs : Nat),
        username ≠ "" → robloxName ≠ "" → (∀ u ∈ s.users, u.username ≠ username) →
        ∃ n ∈ (createAccount (addInternalNotification s "all" type title message now)
            username robloxName "user" password nowMs).notifications,
          n.recipient = username ∧ n.type = type ∧ n.title = title ∧ n.message = message
            ∧ n.timestamp = now 0)
      ∧ (∀ (requestId : Nat) (acceptedAt logTime : String) (request : AccountRequest),
        s.accountRequests.find? (fun r => r.id == requestId) = some request →
        (∀ u ∈ s.users, u.username ≠ request.username) →
        ∃ n ∈ (approveRequest (addInternalNotification s "all" type title message now)
            requestId true acceptedAt logTime).notifications,
          n.recipient = request.username ∧ n.type = type ∧ n.title = title
            ∧ n.message = message ∧ n.timestamp = now 0) := by
  have husers : (addInternalNotification s "all" type title message now).users = s.users := by
    simp [addInternalNotification]
  have hreqs : (addInternalNotification s "all" type title message now).accountRequests
      = s.accountRequests := by
    simp [addInternalNotification]
  constructor
  · intro username robloxName password nowMs hname hroblox hfree
    obtain ⟨n, hn, hfields⟩ :=
      broadcast_then_backfill s type title message username now hrecv hkey
    rw [createAccount_user_notifications _ username robloxName password nowMs hname hroblox
      (by rw [husers]; exact hfree)]
    exact ⟨n, List.mem_append_right _ hn, hfields⟩
  · intro requestId acceptedAt logTime request hreq hfree
    obtain ⟨n, hn, hfields⟩ :=
      broadcast_then_backfill s type title message request.username now hrecv hkey
    rw [approveRequest_notifications _ requestId acceptedAt logTime request
      (by rw [hreqs]; exact hreq) (by rw [husers]; exact hfree)]
    exact ⟨n, List.mem_append_right _ hn, hfields⟩

theorem broadcast_reaches_later_account_witness :
    ∃ n ∈ (createAccount
        (addInternalNotification sampleState "all" "info" "Aviso" "Mantenimiento"
          (fun _ => "6/11/2026, 11:00:00"))
        "bob" "bob_rbx" "user" "1234" 1).notifications,
      n.recipient = "bob" ∧ n.type = "info" ∧ n.title = "Aviso" ∧ n.message = "Mantenimiento"
        ∧ n.timestamp = "6/11/2026, 11:00:00" :=
  (broadcast_reaches_later_account sampleState "info" "Aviso" "Mantenimiento"
    (fun _ => "6/11/2026, 11:00:00") ⟨sampleUser "ana", by decide, by decide⟩
    (by decide)).1 "bob" "bob_rbx" "1234" 1 (by decide) (by decide) (by decide)

/-! ## Properties: suggestions -/

theorem addLog_suggestions (s : State) (type message now : String) :
    (addLog s type message now).suggestions = s.suggestions := rfl

theorem addInternalNotification_suggestions (s : State)
    (recipient type title message : String) (now : Nat → String) :
    (addInternalNotification s recipient type title message now).suggestions
      = s.suggestions := by
  unfold addInternalNotification
  split <;> rfl

theorem notifyAdmins_suggestions (type title message : String) (clock : Nat → String) :
    ∀ (admins : List User) (s : State) (i : Nat),
      (notifyAdmins type title message clock s i admins).suggestions = s.suggestions := by
  intro admins
  induction admins with
  | nil => intro s i; rfl
  | cons admin rest ih =>
    intro s i
    rw [notifyAdmins, ih, addInternalNotification_suggestions]

theorem updateFirst_of_find?_none {α : Type} (p : α → Bool) (f : α → α) :
    ∀ l : List α, l.find? p = none → updateFirst p f l = l := by
  intro l
  induction l with
  | nil => intro _; rfl
  | cons a l ih =>
    intro h
    by_cases ha : p a = true
    · rw [List.find?_cons_of_pos _ ha] at h
      cases h
    · rw [List.find?_cons_of_neg _ ha] at h
      simp only [updateFirst, ha, if_false, ih h, Bool.false_eq_true]

theorem submitSuggestion_suggestions (s : State) (category title description : String)
    (nowMs : Nat) (timestamp logTime : String) (clock : Nat → String) (current : User)
    (hcur : s.currentUser = some current) (htitle : title ≠ "") (hdesc : description ≠ "") :
    (submitSuggestion s category title description nowMs timestamp logTime clock).suggestions
      = { id := nowMs, user := current.username, category := category, title := title,
          description := description, timestamp := timestamp, status := none }
          :: s.suggestions := by
  simp only [submitSuggestion, htitle, hdesc, or_self, if_false, hcur,
    notifyAdmins_suggestions, addLog_suggestions]

theorem acceptSuggestion_suggestions (s : State) (suggestionId : Nat)
    (notifTime logTime : String) :
    (acceptSuggestion s suggestionId notifTime logTime).suggestions
      = updateFirst (fun x => x.id == suggestionId)
          (fun x => { x with status := some "accepted" }) s.suggestions := by
  unfold acceptSuggestion
  split
  · rename_i hnone
    exact (updateFirst_of_find?_none _ _ _ hnone).symm
  · rw [addLog_suggestions, addInternalNotification_suggestions]

theorem rejectSuggestion_suggestions (s : State) (suggestionId : Nat) (logTime : String) :
    (rejectSuggestion s suggestionId logTime).suggestions
      = updateFirst (fun x => x.id == suggestionId)
          (fun x => { x with status := some "rejected" }) s.suggestions := by
  unfold rejectSuggestion
  split
  · rename_i hnone
    exact (updateFirst_of_find?_none _ _ _ hnone).symm
  · rw [addLog_suggestions]

/-- Claim C21, refuted as stated. The record `submitSuggestion` stores for ana (id 99) has no
status at all, so its status is not the text pending; the views show it as pending because they
show every record that is neither accepted nor rejected that way. -/
theorem submitSuggestion_no_status_counterexample :
    (submitSuggestion anaSessionState "gameplay" "Más mapas" "Un mapa nocturno" 99
        "6/11/2026, 11:00:00" "6/11/2026, 11:00:01" (fun _ => "6/11/2026, 11:00:02")).suggestions
        = { id := 99, user := "ana", category := "gameplay", title := "Más mapas",
            description := "Un mapa nocturno", timestamp := "6/11/2026, 11:00:00",
            status := none } :: anaSessionState.suggestions
      ∧ ((submitSuggestion anaSessionState "gameplay" "Más mapas" "Un mapa nocturno" 99
          "6/11/2026, 11:00:00" "6/11/2026, 11:00:01"
          (fun _ => "6/11/2026, 11:00:02")).suggestions.head?.map (fun x => x.status))
        ≠ some (some "pending") := by
  decide

/-- Claim C21, amended. A record created by `submitSuggestion` (title and description filled
in, a user logged in) is put first and carries no status, which the views show as pending;
`acceptSuggestion` and `rejectSuggestion` set the status of the first suggestion with the given
id to accepted and rejected, leaving every other suggestion unchanged, and change nothing when
no suggestion has the id.  So if every stored record has no status or one of accepted and
rejected, that still holds after each of the three handlers. -/
theorem suggestion_status_rule :
    (∀ (s : State) (category title description : String) (nowMs : Nat)
        (timestamp logTime : String) (clock : Nat → String) (current : User),
        s.currentUser = some current → title ≠ "" → description ≠ "" →
        (submitSuggestion s category title description nowMs timestamp logTime
            clock).suggestions
          = { id := nowMs, user := current.username, category := category, title := title,
              description := description, timestamp := timestamp, status := none }
              :: s.suggestions)
      ∧ (∀ x : Suggestion, x.status = none → shownStatus x = "PENDIENTE")
      ∧ (∀ (s : State) (suggestionId : Nat) (notifTime logTime : String)
          (target : Suggestion),
          s.suggestions.find? (fun x => x.id == suggestionId) = some target →
          ∃ pre post, s.suggestions = pre ++ target :: post
            ∧ (∀ x ∈ pre, x.id ≠ suggestionId) ∧ target.id = suggestionId
            ∧ (acceptSuggestion s suggestionId notifTime logTime).suggestions
              = pre ++ { target with status := some "accepted" } :: post)
      ∧ (∀ (s : State) (suggestionId : Nat) (logTime : String) (target : Suggestion),
          s.suggestions.find? (fun x => x.id == suggestionId) = some target →
          ∃ pre post, s.suggestions = pre ++ target :: post
            ∧ (∀ x ∈ pre, x.id ≠ suggestionId) ∧ target.id = suggestionId
            ∧ (rejectSuggestion s suggestionId logTime).suggestions
              = pre ++ { target with status := some "rejected" } :: post)
      ∧ (∀ (s : State) (suggestionId : Nat) (notifTime logTime : String),
          (∀ x ∈ s.suggestions, x.id ≠ suggestionId) →
          acceptSuggestion s suggestionId notifTime logTime = s
            ∧ rejectSuggestion s suggestionId logTime = s)
      ∧ (∀ (s : State) (category title description : String) (nowMs suggestionId : Nat)
          (timestamp notifTime logTime : String) (clock : Nat → String),
          (∀ x ∈ s.suggestions,
            x.status = none ∨ x.status = some "accepted" ∨ x.status = some "rejected") →
          (∀ x ∈ (submitSuggestion s category title description nowMs timestamp logTime
              clock).suggestions,
            x.status = none ∨ x.status = some "accepted" ∨ x.status = some "rejected")
          ∧ (∀ x ∈ (acceptSuggestion s suggestionId notifTime logTime).suggestions,
            x.status = none ∨ x.status = some "accepted" ∨ x.status = some "rejected")
          ∧ (∀ x ∈ (rejectSuggestion s suggestionId logTime).suggestions,
            x.status = none ∨ x.status = some "accepted" ∨ x.status = some "rejected")) := by
  have hupdate : ∀ (status : String) (k : Nat) (l : List Suggestion),
      (∀ x ∈ l, x.status = none ∨ x.status = some "accepted" ∨ x.status = some "rejected") →
      (status = "accepted" ∨ status = "rejected") →
      ∀ x ∈ updateFirst (fun x => x.id == k) (fun x => { x with status := some status }) l,
        x.status = none ∨ x.status = some "accepted" ∨ x.status = some "rejected" := by
    intro status k l
    induction l with
    | nil => intro _ _ x hx; cases hx
    | cons a l ih =>
      intro hall hstatus x hx
      by_cases ha : (a.id == k) = true
      · simp only [updateFirst, ha, if_true] at hx
        rcases List.mem_cons.mp hx with h | h
        · rw [h]
          rcases hstatus with h2 | h2
          · exact Or.inr (Or.inl (by rw [h2]))
          · exact Or.inr (Or.inr (by rw [h2]))
        · exact hall x (List.mem_cons_of_mem _ h)
      · simp only [updateFirst, ha, if_false, Bool.false_eq_true] at hx
        rcases List.mem_cons.mp hx with h | h
        · rw [h]
          exact hall a (List.mem_cons_self _ _)
        · exact ih (fun y hy => hall y (List.mem_cons_of_mem _ hy)) hstatus x h
  have hfound : ∀ (l : List Suggestion) (k : Nat) (target : Suggestion),
      l.find? (fun x => x.id == k) = some target → target.id = k := by
    intro l k target h
    have := List.find?_some h
    simpa using this
  refine ⟨?_, ?_, ?_, ?_, ?_, ?_⟩
  · intro s category title description nowMs timestamp logTime clock current hcur ht hd
    exact submitSuggestion_suggestions s category title description nowMs timestamp logTime
      clock current hcur ht hd
  · intro x hx
    simp [shownStatus, hx]
  · intro s suggestionId notifTime logTime target hfind
    obtain ⟨pre, post, hl, hpre, hu⟩ := updateFirst_of_find?
      (fun x : Suggestion => x.id == suggestionId)
      (fun x => { x with status := some "accepted" }) s.suggestions target hfind
    refine ⟨pre, post, hl, ?_, hfound _ _ _ hfind, ?_⟩
    · intro x hx
      simpa using hpre x hx
    · rw [acceptSuggestion_suggestions, hu]
  · intro s suggestionId logTime target hfind
    obtain ⟨pre, post, hl, hpre, hu⟩ := updateFirst_of_find?
      (fun x : Suggestion => x.id == suggestionId)
      (fun x => { x with status := some "rejected" }) s.suggestions target hfind
    refine ⟨pre, post, hl, ?_, hfound _ _ _ hfind, ?_⟩
    · intro x hx
      simpa using hpre x hx
    · rw [rejectSuggestion_suggestions, hu]
  · intro s suggestionId notifTime logTime hnone
    have hfind : s.suggestions.find? (fun x => x.id == suggestionId) = none := by
      apply List.find?_eq_none.mpr
      intro x hx
      simpa using hnone x hx
    constructor
    · simp [acceptSuggestion, hfind]
    · simp [rejectSuggestion, hfind]
  · intro s category title description nowMs suggestionId timestamp notifTime logTime clock
      hall
    refine ⟨?_, ?_, ?_⟩
    · intro x hx
      unfold submitSuggestion at hx
      split at hx
      · exact hall x hx
      · split at hx
        · exact hall x hx
        · rw [notifyAdmins_suggestions, addLog_suggestions] at hx
          rcases List.mem_cons.mp hx with h | h
          · rw [h]
            exact Or.inl rfl
          · exact hall x h
    · rw [acceptSuggestion_suggestions]
      exact hupdate "accepted" suggestionId s.suggestions hall (Or.inl rfl)
    · rw [rejectSuggestion_suggestions]
      exact hupdate "rejected" suggestionId s.suggestions hall (Or.inr rfl)

theorem suggestion_status_rule_witness :
    (acceptSuggestion anaSessionState 4 "6/11/2026, 11:00:00"
        "6/11/2026, 11:00:01").suggestions
        = [sampleSuggestion 3 "ana", { sampleSuggestion 4 "bob" with status := some "accepted" }]
      ∧ ∃ pre post, anaSessionState.suggestions = pre ++ sampleSuggestion 3 "ana" :: post
        ∧ (∀ x ∈ pre, x.id ≠ 3) ∧ (sampleSuggestion 3 "ana").id = 3
        ∧ (rejectSuggestion anaSessionState 3 "6/11/2026, 11:00:01").suggestions
          = pre ++ { sampleSuggestion 3 "ana" with status := some "rejected" } :: post :=
  ⟨by decide,
    suggestion_status_rule.2.2.2.1 anaSessionState 3 "6/11/2026, 11:00:01"
      (sampleSuggestion 3 "ana") (by decide)⟩

/-! ## Properties: rounding to a double -/

set_option exponentiation.threshold 4000

theorem excessBits_spec : ∀ (fuel n : Nat), n ≤ fuel →
    n < 2 ^ (53 + excessBits fuel n)
      ∧ (0 < excessBits fuel n → 2 ^ (52 + excessBits fuel n) ≤ n) := by
  intro fuel
  induction fuel with
  | zero =>
    intro n hn
    have h0 : n = 0 := by omega
    subst h0
    simp [excessBits]
  | succ fuel ih =>
    intro n hn
    by_cases hsmall : n < 2 ^ 53
    · have hstep : excessBits (fuel + 1) n = 0 := by
        rw [excessBits]
        exact if_pos hsmall
      rw [hstep]
      exact ⟨hsmall, fun h => absurd h (Nat.lt_irrefl 0)⟩
    · have hhalf : n / 2 ≤ fuel := by
        have : 2 ≤ n := by
          have : (2 : Nat) ≤ 2 ^ 53 := by decide
          omega
        omega
      obtain ⟨hup, hlow⟩ := ih (n / 2) hhalf
      have hstep : excessBits (fuel + 1) n = excessBits fuel (n / 2) + 1 := by
        rw [excessBits]
        exact if_neg hsmall
      rw [hstep]
      have e1 : 2 ^ (53 + (excessBits fuel (n / 2) + 1))
          = 2 * 2 ^ (53 + excessBits fuel (n / 2)) := by
        rw [← Nat.add_assoc, Nat.pow_succ, Nat.mul_comm]
      have e2 : 2 ^ (52 + (excessBits fuel (n / 2) + 1))
          = 2 * 2 ^ (52 + excessBits fuel (n / 2)) := by
        rw [← Nat.add_assoc, Nat.pow_succ, Nat.mul_comm]
      rw [e1, e2]
      refine ⟨by omega, fun _ => ?_⟩
      by_cases hz : excessBits fuel (n / 2) = 0
      · rw [hz]
        have : (2 : Nat) * 2 ^ (52 + 0) = 2 ^ 53 := by decide
        omega
      · have := hlow (by omega)
        omega

theorem excessBits_unique (n k : Nat) (hk : 0 < k) (hlow : 2 ^ (52 + k) ≤ n)
    (hup : n < 2 ^ (53 + k)) : excessBits n n = k := by
  obtain ⟨h1, h2⟩ := excessBits_spec n n (le_refl n)
  by_contra hne
  rcases Nat.lt_or_gt_of_ne hne with hlt | hgt
  · have : 2 ^ (53 + excessBits n n) ≤ 2 ^ (52 + k) :=
      Nat.pow_le_pow_right (by decide) (by omega)
    omega
  · have h3 := h2 (by omega)
    have : 2 ^ (53 + k) ≤ 2 ^ (52 + excessBits n n) :=
      Nat.pow_le_pow_right (by decide) (by omega)
    omega

theorem excessBits_mono (a b : Nat) (h : a ≤ b) : excessBits a a ≤ excessBits b b := by
  obtain ⟨_, ha⟩ := excessBits_spec a a (le_refl a)
  obtain ⟨hb, _⟩ := excessBits_spec b b (le_refl b)
  by_contra hlt
  have h1 := ha (by omega)
  have : 2 ^ (53 + excessBits b b) ≤ 2 ^ (52 + excessBits a a) :=
    Nat.pow_le_pow_right (by decide) (by omega)
  omega

theorem roundDouble_small (n : Nat) (h : n < 2 ^ 53) : roundDouble n = n := by
  obtain ⟨_, h2⟩ := excessBits_spec n n (le_refl n)
  have hz : excessBits n n = 0 := by
    by_contra hne
    have h3 := h2 (by omega)
    have : 2 ^ 53 ≤ 2 ^ (52 + excessBits n n) := Nat.pow_le_pow_right (by decide) (by omega)
    omega
  simp [roundDouble, hz]

/-- The two candidates of the rounding: with `P = 2 ^ shift`, the result is `n / P * P` when
the rest is below half of `P` (or equal to it with an even quotient), else `n / P * P + P`. -/
theorem roundDouble_cases (n : Nat) (hs : 0 < excessBits n n) :
    2 ^ excessBits n n = 2 * 2 ^ (excessBits n n - 1)
      ∧ ((roundDouble n = n / 2 ^ excessBits n n * 2 ^ excessBits n n
          ∧ (n % 2 ^ excessBits n n < 2 ^ (excessBits n n - 1)
            ∨ (n % 2 ^ excessBits n n = 2 ^ (excessBits n n - 1)
              ∧ n / 2 ^ excessBits n n % 2 = 0)))
        ∨ (roundDouble n = n / 2 ^ excessBits n n * 2 ^ excessBits n n + 2 ^ excessBits n n
          ∧ ¬ (n % 2 ^ excessBits n n < 2 ^ (excessBits n n - 1)
            ∨ (n % 2 ^ excessBits n n = 2 ^ (excessBits n n - 1)
              ∧ n / 2 ^ excessBits n n % 2 = 0)))) := by
  have hpow : 2 ^ excessBits n n = 2 * 2 ^ (excessBits n n - 1) := by
    obtain ⟨k, hk⟩ : ∃ k, excessBits n n = k + 1 := ⟨excessBits n n - 1, by omega⟩
    rw [hk, Nat.add_sub_cancel, Nat.pow_succ, Nat.mul_comm]
  refine ⟨hpow, ?_⟩
  have hne : excessBits n n ≠ 0 := by omega
  by_cases hdown : n % 2 ^ excessBits n n < 2 ^ (excessBits n n - 1)
      ∨ (n % 2 ^ excessBits n n = 2 ^ (excessBits n n - 1) ∧ n / 2 ^ excessBits n n % 2 = 0)
  · left
    refine ⟨?_, hdown⟩
    simp only [roundDouble, hne, if_false, hdown, if_true]
  · right
    refine ⟨?_, hdown⟩
    simp only [roundDouble, hne, if_false, hdown, Nat.add_mul, Nat.one_mul]

theorem roundDouble_upper (n : Nat) : roundDouble n ≤ 2 ^ (53 + excessBits n n) := by
  obtain ⟨hup, _⟩ := excessBits_spec n n (le_refl n)
  by_cases hs : 0 < excessBits n n
  · obtain ⟨_, hcase⟩ := roundDouble_cases n hs
    have hq : n / 2 ^ excessBits n n < 2 ^ 53 := by
      rw [Nat.div_lt_iff_lt_mul (Nat.two_pow_pos _), ← Nat.pow_add]
      exact hup
    have hle : (n / 2 ^ excessBits n n + 1) * 2 ^ excessBits n n
        ≤ 2 ^ 53 * 2 ^ excessBits n n := Nat.mul_le_mul_right _ hq
    rw [← Nat.pow_add, Nat.add_mul, Nat.one_mul] at hle
    rcases hcase with ⟨h, _⟩ | ⟨h, _⟩ <;> omega
  · have hz : excessBits n n = 0 := by omega
    have : roundDouble n = n := by simp [roundDouble, hz]
    omega

theorem roundDouble_lower (n : Nat) (hs : 0 < excessBits n n) :
    2 ^ (52 + excessBits n n) ≤ roundDouble n := by
  obtain ⟨_, hlow⟩ := excessBits_spec n n (le_refl n)
  obtain ⟨_, hcase⟩ := roundDouble_cases n hs
  have hq : 2 ^ 52 ≤ n / 2 ^ excessBits n n := by
    rw [Nat.le_div_iff_mul_le (Nat.two_pow_pos _), ← Nat.pow_add]
    exact hlow hs
  have hle : 2 ^ 52 * 2 ^ excessBits n n ≤ n / 2 ^ excessBits n n * 2 ^ excessBits n n :=
    Nat.mul_le_mul_right _ hq
  rw [← Nat.pow_add] at hle
  rcases hcase with ⟨h, _⟩ | ⟨h, _⟩ <;> omega

/-- Rounding to the nearest double is monotone. -/
theorem roundDouble_mono (a b : Nat) (h : a ≤ b) : roundDouble a ≤ roundDouble b := by
  have hshift := excessBits_mono a b h
  rcases Nat.lt_or_eq_of_le hshift with hlt | heq
  · have h1 := roundDouble_upper a
    have h2 := roundDouble_lower b (by omega)
    have : 2 ^ (53 + excessBits a a) ≤ 2 ^ (52 + excessBits b b) :=
      Nat.pow_le_pow_right (by decide) (by omega)
    omega
  · by_cases hs : 0 < excessBits a a
    · obtain ⟨hpa, hca⟩ := roundDouble_cases a hs
      obtain ⟨hpb, hcb⟩ := roundDouble_cases b (by omega)
      rw [← heq] at hpb hcb
      have hquot : a / 2 ^ excessBits a a ≤ b / 2 ^ excessBits a a :=
        Nat.div_le_div_right h
      have hda := Nat.div_add_mod a (2 ^ excessBits a a)
      have hdb := Nat.div_add_mod b (2 ^ excessBits a a)
      rw [Nat.mul_comm] at hda hdb
      rcases Nat.lt_or_eq_of_le hquot with hql | hqe
      · have hmul : (a / 2 ^ excessBits a a + 1) * 2 ^ excessBits a a
            ≤ b / 2 ^ excessBits a a * 2 ^ excessBits a a := Nat.mul_le_mul_right _ hql
        rw [Nat.add_mul, Nat.one_mul] at hmul
        rcases hca with ⟨ha, _⟩ | ⟨ha, _⟩ <;> rcases hcb with ⟨hb, _⟩ | ⟨hb, _⟩ <;> omega
      · rw [← hqe] at hdb hcb
        rcases hca with ⟨ha, hxa⟩ | ⟨ha, hxa⟩ <;> rcases hcb with ⟨hb, hxb⟩ | ⟨hb, hxb⟩ <;>
          omega
    · have hza : excessBits a a = 0 := by omega
      have hzb : excessBits b b = 0 := by omega
      have ha : roundDouble a = a := by simp [roundDouble, hza]
      have hb : roundDouble b = b := by simp [roundDouble, hzb]
      omega

/-- A double below 1 is at most the largest double below 1. -/
theorem draw_le_largest (draw : Nat) (hdouble : roundDouble draw = draw)
    (hlt : draw < 2 ^ 1074) : draw ≤ largestDraw := by
  unfold largestDraw
  by_contra hgt
  have hk : excessBits draw draw = 1021 :=
    excessBits_unique draw 1021 (by decide) (by norm_num; omega) (by norm_num; omega)
  obtain ⟨_, hcase⟩ := roundDouble_cases draw (by omega)
  rw [hk] at hcase
  have hd := Nat.div_add_mod draw (2 ^ 1021)
  have hr := Nat.mod_lt draw (show 0 < 2 ^ 1021 by decide)
  rcases hcase with ⟨h, _⟩ | ⟨h, _⟩ <;> omega

/-! ## Properties: randomDelay and generateRandomPassword -/

theorem digitChar_isDigit (d : Nat) (h : d < 10) :
    decide ('0' ≤ Nat.digitChar d ∧ Nat.digitChar d ≤ '9') = true := by
  interval_cases d <;> decide

theorem toString_four_digits (k : Nat) (hlow : 1000 ≤ k) (hup : k ≤ 9999) :
    (toString k).data = [Nat.digitChar (k / 1000), Nat.digitChar (k / 100 % 10),
      Nat.digitChar (k / 10 % 10), Nat.digitChar (k % 10)] := by
  have hdata : (toString k).data = Nat.toDigits 10 k := rfl
  have h1 : k / 10 / 10 = k / 100 := by omega
  have h2 : k / 100 / 10 = k / 1000 := by omega
  rw [hdata, toDigits_large k (by omega), toDigits_large (k / 10) (by omega), h1,
    toDigits_large (k / 100) (by omega), h2, toDigits_small (k / 1000) (by omega)]
  rfl

theorem isFourDigits_toString (k : Nat) (hlow : 1000 ≤ k) (hup : k ≤ 9999) :
    isFourDigits (toString k) = true := by
  simp only [isFourDigits, toString_four_digits k hlow hup, List.length_cons,
    List.length_nil, List.all_cons, List.all_nil,
    digitChar_isDigit (k / 1000) (by omega), digitChar_isDigit (k / 100 % 10) (by omega),
    digitChar_isDigit (k / 10 % 10) (by omega), digitChar_isDigit (k % 10) (by omega)]
  rfl

theorem createAccount_added (s : State) (username robloxName role password : String)
    (nowMs : Nat) :
    (createAccount s username robloxName role password nowMs).users = s.users
      ∨ ∃ added : User, added.username = username ∧ added.plainPassword = password
          ∧ added.password = hashPassword password
          ∧ (createAccount s username robloxName role password nowMs).users
            = s.users ++ [added] := by
  unfold createAccount
  split
  · exact Or.inl rfl
  · split
    · exact Or.inl rfl
    · right
      let added : User :=
        { username := username, password := hashPassword password, plainPassword := password,
          role := role, robloxName := robloxName, discord := none, isMainAdmin := none }
      refine ⟨added, rfl, rfl, rfl, ?_⟩
      split <;> rfl

/-- Claim C22. For every double `draw` that `Math.random()` can return (at least 0, below 1),
the time computed by `randomDelay`, `Math.floor(draw * (3000 - 1000 + 1)) + 1000` in double
arithmetic, is a whole number of milliseconds from 1000 to 3000. -/
theorem randomDelay_range (draw : Nat) (hdouble : roundDouble draw = draw)
    (hlt : draw < 2 ^ 1074) : 1000 ≤ randomDelay draw ∧ randomDelay draw ≤ 3000 := by
  have hdraw := draw_le_largest draw hdouble hlt
  have hprod : draw * (3000 - 1000 + 1) ≤ largestDraw * (3000 - 1000 + 1) :=
    Nat.mul_le_mul_right _ hdraw
  have hround := roundDouble_mono _ _ hprod
  have htop : roundDouble (largestDraw * (3000 - 1000 + 1)) / 2 ^ 1074 = 2000 := by decide
  have hdiv := Nat.div_le_div_right (c := 2 ^ 1074) hround
  unfold randomDelay
  omega

theorem randomDelay_range_witness :
    (roundDouble (2 ^ 1073) = 2 ^ 1073 ∧ 2 ^ 1073 < 2 ^ 1074)
      ∧ (1000 ≤ randomDelay (2 ^ 1073) ∧ randomDelay (2 ^ 1073) ≤ 3000)
      ∧ randomDelay 0 = 1000 ∧ randomDelay largestDraw = 3000 :=
  ⟨⟨by decide, by decide⟩, randomDelay_range (2 ^ 1073) (by decide) (by decide), by decide,
    by decide⟩

/-- Claim C27. For every double `draw` that `Math.random()` can return (at least 0, below 1),
`generateRandomPassword` returns the decimal text of a whole number from 1000 to 9999, which
passes the test for exactly four decimal digits; so an account appended by `createAccount`
with the drawn password holds that 4-digit text as plain password and its hash as password. -/
theorem generateRandomPassword_four_digits (draw : Nat) (hdouble : roundDouble draw = draw)
    (hlt : draw < 2 ^ 1074) :
    (∃ k, 1000 ≤ k ∧ k ≤ 9999 ∧ generateRandomPassword draw = toString k)
      ∧ isFourDigits (generateRandomPassword draw) = true
      ∧ ∀ (s : State) (username robloxName role : String) (nowMs : Nat),
          (createAccount s username robloxName role (generateRandomPassword draw) nowMs).users
              = s.users
            ∨ ∃ added : User,
                (createAccount s username robloxName role (generateRandomPassword draw)
                    nowMs).users = s.users ++ [added]
                  ∧ added.username = username
                  ∧ added.plainPassword = generateRandomPassword draw
                  ∧ added.password = hashPassword (generateRandomPassword draw)
                  ∧ isFourDigits added.plainPassword = true := by
  have hdraw := draw_le_largest draw hdouble hlt
  have hprod : draw * 9000 ≤ largestDraw * 9000 := Nat.mul_le_mul_right _ hdraw
  have hinner := roundDouble_mono _ _ hprod
  have hsum : 1000 * 2 ^ 1074 + roundDouble (draw * 9000)
      ≤ 1000 * 2 ^ 1074 + roundDouble (largestDraw * 9000) := Nat.add_le_add_left hinner _
  have houter := roundDouble_mono _ _ hsum
  have htop : roundDouble (1000 * 2 ^ 1074 + roundDouble (largestDraw * 9000)) / 2 ^ 1074
      = 9999 := by decide
  have hup := Nat.div_le_div_right (c := 2 ^ 1074) houter
  rw [htop] at hup
  have hbase : 1000 * 2 ^ 1074 ≤ 1000 * 2 ^ 1074 + roundDouble (draw * 9000) :=
    Nat.le_add_right _ _
  have hlower := roundDouble_mono _ _ hbase
  have hbot : roundDouble (1000 * 2 ^ 1074) / 2 ^ 1074 = 1000 := by decide
  have hlow := Nat.div_le_div_right (c := 2 ^ 1074) hlower
  rw [hbot] at hlow
  have hfour : isFourDigits (generateRandomPassword draw) = true :=
    isFourDigits_toString _ hlow hup
  refine ⟨⟨_, hlow, hup, rfl⟩, hfour, ?_⟩
  intro s username robloxName role nowMs
  rcases createAccount_added s username robloxName role (generateRandomPassword draw) nowMs
    with h | ⟨added, h1, h2, h3, h4⟩
  · exact Or.inl h
  · exact Or.inr ⟨added, h4, h1, h2, h3, by rw [h2]; exact hfour⟩

theorem generateRandomPassword_four_digits_witness :
    (roundDouble (2 ^ 1073) = 2 ^ 1073 ∧ 2 ^ 1073 < 2 ^ 1074)
      ∧ isFourDigits (generateRandomPassword (2 ^ 1073)) = true
      ∧ generateRandomPassword (2 ^ 1073) = "5500"
      ∧ generateRandomPassword 0 = "1000" ∧ generateRandomPassword largestDraw = "9999" :=
  ⟨⟨by decide, by decide⟩,
    (generateRandomPassword_four_digits (2 ^ 1073) (by decide) (by decide)).2.1, by decide,
    by decide, by decide⟩

/-! ## Properties: from a request to a login -/

theorem submitAccountRequest_cases (s : State) (username password robloxName reason : String)
    (nowMs : Nat) (now : String) :
    (submitAccountRequest s username password robloxName reason nowMs now).state = s
      ∨ (isFourDigits password = true ∧ (∀ u ∈ s.users, u.username ≠ username)
        ∧ (submitAccountRequest s username password robloxName reason nowMs now).state
          = { s with accountRequests := s.accountRequests ++
                [{ id := nowMs, username := username, password := hashPassword password,
                   plainPassword := some password, robloxName := robloxName,
                   reason := reason, status := "pending", timestamp := now,
                   acceptedAt := none }] }) := by
  unfold submitAccountRequest
  split
  · exact Or.inl rfl
  · split
    · exact Or.inl rfl
    · split
      · exact Or.inl rfl
      · rename_i hfour
        split
        · exact Or.inl rfl
        · rename_i hnone
          split
          · exact Or.inl rfl
          · right
            refine ⟨by simpa using hfour, ?_, rfl⟩
            intro u hu
            have := List.find?_eq_none.mp hnone u hu
            simpa using this

theorem loginCheck_appended (users : List User) (created : User) (password : String)
    (hfree : ∀ u ∈ users, u.username ≠ created.username)
    (hhash : created.password = hashPassword password) :
    loginCheck (users ++ [created]) created.username password = some created := by
  unfold loginCheck
  rw [List.find?_append]
  have hnone : users.find?
      (fun u => u.username == created.username && u.password == hashPassword password)
      = none := by
    apply List.find?_eq_none.mpr
    intro u hu
    simp [hfree u hu]
  rw [hnone]
  simp [hhash]

theorem login_currentUser (s : State) (username password logTime : String) (user : User)
    (h : loginCheck s.users username password = some user) :
    (login s username password logTime).currentUser = some user := by
  unfold login
  rw [h]
  dsimp only
  split <;> rfl

theorem approveRequest_then_login (s : State) (requestId : Nat)
    (acceptedAt logTime : String) (request : AccountRequest) (password : String)
    (hreq : s.accountRequests.find? (fun r => r.id == requestId) = some request)
    (hhash : request.password = hashPassword password)
    (hfree : ∀ u ∈ s.users, u.username ≠ request.username) :
    ∃ created : User,
      (approveRequest s requestId true acceptedAt logTime).users = s.users ++ [created]
        ∧ created.username = request.username
        ∧ created.password = hashPassword password
        ∧ loginCheck (approveRequest s requestId true acceptedAt logTime).users
            request.username password = some created
        ∧ ∀ loginTime, (login (approveRequest s requestId true acceptedAt logTime)
            request.username password loginTime).currentUser = some created := by
  let created : User :=
    { username := request.username, password := request.password,
      plainPassword := orElseText request.plainPassword "****", role := "user",
      robloxName := request.robloxName, discord := none, isMainAdmin := none }
  have husers : (approveRequest s requestId true acceptedAt logTime).users
      = s.users ++ [created] := by
    rw [approveRequest_success s requestId acceptedAt logTime request hreq hfree]
    rfl
  have hcheck : loginCheck (approveRequest s requestId true acceptedAt logTime).users
      request.username password = some created := by
    rw [husers]
    exact loginCheck_appended s.users created password hfree hhash
  exact ⟨created, husers, rfl, hhash, hcheck,
    fun loginTime => login_currentUser _ _ _ _ _ hcheck⟩

/-- Claim C23. If a submission of `submitAccountRequest` for username u and password p is
accepted (a request is stored), the stored request holds `hashPassword(p)`, and p has four
digits.  Whenever a request holding `hashPassword(p)` is approved (found by its id, username
free), the user record created holds `hashPassword(p)` and the search of `login` for the
username and p returns that record, which `login` makes the current user.  In particular this
holds when the stored request is approved right after the submission and no other request
carries its id. -/
theorem request_then_login :
    (∀ (s : State) (username password robloxName reason : String) (nowMs : Nat)
        (now : String),
        (submitAccountRequest s username password robloxName reason nowMs
            now).state.accountRequests ≠ s.accountRequests →
        isFourDigits password = true
          ∧ ∃ stored : AccountRequest,
              (submitAccountRequest s username password robloxName reason nowMs
                  now).state.accountRequests = s.accountRequests ++ [stored]
                ∧ stored.id = nowMs ∧ stored.username = username
                ∧ stored.password = hashPassword password)
      ∧ (∀ (s : State) (requestId : Nat) (acceptedAt logTime : String)
          (request : AccountRequest) (password : String),
          s.accountRequests.find? (fun r => r.id == requestId) = some request →
          request.password = hashPassword password →
          (∀ u ∈ s.users, u.username ≠ request.username) →
          ∃ created : User,
            (approveRequest s requestId true acceptedAt logTime).users = s.users ++ [created]
              ∧ created.username = request.username
              ∧ created.password = hashPassword password
              ∧ loginCheck (approveRequest s requestId true acceptedAt logTime).users
                  request.username password = some created
              ∧ ∀ loginTime, (login (approveRequest s requestId true acceptedAt logTime)
                  request.username password loginTime).currentUser = some created)
      ∧ (∀ (s : State) (username password robloxName reason : String) (nowMs : Nat)
          (now acceptedAt logTime : String),
          (submitAccountRequest s username password robloxName reason nowMs
              now).state.accountRequests ≠ s.accountRequests →
          (∀ r ∈ s.accountRequests, r.id ≠ nowMs) →
          ∃ created : User,
            created ∈ (approveRequest
                (submitAccountRequest s username password robloxName reason nowMs now).state
                nowMs true acceptedAt logTime).users
              ∧ created.username = username
              ∧ created.password = hashPassword password
              ∧ loginCheck (approveRequest
                  (submitAccountRequest s username password robloxName reason nowMs
                    now).state nowMs true acceptedAt logTime).users username password
                = some created
              ∧ ∀ loginTime, (login (approveRequest
                  (submitAccountRequest s username password robloxName reason nowMs
                    now).state nowMs true acceptedAt logTime)
                  username password loginTime).currentUser = some created) := by
  refine ⟨?_, ?_, ?_⟩
  · intro s username password robloxName reason nowMs now hchanged
    rcases submitAccountRequest_cases s username password robloxName reason nowMs now
      with h | ⟨hfour, _, h⟩
    · rw [h] at hchanged
      exact absurd rfl hchanged
    · rw [h]
      exact ⟨hfour, _, rfl, rfl, rfl, rfl⟩
  · intro s requestId acceptedAt logTime request password hreq hhash hfree
    exact approveRequest_then_login s requestId acceptedAt logTime request password hreq
      hhash hfree
  · intro s username password robloxName reason nowMs now acceptedAt logTime hchanged hfresh
    rcases submitAccountRequest_cases s username password robloxName reason nowMs now
      with h | ⟨_, hfree, h⟩
    · rw [h] at hchanged
      exact absurd rfl hchanged
    · rw [h]
      have hnone : s.accountRequests.find? (fun r => r.id == nowMs) = none := by
        apply List.find?_eq_none.mpr
        intro r hr
        simpa using hfresh r hr
      obtain ⟨created, husers, hname, hpw, hcheck, hlogin⟩ :=
        approveRequest_then_login
          { s with accountRequests := s.accountRequests ++
              [{ id := nowMs, username := username, password := hashPassword password,
                 plainPassword := some password, robloxName := robloxName,
                 reason := reason, status := "pending", timestamp := now,
                 acceptedAt := none }] }
          nowMs acceptedAt logTime
          { id := nowMs, username := username, password := hashPassword password,
            plainPassword := some password, robloxName := robloxName,
            reason := reason, status := "pending", timestamp := now,
            acceptedAt := none }
          password (by simp [List.find?_append, hnone]) rfl hfree
      refine ⟨created, ?_, hname, hpw, hcheck, hlogin⟩
      rw [husers]
      exact List.mem_append_right _ (List.mem_singleton_self _)

theorem request_then_login_witness :
    ∃ created : User,
      created ∈ (approveRequest
          (submitAccountRequest sampleState "carl" "1234" "carl_rbx" "beta" 9 "t").state
          9 true "t1" "t2").users
        ∧ created.username = "carl"
        ∧ created.password = hashPassword "1234"
        ∧ loginCheck (approveRequest
            (submitAccountRequest sampleState "carl" "1234" "carl_rbx" "beta" 9 "t").state
            9 true "t1" "t2").users "carl" "1234" = some created
        ∧ ∀ loginTime, (login (approveRequest
            (submitAccountRequest sampleState "carl" "1234" "carl_rbx" "beta" 9 "t").state
            9 true "t1" "t2") "carl" "1234" loginTime).currentUser = some created :=
  request_then_login.2.2 sampleState "carl" "1234" "carl_rbx" "beta" 9 "t" "t1" "t2"
    (by decide) (by decide)

/-! ## Properties: changePassword and the users collection -/

theorem passwordAllowed_ne_empty (flag : Bool) (password : String)
    (h : passwordAllowed flag password = true) : password ≠ "" := by
  intro hempty
  rw [hempty] at h
  cases flag <;> exact absurd h (by decide)

theorem changePassword_users_cases (s : State)
    (currentPassword newPassword confirmPassword : String) (nowMs : Nat) :
    (changePassword s currentPassword newPassword confirmPassword nowMs).users = s.users
      ∨ (currentPassword ≠ "" ∧ newPassword = confirmPassword
        ∧ ∃ current user, s.currentUser = some current
          ∧ s.users.find? (fun u => u.username == current.username) = some user
          ∧ user.password = hashPassword currentPassword
          ∧ passwordAllowed (current.isMainAdmin == some true) newPassword = true) := by
  unfold changePassword
  split
  · exact Or.inl rfl
  · rename_i hfields
    split
    · exact Or.inl rfl
    · rename_i current hcur
      dsimp only
      split
      · exact Or.inl rfl
      · rename_i hallowed
        split
        · exact Or.inl rfl
        · rename_i hconfirm
          split
          · exact Or.inl rfl
          · rename_i user hfind
            split
            · exact Or.inl rfl
            · rename_i hhash
              right
              refine ⟨?_, by simpa using hconfirm, current, user, hcur, hfind,
                by simpa using hhash, by simpa using hallowed⟩
              intro h
              exact hfields (Or.inl h)

/-- Claim C24, refuted as stated. The stored hash of ana is `hashPassword('')`; with an empty
current password, the new password 1234 and the same confirmation, the hash of the current
password equals the stored hash and the new password is valid and confirmed, yet the first
check (all fields filled in) ends the handler and the record is not changed. -/
theorem changePassword_empty_current_counterexample :
    emptyHashState.currentUser.map (fun u => u.username) = some "ana"
      ∧ (emptyHashState.users.find? (fun u => u.username == "ana")).map (fun u => u.password)
        = some (hashPassword "")
      ∧ passwordAllowed false "1234" = true
      ∧ changePassword emptyHashState "" "1234" "1234" 0 = emptyHashState
      ∧ ∀ u ∈ (changePassword emptyHashState "" "1234" "1234" 0).users,
          u.password ≠ hashPassword "1234" := by
  decide

/-- Claim C24, amended. `changePassword` changes the users collection only when the current
password is not empty, its hash equals the stored hash of the current user (the first record
with the username), and the new password passes the format test and equals its confirmation;
whenever all of that holds, the only record changed is that one: its hash becomes
`hashPassword(newPassword)` and its plain copy `newPassword`. -/
theorem changePassword_users_rule (s : State)
    (currentPassword newPassword confirmPassword : String) (nowMs : Nat) :
    ((changePassword s currentPassword newPassword confirmPassword nowMs).users = s.users
      ∨ (currentPassword ≠ "" ∧ newPassword = confirmPassword
        ∧ ∃ current user, s.currentUser = some current
          ∧ s.users.find? (fun u => u.username == current.username) = some user
          ∧ user.password = hashPassword currentPassword
          ∧ passwordAllowed (current.isMainAdmin == some true) newPassword = true))
      ∧ ∀ current user, s.currentUser = some current →
          s.users.find? (fun u => u.username == current.username) = some user →
          currentPassword ≠ "" → user.password = hashPassword currentPassword →
          passwordAllowed (current.isMainAdmin == some true) newPassword = true →
          newPassword = confirmPassword →
          ∃ pre post, s.users = pre ++ user :: post
            ∧ (∀ x ∈ pre, x.username ≠ current.username)
            ∧ (changePassword s currentPassword newPassword confirmPassword nowMs).users
              = pre ++ { user with password := hashPassword newPassword,
                                   plainPassword := newPassword } :: post := by
  refine ⟨changePassword_users_cases s currentPassword newPassword confirmPassword nowMs, ?_⟩
  intro current user hcur hfind hc hpw hok hconfirm
  have hn := passwordAllowed_ne_empty _ _ hok
  subst hconfirm
  obtain ⟨pre, post, hl, hpre, hu⟩ := updateFirst_of_find?
    (fun u => u.username == current.username)
    (fun u => { u with password := hashPassword newPassword, plainPassword := newPassword })
    s.users user hfind
  refine ⟨pre, post, hl, ?_, ?_⟩
  · intro x hx
    simpa using hpre x hx
  · rw [← hu]
    simp [changePassword, hc, hn, hcur, hok, hfind, hpw, setTempPassword]

theorem changePassword_users_rule_witness :
    ∃ pre post, oneTesterState.users = pre ++ sampleUser "ana" :: post
      ∧ (∀ x ∈ pre, x.username ≠ "ana")
      ∧ (changePassword { oneTesterState with currentUser := some (sampleUser "ana") }
          "1234" "5678" "5678" 0).users
        = pre ++ { sampleUser "ana" with password := hashPassword "5678",
                                         plainPassword := "5678" } :: post :=
  (changePassword_users_rule { oneTesterState with currentUser := some (sampleUser "ana") }
    "1234" "5678" "5678" 0).2 (sampleUser "ana") (sampleUser "ana") rfl (by decide)
    (by decide) (by decide) (by decide) rfl

/-! ## Properties: the deduplication key, and the length of the log list -/

/-- Claim C25, failing on the code. Two stored broadcasts differ in title and in message
(`a-b` with `c`, and `a` with `b-c`) and carry the same timestamp; their keys are the same
text, so the backfill for bob makes a copy of the first one only. -/
theorem backfill_drops_distinct_broadcast :
    sameKeyState.notifications.map (fun n => (n.title, n.message, n.isGlobal))
        = [("a-b", "c", some true), ("a", "b-c", some true)]
      ∧ sameKeyState.notifications.map notifKey
        = ["a-b-c-6/11/2026, 10:00:00", "a-b-c-6/11/2026, 10:00:00"]
      ∧ (notificationsOf (addGlobalNotificationsToNewUser sameKeyState "bob") "bob").map
          (fun n => (n.title, n.message))
        = [("a-b", "c")] := by
  decide

/-- Claim C26. For every loaded log list of length n, the list stored by `addLog` has the new
entry first; it is the new entry followed by the whole loaded list (length n + 1) when n is
below 100, and the new entry followed by the loaded list without its last entry (length n) when
n is 100 or more, so a loaded list longer than 100 keeps its length. -/
theorem addLog_removes_at_most_one (s : State) (type message now : String) :
    (addLog s type message now).logs.head?
        = some { type := type, message := message,
                 user := match s.currentUser with
                   | some u => u.username
                   | none => "Sistema"
                 timestamp := now }
      ∧ (s.logs.length < 100 →
          (addLog s type message now).logs
              = { type := type, message := message,
                  user := match s.currentUser with
                    | some u => u.username
                    | none => "Sistema"
                  timestamp := now } :: s.logs
            ∧ (addLog s type message now).logs.length = s.logs.length + 1)
      ∧ (100 ≤ s.logs.length →
          (addLog s type message now).logs
              = { type := type, message := message,
                  user := match s.currentUser with
                    | some u => u.username
                    | none => "Sistema"
                  timestamp := now } :: s.logs.dropLast
            ∧ (addLog s type message now).logs.length = s.logs.length
            ∧ (100 < s.logs.length → 100 < (addLog s type message now).logs.length)) := by
  have hlogs := addLog_logs s type message now
  by_cases hn : s.logs.length < 100
  · have hnot : ¬ (s.logs.length + 1 > 100) := by omega
    rw [if_neg hnot] at hlogs
    refine ⟨by rw [hlogs]; rfl, fun _ => ⟨hlogs, by rw [hlogs]; rfl⟩, fun h => by omega⟩
  · have hgt : s.logs.length + 1 > 100 := by omega
    rw [if_pos hgt] at hlogs
    have hne : s.logs ≠ [] := by
      intro h
      rw [h] at hn
      exact hn (by decide)
    obtain ⟨a, rest, hcons⟩ := List.exists_cons_of_ne_nil hne
    have hdrop : ∀ entry : LogEntry, (entry :: s.logs).dropLast = entry :: s.logs.dropLast := by
      intro entry
      rw [hcons]
      rfl
    rw [hdrop] at hlogs
    have hlen : (addLog s type message now).logs.length = s.logs.length := by
      rw [hlogs, List.length_cons, List.length_dropLast]
      omega
    refine ⟨by rw [hlogs]; rfl, fun h => by omega, fun _ => ⟨hlogs, hlen, fun h => ?_⟩⟩
    omega

theorem addLog_removes_at_most_one_witness :
    (addLog { emptyState with logs := List.replicate 150 sampleLog } "login" "m" "t").logs.length
        = 150
      ∧ (addLog sampleState "login" "m" "t").logs.length = 1 :=
  ⟨by
      have h := (addLog_removes_at_most_one
        { emptyState with logs := List.replicate 150 sampleLog } "login" "m" "t").2.2
        (by simp)
      rw [h.2.1]
      simp,
    ((addLog_removes_at_most_one sampleState "login" "m" "t").2.1 (by decide)).2⟩

/-! ## Properties: frames of the per-user notification handlers and of rejectRequest -/

theorem eraseP_of_find? {α : Type} (p : α → Bool) :
    ∀ (l : List α) (x : α), l.find? p = some x →
      ∃ pre post, l = pre ++ x :: post ∧ (∀ y ∈ pre, p y = false) ∧ p x = true
        ∧ l.eraseP p = pre ++ post := by
  intro l
  induction l with
  | nil => intro x h; simp at h
  | cons a l ih =>
    intro x h
    by_cases ha : p a = true
    · rw [List.find?_cons_of_pos _ ha] at h
      have hax : a = x := by simpa using h
      subst hax
      exact ⟨[], l, rfl, by simp, ha, by simp [List.eraseP_cons, ha]⟩
    · rw [List.find?_cons_of_neg _ ha] at h
      obtain ⟨pre, post, hl, hpre, hx, he⟩ := ih x h
      refine ⟨a :: pre, post, by simp [hl], ?_, hx, by simp [List.eraseP_cons, ha, he]⟩
      intro y hy
      rcases List.mem_cons.mp hy with rfl | hy
      · simpa using ha
      · exact hpre y hy

/-- Claim C28, refuted as stated. Ana is logged in and two stored notifications are addressed
to her; when the confirmation dialog of `clearUserNotifications` is declined, nothing is
removed. -/
theorem clearUserNotifications_declined_counterexample :
    anaSessionState.currentUser.map (fun u => u.username) = some "ana"
      ∧ (anaSessionState.notifications.filter (fun n => n.recipient == "ana")).length = 2
      ∧ clearUserNotifications anaSessionState false = anaSessionState := by
  decide

theorem filter_map_of_fixed {α : Type} (p : α → Bool) (f : α → α)
    (hsame : ∀ x, p (f x) = p x) (hfixed : ∀ x, p x = true → f x = x) :
    ∀ l : List α, (l.map f).filter p = l.filter p := by
  intro l
  induction l with
  | nil => rfl
  | cons a l ih =>
    rw [List.map_cons]
    by_cases ha : p a = true
    · have hfa : p (f a) = true := by rw [hsame, ha]
      rw [List.filter_cons_of_pos hfa, List.filter_cons_of_pos ha, ih, hfixed a ha]
    · have hfa : ¬ p (f a) = true := by rw [hsame]; exact ha
      rw [List.filter_cons_of_neg hfa, List.filter_cons_of_neg ha, ih]

theorem filter_filter_of_imp {α : Type} (p q : α → Bool)
    (h : ∀ x, q x = true → p x = true) :
    ∀ l : List α, (l.filter p).filter q = l.filter q := by
  intro l
  induction l with
  | nil => rfl
  | cons a l ih =>
    by_cases hq : q a = true
    · rw [List.filter_cons_of_pos (h a hq), List.filter_cons_of_pos hq,
        List.filter_cons_of_pos hq, ih]
    · by_cases hp : p a = true
      · rw [List.filter_cons_of_pos hp, List.filter_cons_of_neg hq,
          List.filter_cons_of_neg hq, ih]
      · rw [List.filter_cons_of_neg hp, List.filter_cons_of_neg hq, ih]

theorem filter_marked (username other : String) (hother : other ≠ username)
    (l : List Notification) :
    (l.map (fun n => if n.recipient == username then { n with read := true } else n)).filter
        (fun n => n.recipient == other)
      = l.filter (fun n => n.recipient == other) := by
  apply filter_map_of_fixed (fun n : Notification => n.recipient == other)
  · intro x
    by_cases hx : (x.recipient == username) = true
    · simp only [hx, if_true]
    · simp only [hx, if_false, Bool.false_eq_true]
  · intro x hx
    have hne : ¬ (x.recipient == username) = true := by
      rw [beq_iff_eq] at hx ⊢
      rw [hx]
      exact hother
    simp only [hne, if_false, Bool.false_eq_true]

theorem marked_read (username : String) (l : List Notification) :
    ∀ n ∈ (l.map (fun n => if n.recipient == username then { n with read := true }
        else n)).filter (fun n => n.recipient == username), n.read = true := by
  intro n hn
  simp only [List.mem_filter, List.mem_map] at hn
  obtain ⟨⟨m, _, hm⟩, hrec⟩ := hn
  by_cases hmr : (m.recipient == username) = true
  · rw [if_pos hmr] at hm
    rw [← hm]
  · rw [if_neg hmr] at hm
    rw [hm] at hmr
    exact absurd hrec hmr

theorem filter_cleared (username other : String) (hother : other ≠ username)
    (l : List Notification) :
    (l.filter (fun n => n.recipient != username)).filter (fun n => n.recipient == other)
      = l.filter (fun n => n.recipient == other) := by
  apply filter_filter_of_imp
  intro x hx
  rw [beq_iff_eq] at hx
  rw [hx]
  simpa using hother

theorem filter_cleared_own (username : String) (l : List Notification) :
    (l.filter (fun n => n.recipient != username)).filter (fun n => n.recipient == username)
      = [] := by
  apply List.filter_eq_nil_iff.mpr
  intro n hn
  have := (List.mem_filter.mp hn).2
  simpa using this

/-- Claim C28, amended. For every notification collection and current user:
`markAllNotificationsRead` replaces each record addressed to the current user by the same
record with read set to true and keeps every other record, in place;
`clearUserNotifications`, once confirmed, keeps exactly the records not addressed to the
current user, unchanged and in their order, and changes nothing when the dialog is declined.
Neither changes anything else of the state, and the notifications of every other user are the
same list afterwards. -/
theorem notification_handlers_frame (s : State) (current : User)
    (hcur : s.currentUser = some current) :
    markAllNotificationsRead s
        = { s with notifications := s.notifications.map (fun n =>
              if n.recipient == current.username then { n with read := true } else n) }
      ∧ (markAllNotificationsRead s).notifications.length = s.notifications.length
      ∧ (∀ other, other ≠ current.username →
          notificationsOf (markAllNotificationsRead s) other = notificationsOf s other)
      ∧ (∀ n ∈ notificationsOf (markAllNotificationsRead s) current.username, n.read = true)
      ∧ clearUserNotifications s true
        = { s with notifications :=
              s.notifications.filter (fun n => n.recipient != current.username) }
      ∧ (∀ other, other ≠ current.username →
          notificationsOf (clearUserNotifications s true) other = notificationsOf s other)
      ∧ notificationsOf (clearUserNotifications s true) current.username = []
      ∧ List.Sublist (clearUserNotifications s true).notifications s.notifications
      ∧ clearUserNotifications s false = s := by
  have hmark : markAllNotificationsRead s
      = { s with notifications := s.notifications.map (fun n =>
            if n.recipient == current.username then { n with read := true } else n) } := by
    unfold markAllNotificationsRead
    rw [hcur]
  have hclear : clearUserNotifications s true
      = { s with notifications :=
            s.notifications.filter (fun n => n.recipient != current.username) } := by
    unfold clearUserNotifications
    rw [hcur]
    rfl
  refine ⟨hmark, ?_, ?_, ?_, hclear, ?_, ?_, ?_, rfl⟩
  · rw [hmark]
    exact List.length_map _ _
  · intro other hother
    rw [hmark]
    exact filter_marked current.username other hother s.notifications
  · intro n hn
    rw [hmark] at hn
    exact marked_read current.username s.notifications n hn
  · intro other hother
    rw [hclear]
    exact filter_cleared current.username other hother s.notifications
  · rw [hclear]
    exact filter_cleared_own current.username s.notifications
  · rw [hclear]
    exact List.filter_sublist _

theorem notification_handlers_frame_witness :
    (markAllNotificationsRead anaSessionState).notifications.map (fun n => (n.recipient, n.read))
        = [("ana", true), ("bob", false), ("ana", true)]
      ∧ notificationsOf (clearUserNotifications anaSessionState true) "bob"
        = notificationsOf anaSessionState "bob" :=
  ⟨by decide,
    (notification_handlers_frame anaSessionState (sampleUser "ana") rfl).2.2.2.2.2.1 "bob"
      (by decide)⟩

/-- Claim C29, refuted as stated. A request with id 7 is stored; when the confirmation dialog
of `rejectRequest` is declined, no record is removed. -/
theorem rejectRequest_declined_counterexample :
    anaSessionState.accountRequests.map (fun r => r.id) = [7, 8]
      ∧ rejectRequest anaSessionState 7 false = anaSessionState := by
  decide

/-- Claim C29, amended. `rejectRequest(k)`, once confirmed, removes exactly one record, the
first request whose id is k, keeps every other request unchanged and in order, and changes
nothing else of the state (the users collection in particular); when no request has id k, or
when the dialog is declined, the state is unchanged. -/
theorem rejectRequest_frame (s : State) (requestId : Nat) :
    (∀ target, s.accountRequests.find? (fun r => r.id == requestId) = some target →
        ∃ pre post, s.accountRequests = pre ++ target :: post
          ∧ (∀ r ∈ pre, r.id ≠ requestId) ∧ target.id = requestId
          ∧ rejectRequest s requestId true = { s with accountRequests := pre ++ post })
      ∧ ((∀ r ∈ s.accountRequests, r.id ≠ requestId) → rejectRequest s requestId true = s)
      ∧ (∀ confirmed, (rejectRequest s requestId confirmed).users = s.users)
      ∧ rejectRequest s requestId false = s := by
  refine ⟨?_, ?_, ?_, rfl⟩
  · intro target hfind
    obtain ⟨pre, post, hl, hpre, hx, he⟩ :=
      eraseP_of_find? (fun r : AccountRequest => r.id == requestId) s.accountRequests target
        hfind
    refine ⟨pre, post, hl, ?_, by simpa using hx, ?_⟩
    · intro r hr
      simpa using hpre r hr
    · simp [rejectRequest, hfind, he]
  · intro hnone
    have hfind : s.accountRequests.find? (fun r => r.id == requestId) = none := by
      apply List.find?_eq_none.mpr
      intro r hr
      simpa using hnone r hr
    simp [rejectRequest, hfind]
  · intro confirmed
    unfold rejectRequest
    split
    · rfl
    · split <;> rfl

theorem rejectRequest_frame_witness :
    ∃ pre post, anaSessionState.accountRequests = pre ++ sampleRequest 8 "dora" "pending" :: post
      ∧ (∀ r ∈ pre, r.id ≠ 8) ∧ (sampleRequest 8 "dora" "pending").id = 8
      ∧ rejectRequest anaSessionState 8 true
        = { anaSessionState with accountRequests := pre ++ post } :=
  (rejectRequest_frame anaSessionState 8).1 (sampleRequest 8 "dora" "pending") (by decide)

/-! ## Properties: decryptData never raises -/

theorem decryptData_of_failure (encrypted : List Nat)
    (h : decryptAttempt encrypted = none) : decryptData encrypted = .null := by
  simp only [decryptData, h]

theorem getCollection_fallback (p : Persistence) (name : String) (fallback : Json)
    (remote : RemoteRead) (data : Json) (hdata : getData p name remote = some data)
    (hfalsy : data.truthy = false)
    (hblob : decryptAttempt (itemText (p.localStorage.getItem ("bt_" ++ name))) = none) :
    getCollection p name fallback remote = some fallback := by
  have hnull := decryptData_of_failure _ hblob
  have hn : Json.null.truthy = false := rfl
  simp only [getCollection, hdata, hfalsy, hnull, Json.orElse, hn, if_false,
    Bool.false_eq_true]

/-- The read `getData` itself is not guarded in local-only mode: when it raises (the plain
entry under the path is not JSON), the getter raises too and the obfuscated entry is not
consulted. -/
theorem getCollection_raises (p : Persistence) (name : String) (fallback : Json)
    (remote : RemoteRead) (h : getData p name remote = none) :
    getCollection p name fallback remote = none := by
  simp only [getCollection, h]

theorem decryptAttempt_missing : decryptAttempt (itemText none) = none := by
  rfl

/-- Claim C30. `decryptData` returns a value for every input string and raises nothing: when
any step of the decoding fails (the text is not base64, the decoded text is not base64, the
bytes are not UTF-8, the text is not JSON) the result is `null`, and so it is for a missing
entry.  Hence, when `getData` yields nothing truthy and the local obfuscated entry is missing or
cannot be decoded, each collection getter returns its default: the empty array, or the default
game status. -/
theorem decryptData_total :
    (∀ encrypted, decryptAttempt encrypted = none → decryptData encrypted = .null)
      ∧ (∀ encrypted, atob encrypted = none → decryptData encrypted = .null)
      ∧ (∀ encrypted decoded, atob encrypted = some decoded → atob decoded = none →
          decryptData encrypted = .null)
      ∧ (∀ encrypted decoded inner, atob encrypted = some decoded →
          atob decoded = some inner → decodeURIComponent (escape inner) = none →
          decryptData encrypted = .null)
      ∧ (∀ encrypted decoded inner str, atob encrypted = some decoded →
          atob decoded = some inner → decodeURIComponent (escape inner) = some str →
          JSON.parse str = none → decryptData encrypted = .null)
      ∧ decryptData (itemText none) = .null
      ∧ (∀ (p : Persistence) (remote : RemoteRead) (data : Json),
          data.truthy = false →
          (getData p "users" remote = some data →
            decryptAttempt (itemText (p.localStorage.getItem "bt_users")) = none →
            getUsers p remote = some (.arr []))
          ∧ (getData p "gameStatus" remote = some data →
            decryptAttempt (itemText (p.localStorage.getItem "bt_gameStatus")) = none →
            getGameStatus p remote = some defaultGameStatus)
          ∧ (getData p "bugs" remote = some data →
            decryptAttempt (itemText (p.localStorage.getItem "bt_bugs")) = none →
            getBugs p remote = some (.arr []))
          ∧ (getData p "suggestions" remote = some data →
            decryptAttempt (itemText (p.localStorage.getItem "bt_suggestions")) = none →
            getSuggestions p remote = some (.arr []))
          ∧ (getData p "notifications" remote = some data →
            decryptAttempt (itemText (p.localStorage.getItem "bt_notifications")) = none →
            getNotifications p remote = some (.arr []))
          ∧ (getData p "logs" remote = some data →
            decryptAttempt (itemText (p.localStorage.getItem "bt_logs")) = none →
            getLogs p remote = some (.arr []))
          ∧ (getData p "accountRequests" remote = some data →
            decryptAttempt (itemText (p.localStorage.getItem "bt_accountRequests")) = none →
            getAccountRequests p remote = some (.arr [])))
      ∧ (∀ (ls : LocalStorage) (remote : RemoteRead),
          ls.getItem "users" = none → ls.getItem "bt_users" = none →
          getUsers { localStorage := ls, isFirebaseReady := false } remote
            = some (.arr [])) := by
  refine ⟨decryptData_of_failure, ?_, ?_, ?_, ?_, ?_, ?_, ?_⟩
  · intro encrypted h
    apply decryptData_of_failure
    simp only [decryptAttempt, h]
  · intro encrypted decoded h1 h2
    apply decryptData_of_failure
    simp only [decryptAttempt, h1, h2]
  · intro encrypted decoded inner h1 h2 h3
    apply decryptData_of_failure
    simp only [decryptAttempt, h1, h2, h3]
  · intro encrypted decoded inner str h1 h2 h3 h4
    apply decryptData_of_failure
    simp only [decryptAttempt, h1, h2, h3, h4]
  · exact decryptData_of_failure _ decryptAttempt_missing
  · intro p remote data hfalsy
    exact ⟨fun h1 h2 => getCollection_fallback p "users" _ remote data h1 hfalsy h2,
      fun h1 h2 => getCollection_fallback p "gameStatus" _ remote data h1 hfalsy h2,
      fun h1 h2 => getCollection_fallback p "bugs" _ remote data h1 hfalsy h2,
      fun h1 h2 => getCollection_fallback p "suggestions" _ remote data h1 hfalsy h2,
      fun h1 h2 => getCollection_fallback p "notifications" _ remote data h1 hfalsy h2,
      fun h1 h2 => getCollection_fallback p "logs" _ remote data h1 hfalsy h2,
      fun h1 h2 => getCollection_fallback p "accountRequests" _ remote data h1 hfalsy h2⟩
  · intro ls remote hmirror hblob
    have hdata : getData { localStorage := ls, isFirebaseReady := false } "users" remote
        = some .null := by
      simp [getData, localRead, hmirror]
    have hmissing : decryptAttempt (itemText
        (({ localStorage := ls, isFirebaseReady := false } : Persistence).localStorage.getItem
          ("bt_" ++ "users"))) = none := by
      have hkey : ("bt_" ++ "users" : String) = "bt_users" := by decide
      rw [hkey]
      show decryptAttempt (itemText (ls.getItem "bt_users")) = none
      rw [hblob]
      exact decryptAttempt_missing
    exact getCollection_fallback _ "users" _ remote .null hdata rfl hmissing

theorem decryptData_total_witness :
    decryptData (codeUnits "not base64!") = .null
      ∧ decryptData (codeUnits "Pz8/") = .null
      ∧ decryptData (codeUnits "L3c9PQ==") = .null
      ∧ decryptData (codeUnits "ZXc9PQ==") = .null
      ∧ getUsers { localStorage := [("bt_users", codeUnits "ZXc9PQ==")],
                   isFirebaseReady := false } .failure = some (.arr [])
      ∧ getGameStatus { localStorage := [], isFirebaseReady := true } (.value .null)
        = some defaultGameStatus :=
  ⟨decryptData_total.2.1 _ (by decide),
    decryptData_total.2.2.1 _ (codeUnits "???") (by decide) (by decide),
    decryptData_total.2.2.2.1 _ (codeUnits "/w==") [255] (by decide) (by decide) (by decide),
    decryptData_total.2.2.2.2.1 _ (codeUnits "ew==") (codeUnits "\x7b") (codeUnits "\x7b")
      (by decide) (by decide) (by decide) rfl,
    (decryptData_total.2.2.2.2.2.2.1 _ .failure .null rfl).1 rfl rfl,
    (decryptData_total.2.2.2.2.2.2.1 _ (.value .null) .null rfl).2.1 rfl rfl⟩

/-! ## Properties: changePassword and the flag of the account -/

/-- Claim C13, failing on the code. The primary admin root logs in, deletes the own account
and creates the account root again with role user (password 1281): the stored record of root
carries no flag, the session object still does.  `changePassword` takes the flag from the
session object, so it accepts the 6-digit password 123456 and stores it in the record of an
account that does not carry the flag; `saveEdit`, which takes the flag from the stored record,
refuses the same password for the same account. -/
theorem changePassword_stale_flag_accepts_six_digits :
    (login adminOnlyState "root" "0000" "6/11/2026, 10:00:00").currentUser = some sampleAdmin
      ∧ generateRandomPassword (2 ^ 1069) = "1281"
      ∧ staleSessionState.currentUser.map (fun u => (u.username, u.isMainAdmin))
        = some ("root", some true)
      ∧ staleSessionState.users
        = [{ username := "root", password := hashPassword "1281", plainPassword := "1281",
             role := "user", robloxName := "root_rbx", discord := none, isMainAdmin := none }]
      ∧ isFourDigits "123456" = false
      ∧ (changePassword staleSessionState "1281" "123456" "123456" 1730851260000).users
        = [{ username := "root", password := hashPassword "123456",
             plainPassword := "123456", role := "user", robloxName := "root_rbx",
             discord := none, isMainAdmin := none }]
      ∧ (saveEdit (editAccount staleSessionState "root") "123456" "root_rbx" "user"
          1730851260000).users = staleSessionState.users := by
  decide

end ClickerBeta
